import Mathlib

/-!
# Yaksha type checker: a shallow embedding of `src/compiler/type_checker.cpp`

The C++ visitor `yaksha::type_checker` is embedded as explicit state passing:
every `visit_*` member function becomes a function from the checker state to
the new checker state.  Dereferencing the null pointer that
`functions_.get` returns for an unknown name is modelled by `none`.
-/

namespace yaksha

/-! ## Tokens, semantic types and diagnostics -/

/-- Lexical categories of `token_type` that `type_checker.cpp` mentions by
name; every remaining category of the tokenizer is `OTHER n`. -/
inductive token_type
  | PLUS | SUB | MUL | DIV
  | GREAT | GREAT_EQ | LESS | LESS_EQ
  | STRING | THREE_QUOTE_STRING
  | KEYWORD_TRUE | KEYWORD_FALSE
  | INTEGER_BIN | INTEGER_OCT | INTEGER_DECIMAL | INTEGER_HEX
  | FLOAT_NUMBER
  | OTHER (n : Nat)
deriving DecidableEq, Repr

/-- The `token` record: raw text, lexical category and source position. -/
structure token where
  token_ : String
  type_ : token_type
  line_ : Nat
  pos_ : Nat
deriving DecidableEq, Repr

/-- Semantic type tag `object_type` of `ykobject`. -/
inductive object_type
  | NONE_OBJ | BOOL | INTEGER | DOUBLE | STRING | FUNCTION
deriving DecidableEq, Repr

/-- Typed value `ykobject`: the semantic type and the name slot that is
stamped on function references.  `ykobject()` is `NONE_OBJ` with no name. -/
structure ykobject where
  object_type_ : object_type
  string_val_ : String
deriving DecidableEq, Repr

/-- The default constructed `ykobject()`. -/
def ykobject.mk0 : ykobject := ⟨object_type.NONE_OBJ, ""⟩

/-- Node kinds `ast_type`, one per expression and statement node; the
statement-kind stack holds `STMT_DEF` and `STMT_WHILE`, and `STMT_PASS`
doubles as "unknown" in `peek_scope_type`. -/
inductive ast_type
  | EXPR_ASSIGN | EXPR_BINARY | EXPR_FNCALL | EXPR_GROUPING | EXPR_LITERAL
  | EXPR_LOGICAL | EXPR_UNARY | EXPR_VARIABLE
  | STMT_BLOCK | STMT_BREAK | STMT_CONTINUE | STMT_DEF | STMT_DEFER
  | STMT_EXPRESSION | STMT_IF | STMT_LET | STMT_PASS | STMT_PRINT
  | STMT_RETURN | STMT_WHILE
deriving DecidableEq, Repr

/-- Diagnostic `parsing_error`: `tok_` is `none` exactly when `token_set_`
is false (the position-less constructor of `type_checker::error`). -/
structure parsing_error where
  message_ : String
  tok_ : Option token
deriving DecidableEq, Repr

/-- Flag `token_set_` of a diagnostic. -/
def parsing_error.token_set_ (e : parsing_error) : Bool := e.tok_.isSome

/-! ## Syntax tree -/

/-- Syntactic type annotation `ykdatatype`; only its name token is read. -/
structure ykdatatype where
  name_ : token
deriving DecidableEq, Repr

/-- One declared parameter of a function definition. -/
structure parameter where
  name_ : token
  data_type_ : ykdatatype
deriving DecidableEq, Repr

/-- Expression nodes (`ast.h`), one constructor per `visit_*_expr`. -/
inductive expr
  | assign_expr (name_ : token) (opr_ : token) (right_ : expr)
  | binary_expr (left_ : expr) (opr_ : token) (right_ : expr)
  | fncall_expr (name_ : expr) (paren_token_ : token) (args_ : List expr)
  | grouping_expr (expression_ : expr)
  | literal_expr (literal_token_ : token)
  | logical_expr (left_ : expr) (opr_ : token) (right_ : expr)
  | unary_expr (opr_ : token) (right_ : expr)
  | variable_expr (name_ : token)

/-- Statement nodes (`ast.h`), one constructor per `visit_*_stmt`.  The
nullable children `let_stmt::expression_` and `if_stmt::else_branch_` are
options. -/
inductive stmt
  | block_stmt (statements_ : List stmt)
  | break_stmt (break_token_ : token)
  | continue_stmt (continue_token_ : token)
  | def_stmt (name_ : token) (params_ : List parameter) (function_body_ : stmt)
      (return_type_ : ykdatatype)
  | defer_stmt (defer_keyword_ : token) (expression_ : expr)
  | expression_stmt (expression_ : expr)
  | if_stmt (if_keyword_ : token) (expression_ : expr) (if_branch_ : stmt)
      (else_branch_ : Option stmt)
  | let_stmt (name_ : token) (data_type_ : ykdatatype) (expression_ : Option expr)
  | pass_stmt (pass_token_ : token)
  | print_stmt (print_keyword_ : token) (expression_ : expr)
  | return_stmt (return_keyword_ : token) (expression_ : expr)
  | while_stmt (while_keyword_ : token) (expression_ : expr) (while_body_ : stmt)

/-! ## Scope table

The class `environment_stack` behind `scope_` is declared outside
`type_checker.cpp`; its operations follow section 4.1 of the specification. -/

/-- Modelled from the spec: one frame of the scope table (`environment`, not
in `type_checker.cpp`), a mapping from canonical name to typed value with
keys unique within the frame. -/
abbrev environment := List (String × ykobject)

/-- Modelled from the spec: insertion of a binding into a frame
(`environment::define`, not in `type_checker.cpp`); the new binding replaces
an older one of the same name. -/
def environment.define (f : environment) (name : String) (v : ykobject) :
    environment :=
  (name, v) :: f.filter (fun p => p.1 != name)

/-- Modelled from the spec: the scope table (`environment_stack`, not in
`type_checker.cpp`): an ordered stack of frames.  `global_` is the bottom
frame, `frames_` the frames pushed above it, innermost first. -/
structure environment_stack where
  global_ : environment
  frames_ : List environment
deriving DecidableEq, Repr

/-- Modelled from the spec: `environment_stack::push` (not in
`type_checker.cpp`) pushes a new empty frame. -/
def environment_stack.push (s : environment_stack) : environment_stack :=
  { s with frames_ := [] :: s.frames_ }

/-- Modelled from the spec: `environment_stack::pop` (not in
`type_checker.cpp`) discards the top frame; the bottom frame stays. -/
def environment_stack.pop (s : environment_stack) : environment_stack :=
  { s with frames_ := s.frames_.tail }

/-- Modelled from the spec: `environment_stack::define` (not in
`type_checker.cpp`) inserts into the top frame. -/
def environment_stack.define (s : environment_stack) (name : String)
    (v : ykobject) : environment_stack :=
  match s.frames_ with
  | [] => { s with global_ := s.global_.define name v }
  | f :: fs => { s with frames_ := f.define name v :: fs }

/-- Modelled from the spec: `environment_stack::define_global` (not in
`type_checker.cpp`) inserts into the bottom frame whatever the nesting. -/
def environment_stack.define_global (s : environment_stack) (name : String)
    (v : ykobject) : environment_stack :=
  { s with global_ := s.global_.define name v }

/-- Frames of the scope table from the top frame down to the bottom frame. -/
def environment_stack.all_frames (s : environment_stack) : List environment :=
  s.frames_ ++ [s.global_]

/-- Nearest enclosing binding of a name in a top-down list of frames. -/
def environment.find_in : List environment → String → Option ykobject
  | [], _ => none
  | f :: fs, name =>
    match f.lookup name with
    | some v => some v
    | none => environment.find_in fs name

/-- Modelled from the spec: `environment_stack::is_defined` (not in
`type_checker.cpp`) searches all frames top-down. -/
def environment_stack.is_defined (s : environment_stack) (name : String) : Bool :=
  (environment.find_in s.all_frames name).isSome

/-- Modelled from the spec: `environment_stack::get` (not in
`type_checker.cpp`) returns the nearest enclosing binding; it is only called
after `is_defined` succeeded, and yields `ykobject()` otherwise. -/
def environment_stack.get (s : environment_stack) (name : String) : ykobject :=
  (environment.find_in s.all_frames name).getD ykobject.mk0

/-! ## Function signature table

The table behind `functions_` is declared outside `type_checker.cpp`; its
contract is section 6 of the specification. -/

/-- Function signature held by the table: the members of the `def_stmt` that
`type_checker.cpp` reads through `functions_.get`. -/
structure def_signature where
  name_ : token
  params_ : List parameter
  return_type_ : ykdatatype
deriving DecidableEq, Repr

/-- Modelled from the spec: the function signature table (class of
`functions_`, not in `type_checker.cpp`): the ordered enumeration of the
extracted names, the name to signature map, and its own diagnostics. -/
structure def_visitor where
  function_names_ : List String
  functions_ : List (String × def_signature)
  errors_ : List parsing_error
deriving DecidableEq, Repr

/-- Modelled from the spec: `get(name)` of the signature table (not in
`type_checker.cpp`); `none` is the null pointer returned for an unknown
name. -/
def def_visitor.get (t : def_visitor) (name : String) : Option def_signature :=
  t.functions_.lookup name

/-- Modelled from the spec: `has(name)` of the signature table (not in
`type_checker.cpp`). -/
def def_visitor.has (t : def_visitor) (name : String) : Bool :=
  (t.get name).isSome

/-- Every enumerated name has a signature: the shape of a table produced by
extraction. -/
def def_visitor.well_formed (t : def_visitor) : Prop :=
  ∀ name ∈ t.function_names_, t.has name = true

/-- Modelled from the spec: one step of `extract` (not in
`type_checker.cpp`): a top-level function definition is recorded under its
canonical name, a duplicate name is a diagnostic of the table, any other
statement is skipped. -/
def def_visitor.extract_one (pfx : String → String) (t : def_visitor) :
    stmt → def_visitor
  | .def_stmt name_ params_ _ return_type_ =>
    if t.has (pfx name_.token_) then
      { t with errors_ := t.errors_ ++ [⟨"Duplicate function definition", some name_⟩] }
    else
      { t with
        function_names_ := t.function_names_ ++ [pfx name_.token_]
        functions_ := t.functions_ ++ [(pfx name_.token_, ⟨name_, params_, return_type_⟩)] }
  | _ => t

/-- Modelled from the spec: `extract(statements)` of the signature table (not
in `type_checker.cpp`) scans the top-level statements in order. -/
def def_visitor.extract (pfx : String → String) (statements : List stmt)
    (t : def_visitor) : def_visitor :=
  statements.foldl (def_visitor.extract_one pfx) t

/-! ## Checker state and its helpers -/

/-- Members of `type_checker`.  The three stacks are lists whose head is the
`back()` of the C++ vector; `errors_` grows at its end. -/
structure type_checker where
  errors_ : List parsing_error
  functions_ : def_visitor
  scope_ : environment_stack
  object_stack_ : List ykobject
  scope_type_stack_ : List ast_type
  function_name_stack_ : List String
deriving DecidableEq, Repr

/-- A freshly constructed `type_checker`. -/
def type_checker.init : type_checker :=
  { errors_ := []
    functions_ := ⟨[], [], []⟩
    scope_ := ⟨[], []⟩
    object_stack_ := []
    scope_type_stack_ := []
    function_name_stack_ := [] }

/-- Overload `type_checker::error(token *, message)`. -/
def type_checker.error (tc : type_checker) (tok : token) (message : String) :
    type_checker :=
  { tc with errors_ := tc.errors_ ++ [⟨message, some tok⟩] }

/-- Overload `type_checker::error(message)`: no position, `token_set_` false. -/
def type_checker.error_no_token (tc : type_checker) (message : String) :
    type_checker :=
  { tc with errors_ := tc.errors_ ++ [⟨message, none⟩] }

/-- Member `type_checker::push`. -/
def type_checker.push (tc : type_checker) (data_type : ykobject) : type_checker :=
  { tc with object_stack_ := data_type :: tc.object_stack_ }

/-- Member `type_checker::pop`: `ykobject()` on an empty stack. -/
def type_checker.pop (tc : type_checker) : ykobject × type_checker :=
  match tc.object_stack_ with
  | [] => (ykobject.mk0, tc)
  | back :: rest => (back, { tc with object_stack_ := rest })

/-- Member `type_checker::convert_data_type`. -/
def convert_data_type (basic_dt : token) : object_type :=
  if basic_dt.token_ = "str" then object_type.STRING
  else if basic_dt.token_ = "int" ∨ basic_dt.token_ = "i32" then object_type.INTEGER
  else if basic_dt.token_ = "float" then object_type.DOUBLE
  else object_type.NONE_OBJ

/-- Member `type_checker::match_data_type`. -/
def match_data_type (type_in_code : token) (type_in_checker : ykobject) : Bool :=
  convert_data_type type_in_code == type_in_checker.object_type_

/-- Member `type_checker::push_scope_type`. -/
def type_checker.push_scope_type (tc : type_checker) (scope_type : ast_type) :
    type_checker :=
  { tc with scope_type_stack_ := scope_type :: tc.scope_type_stack_ }

/-- Member `type_checker::peek_scope_type`: `STMT_PASS` stands for unknown. -/
def type_checker.peek_scope_type (tc : type_checker) : ast_type :=
  match tc.scope_type_stack_ with
  | [] => ast_type.STMT_PASS
  | back :: _ => back

/-- Member `type_checker::pop_scope_type`. -/
def type_checker.pop_scope_type (tc : type_checker) : type_checker :=
  { tc with scope_type_stack_ := tc.scope_type_stack_.tail }

/-- Member `type_checker::push_function`. -/
def type_checker.push_function (tc : type_checker) (prefixed_name : String) :
    type_checker :=
  { tc with function_name_stack_ := prefixed_name :: tc.function_name_stack_ }

/-- Member `type_checker::peek_function`: the empty string on an empty stack. -/
def type_checker.peek_function (tc : type_checker) : String :=
  match tc.function_name_stack_ with
  | [] => ""
  | back :: _ => back

/-- Member `type_checker::pop_function`. -/
def type_checker.pop_function (tc : type_checker) : type_checker :=
  { tc with function_name_stack_ := tc.function_name_stack_.tail }

/-- Scope operations lifted to the checker state. -/
def type_checker.scope_push (tc : type_checker) : type_checker :=
  { tc with scope_ := tc.scope_.push }

/-- The call `scope_.pop()` on the checker state. -/
def type_checker.scope_pop (tc : type_checker) : type_checker :=
  { tc with scope_ := tc.scope_.pop }

/-- The call `scope_.define(name, data)` on the checker state. -/
def type_checker.scope_define (tc : type_checker) (name : String) (data : ykobject) :
    type_checker :=
  { tc with scope_ := tc.scope_.define name data }

/-- The call `scope_.define_global(name, data)` on the checker state. -/
def type_checker.scope_define_global (tc : type_checker) (name : String)
    (data : ykobject) : type_checker :=
  { tc with scope_ := tc.scope_.define_global name data }

/-! ## Expression handlers -/

/-- Lines 89-102 of `visit_literal_expr`: the semantic type of a literal
token category. -/
def literal_object_type (literal_type : token_type) : object_type :=
  if literal_type = token_type.STRING ∨ literal_type = token_type.THREE_QUOTE_STRING then
    object_type.STRING
  else if literal_type = token_type.KEYWORD_TRUE ∨ literal_type = token_type.KEYWORD_FALSE then
    object_type.BOOL
  else if literal_type = token_type.INTEGER_BIN ∨ literal_type = token_type.INTEGER_OCT ∨
      literal_type = token_type.INTEGER_DECIMAL ∨ literal_type = token_type.INTEGER_HEX then
    object_type.INTEGER
  else if literal_type = token_type.FLOAT_NUMBER then
    object_type.DOUBLE
  else
    object_type.NONE_OBJ

/-- Text built by the `std::stringstream` at lines 72-73 for index `i`. -/
def mismatch_message (i : Nat) : String :=
  "Parameter & argument " ++ toString (i + 1) ++ " mismatches"

/-- Loop at lines 68-76 of `visit_fncall_expr`, entered with equally long
lists: `i` is the loop counter, the two lists are `params_[i..]` and
`arguments[i..]`. -/
def fncall_match_loop (paren_token_ : token) :
    Nat → List parameter → List ykobject → type_checker → type_checker
  | i, param :: params, arg :: arguments, tc =>
    fncall_match_loop paren_token_ (i + 1) params arguments
      (if match_data_type param.data_type_.name_ arg = false then
        tc.error paren_token_ (mismatch_message i)
      else tc)
  | _, _, _, tc => tc

/-- Lines 27-44 of `visit_binary_expr`, after both operands were popped. -/
def binary_checks (opr_ : token) (lhs rhs : ykobject) (tc : type_checker) :
    type_checker :=
  let oper := opr_.type_
  let tc :=
    if lhs.object_type_ ≠ rhs.object_type_ then
      tc.error opr_ "Binary operation between two different data types is not supported"
    else tc
  let tc :=
    if oper = token_type.PLUS ∧
        (rhs.object_type_ ≠ object_type.DOUBLE ∧ rhs.object_type_ ≠ object_type.INTEGER ∧
          rhs.object_type_ ≠ object_type.STRING) then
      tc.error opr_ "Unsupported operation"
    else tc
  let tc :=
    if (oper = token_type.SUB ∨ oper = token_type.MUL ∨ oper = token_type.DIV ∨
          oper = token_type.GREAT ∨ oper = token_type.GREAT_EQ ∨ oper = token_type.LESS ∨
          oper = token_type.LESS_EQ) ∧
        (rhs.object_type_ ≠ object_type.DOUBLE ∧ rhs.object_type_ ≠ object_type.INTEGER) then
      tc.error opr_ "Unsupported operation"
    else tc
  tc.push rhs

mutual
/-- The `visit_*_expr` handlers, dispatched on the node as `accept` does.
`pfx` is the canonical naming utility `prefix` of `compiler_utils.h`. -/
def visit_expr (pfx : String → String) : expr → type_checker → Option type_checker
  | .assign_expr name_ _ right_, tc =>
    match visit_expr pfx right_ tc with
    | none => none
    | some tc =>
      let rhs := tc.pop.1
      let tc := tc.pop.2
      let name := pfx name_.token_
      if tc.scope_.is_defined name = false then
        some (tc.error name_ "This is not defined")
      else
        let object := tc.scope_.get name
        if rhs.object_type_ ≠ object.object_type_ then
          some (tc.error name_ "Cannot assign between 2 different data types.")
        else some tc
  | .binary_expr left_ opr_ right_, tc =>
    match visit_expr pfx left_ tc with
    | none => none
    | some tc =>
      let lhs := tc.pop.1
      let tc := tc.pop.2
      match visit_expr pfx right_ tc with
      | none => none
      | some tc =>
        let rhs := tc.pop.1
        let tc := tc.pop.2
        some (binary_checks opr_ lhs rhs tc)
  | .fncall_expr name_ paren_token_ args_, tc =>
    match visit_expr pfx name_ tc with
    | none => none
    | some tc =>
      let name := tc.pop.1
      let tc := tc.pop.2
      if name.object_type_ ≠ object_type.FUNCTION then
        some ((tc.error paren_token_
          "Calling a non callable or a non existing function").push ykobject.mk0)
      else
        match visit_args pfx args_ tc with
        | none => none
        | some (arguments, tc) =>
          match tc.functions_.get name.string_val_ with
          | none => none
          | some funct =>
            if funct.params_.length ≠ arguments.length then
              some ((tc.error paren_token_
                "Too few or too much arguments for function call").push ykobject.mk0)
            else
              let tc := fncall_match_loop paren_token_ 0 funct.params_ arguments tc
              some (tc.push ⟨convert_data_type funct.return_type_.name_, ""⟩)
  | .grouping_expr expression_, tc =>
    match visit_expr pfx expression_ tc with
    | none => none
    | some tc =>
      let inside := tc.pop.1
      let tc := tc.pop.2
      some (tc.push inside)
  | .literal_expr literal_token_, tc =>
    some (tc.push ⟨literal_object_type literal_token_.type_, ""⟩)
  | .logical_expr left_ opr_ right_, tc =>
    match visit_expr pfx left_ tc with
    | none => none
    | some tc =>
      let lhs := tc.pop.1
      let tc := tc.pop.2
      match visit_expr pfx right_ tc with
      | none => none
      | some tc =>
        let rhs := tc.pop.1
        let tc := tc.pop.2
        if rhs.object_type_ ≠ object_type.BOOL ∨ lhs.object_type_ ≠ object_type.BOOL then
          some (tc.error opr_ "Both LHS and RHS of logical operator need to be boolean")
        else some tc
  | .unary_expr opr_ right_, tc =>
    match visit_expr pfx right_ tc with
    | none => none
    | some tc =>
      let rhs := tc.pop.1
      let tc := tc.pop.2
      if rhs.object_type_ ≠ object_type.INTEGER ∧ rhs.object_type_ ≠ object_type.DOUBLE then
        some ((tc.error opr_ "Invalid unary operation").push rhs)
      else some (tc.push rhs)
  | .variable_expr name_, tc =>
    let name := pfx name_.token_
    if tc.scope_.is_defined name = false then
      some ((tc.error name_ "Undefined name").push ykobject.mk0)
    else
      let value := tc.scope_.get name
      if value.object_type_ = object_type.FUNCTION then
        some (tc.push { value with string_val_ := name })
      else some (tc.push value)
/-- Loop at lines 56-59 of `visit_fncall_expr`: every argument is visited
and its popped value appended to `arguments`. -/
def visit_args (pfx : String → String) :
    List expr → type_checker → Option (List ykobject × type_checker)
  | [], tc => some ([], tc)
  | arg :: args_, tc =>
    match visit_expr pfx arg tc with
    | none => none
    | some tc =>
      match visit_args pfx args_ tc.pop.2 with
      | none => none
      | some (arguments, tc2) => some (tc.pop.1 :: arguments, tc2)
end

/-! ## Statement handlers -/

/-- Loop at lines 158-167 of `visit_def_stmt` over the parameters. -/
def def_params_loop (pfx : String → String) : List parameter → type_checker → type_checker
  | [], tc => tc
  | param :: params_, tc =>
    let name := pfx param.name_.token_
    def_params_loop pfx params_
      (if tc.scope_.is_defined name then
        tc.error param.name_ "Parameter shadows outer scope name."
      else
        tc.scope_define name ⟨convert_data_type param.data_type_.name_, ""⟩)

mutual
/-- The `visit_*_stmt` handlers, dispatched on the node as `accept` does. -/
def visit_stmt (pfx : String → String) : stmt → type_checker → Option type_checker
  | .block_stmt statements_, tc => visit_stmts pfx statements_ tc
  | .break_stmt break_token_, tc =>
    if tc.peek_scope_type ≠ ast_type.STMT_WHILE then
      some (tc.error break_token_
        "Invalid use of break statement outside of while statement.")
    else some tc
  | .continue_stmt continue_token_, tc =>
    if tc.peek_scope_type ≠ ast_type.STMT_WHILE then
      some (tc.error continue_token_
        "Invalid use of continue statement outside of while statement.")
    else some tc
  | .def_stmt name_ params_ function_body_ _, tc =>
    let tc := tc.push_scope_type ast_type.STMT_DEF
    let tc := tc.push_function (pfx name_.token_)
    let tc := tc.scope_push
    let tc := def_params_loop pfx params_ tc
    match visit_stmt pfx function_body_ tc with
    | none => none
    | some tc =>
      let tc := tc.scope_pop
      let tc := tc.pop_scope_type
      some tc.pop_function
  | .defer_stmt _ expression_, tc => visit_expr pfx expression_ tc
  | .expression_stmt expression_, tc => visit_expr pfx expression_ tc
  | .if_stmt if_keyword_ expression_ if_branch_ else_branch_, tc =>
    match visit_expr pfx expression_ tc with
    | none => none
    | some tc =>
      let bool_expression := tc.pop.1
      let tc := tc.pop.2
      let tc :=
        if bool_expression.object_type_ ≠ object_type.BOOL then
          tc.error if_keyword_ "Invalid boolean expression used"
        else tc
      let tc := tc.scope_push
      match visit_stmt pfx if_branch_ tc with
      | none => none
      | some tc =>
        let tc := tc.scope_pop
        visit_else pfx else_branch_ tc
  | .let_stmt name_ data_type_ expression_, tc =>
    let name := pfx name_.token_
    let placeholder : ykobject := ⟨convert_data_type data_type_.name_, ""⟩
    match expression_ with
    | some e =>
      match visit_expr pfx e tc with
      | none => none
      | some tc =>
        let expression_data := tc.pop.1
        let tc := tc.pop.2
        let tc :=
          if expression_data.object_type_ ≠ placeholder.object_type_ then
            tc.error name_ "Data type mismatch in expression and declaration."
          else tc
        some (tc.scope_define name placeholder)
    | none => some (tc.scope_define name placeholder)
  | .pass_stmt _, tc => some tc
  | .print_stmt _ expression_, tc =>
    match visit_expr pfx expression_ tc with
    | none => none
    | some tc => some tc.pop.2
  | .return_stmt return_keyword_ expression_, tc =>
    let function_name := tc.peek_function
    match visit_expr pfx expression_ tc with
    | none => none
    | some tc =>
      let return_data_type := tc.pop.1
      let tc := tc.pop.2
      if function_name = "" ∨ tc.functions_.has function_name = false then
        some (tc.error return_keyword_ "Invalid use of return statement")
      else
        match tc.functions_.get function_name with
        | none => none
        | some func =>
          if convert_data_type func.return_type_.name_ ≠ return_data_type.object_type_ then
            some (tc.error return_keyword_ "Invalid return data type")
          else some tc
  | .while_stmt while_keyword_ expression_ while_body_, tc =>
    match visit_expr pfx expression_ tc with
    | none => none
    | some tc =>
      let exp := tc.pop.1
      let tc := tc.pop.2
      let tc :=
        if exp.object_type_ ≠ object_type.BOOL then
          tc.error while_keyword_ "While statement expression need to be a boolean"
        else tc
      let tc := tc.push_scope_type ast_type.STMT_WHILE
      let tc := tc.scope_push
      match visit_stmt pfx while_body_ tc with
      | none => none
      | some tc =>
        let tc := tc.scope_pop
        some tc.pop_scope_type
/-- Loop of `visit_block_stmt` over the statements of a block. -/
def visit_stmts (pfx : String → String) : List stmt → type_checker → Option type_checker
  | [], tc => some tc
  | stm :: statements_, tc =>
    match visit_stmt pfx stm tc with
    | none => none
    | some tc => visit_stmts pfx statements_ tc
/-- Lines 185-189 of `visit_if_stmt`: the else branch, when there is one, is
walked in a frame of its own. -/
def visit_else (pfx : String → String) : Option stmt → type_checker → Option type_checker
  | none, tc => some tc
  | some else_branch_, tc =>
    match visit_stmt pfx else_branch_ tc.scope_push with
    | none => none
    | some tc => some tc.scope_pop
end

/-! ## The entry operation `check` -/

/-- Lines 242-254 of `check`: the entry-point requirements. -/
def check_main (pfx : String → String) (tc : type_checker) : Option type_checker :=
  let main_function_name := pfx "main"
  if tc.functions_.has main_function_name = false then
    some (tc.error_no_token "Critical !! main() function must be present")
  else
    match tc.functions_.get main_function_name with
    | none => none
    | some main_function =>
      let tc :=
        if main_function.params_ ≠ [] then
          tc.error_no_token "Critical !! main() function must not have parameters"
        else tc
      let tc :=
        if convert_data_type main_function.return_type_.name_ ≠ object_type.INTEGER then
          tc.error_no_token "Critical !! main() function must return an integer"
        else tc
      some tc

/-- Loop at lines 255-264 of `check` over `functions_.function_names_`. -/
def check_register : List String → type_checker → Option type_checker
  | [], tc => some tc
  | name :: names, tc =>
    match tc.functions_.get name with
    | none => none
    | some function_definition =>
      let tc :=
        if function_definition.params_.length > 100 then
          tc.error function_definition.name_
            "Number of parameters cannot be larger than 100."
        else tc
      check_register names (tc.scope_define_global name ⟨object_type.FUNCTION, ""⟩)

/-- Lines 241-264 of `check`: everything after `functions_.extract`. -/
def check_after_extract (pfx : String → String) (tc : type_checker) :
    Option type_checker :=
  let tc := { tc with errors_ := tc.errors_ ++ tc.functions_.errors_ }
  match check_main pfx tc with
  | none => none
  | some tc => check_register tc.functions_.function_names_ tc

/-- The entry operation `type_checker::check` (lines 239-265). -/
def check (pfx : String → String) (statements : List stmt) (tc : type_checker) :
    Option type_checker :=
  check_after_extract pfx
    { tc with functions_ := tc.functions_.extract pfx statements }

/-! ## Concrete programs -/

/-- An instance of the canonical naming utility for concrete programs. -/
def canonical_name (s : String) : String := "yy__" ++ s

/-- A token of the given text and category at position 0:0. -/
def tok (s : String) (t : token_type) : token := ⟨s, t, 0, 0⟩

/-- An identifier or keyword token. -/
def word (s : String) : token := tok s (token_type.OTHER 0)

/-- The program `def main() -> int { let x: str = 1; return x; }`. -/
def main_str_program : stmt :=
  .def_stmt (word "main") []
    (.block_stmt
      [.let_stmt (word "x") ⟨word "str"⟩
          (some (.literal_expr (tok "1" token_type.INTEGER_DECIMAL))),
        .return_stmt (word "return") (.variable_expr (word "x"))])
    ⟨word "int"⟩

/-- The program `def main() -> int { let x: int = 1 + 2; return x; }`. -/
def main_ok_program : stmt :=
  .def_stmt (word "main") []
    (.block_stmt
      [.let_stmt (word "x") ⟨word "int"⟩
          (some (.binary_expr (.literal_expr (tok "1" token_type.INTEGER_DECIMAL))
            (tok "+" token_type.PLUS)
            (.literal_expr (tok "2" token_type.INTEGER_DECIMAL)))),
        .return_stmt (word "return") (.variable_expr (word "x"))])
    ⟨word "int"⟩

/-- Top frame of the scope table: the innermost pushed frame, or the bottom
frame when nothing is pushed. -/
def environment_stack.top_frame (s : environment_stack) : environment :=
  match s.frames_ with
  | [] => s.global_
  | f :: _ => f

/-- The position-less diagnostics the claim on the entry point expects for a
signature table, in the words of section 4.5 step 2. -/
def expected_critical (pfx : String → String) (t : def_visitor) : List parsing_error :=
  match t.get (pfx "main") with
  | none => [⟨"Critical !! main() function must be present", none⟩]
  | some main_function =>
    (if 1 ≤ main_function.params_.length then
      [⟨"Critical !! main() function must not have parameters", none⟩] else []) ++
    (if convert_data_type main_function.return_type_.name_ ≠ object_type.INTEGER then
      [⟨"Critical !! main() function must return an integer", none⟩] else [])

/-- Two checker states agree on everything but the diagnostics and the
operand stack. -/
def same_context (tc tc' : type_checker) : Prop :=
  tc'.scope_ = tc.scope_ ∧ tc'.functions_ = tc.functions_ ∧
    tc'.scope_type_stack_ = tc.scope_type_stack_ ∧
    tc'.function_name_stack_ = tc.function_name_stack_

/-- Diagnostics the claim on `return` expects, in its words: invalid use when
the function-name stack is empty or its top name is not in the signature
table, else a type diagnostic when the evaluated type differs from the
declared return type. -/
def claimed_return_diagnostics (return_keyword_ : token) (stack : List String)
    (table : def_visitor) (evaluated : object_type) : List parsing_error :=
  match stack with
  | [] => [⟨"Invalid use of return statement", some return_keyword_⟩]
  | top :: _ =>
    match table.get top with
    | none => [⟨"Invalid use of return statement", some return_keyword_⟩]
    | some func =>
      if convert_data_type func.return_type_.name_ ≠ evaluated then
        [⟨"Invalid return data type", some return_keyword_⟩]
      else []

/-- Diagnostics the return handler appends for any function-name stack: those
of `claimed_return_diagnostics`, except that a top name equal to the empty
string, the value `peek_function` gives for an empty stack, is handled as an
empty stack. -/
def return_handler_diagnostics (return_keyword_ : token) (stack : List String)
    (table : def_visitor) (evaluated : object_type) : List parsing_error :=
  match stack with
  | [] => [⟨"Invalid use of return statement", some return_keyword_⟩]
  | top :: _ =>
    if top = "" then [⟨"Invalid use of return statement", some return_keyword_⟩]
    else claimed_return_diagnostics return_keyword_ stack table evaluated

/-- The checker state with the statement-kind stack replaced. -/
def with_scope_types (kinds : List ast_type) (tc : type_checker) : type_checker :=
  { tc with scope_type_stack_ := kinds }

/-- Declared semantic type of the parameter at 0-based position `j`. -/
def declared_type_at (params : List parameter) (j : Nat) : Option object_type :=
  (params[j]?).map (fun p => convert_data_type p.data_type_.name_)

/-- Evaluated semantic type of the argument at 0-based position `j`. -/
def argument_type_at (arguments : List ykobject) (j : Nat) : Option object_type :=
  (arguments[j]?).map (fun a => a.object_type_)

/-- The per-parameter diagnostics the claim on calls expects: one for each
position, in increasing order, at which the two types differ; position `j`
counted from 0 is reported as `N = j + 1`. -/
def expected_mismatches (paren_token_ : token) (params : List parameter)
    (arguments : List ykobject) : List parsing_error :=
  ((List.range params.length).filter
      (fun j => decide (declared_type_at params j ≠ argument_type_at arguments j))).map
    (fun j => ⟨"Parameter & argument " ++ toString (j + 1) ++ " mismatches", some paren_token_⟩)

/-- The operator rule of section 4.3 for a binary operator applied to operands
of type `T`: `+` takes Double, Integer or String; `-`, `*`, `/`, `>`, `>=`,
`<`, `<=` take Double or Integer; any other operator takes every type. -/
def binary_operator_accepts (oper : token_type) (T : object_type) : Prop :=
  (oper = token_type.PLUS ∧
      (T = object_type.DOUBLE ∨ T = object_type.INTEGER ∨ T = object_type.STRING)) ∨
  ((oper = token_type.SUB ∨ oper = token_type.MUL ∨ oper = token_type.DIV ∨
      oper = token_type.GREAT ∨ oper = token_type.GREAT_EQ ∨ oper = token_type.LESS ∨
      oper = token_type.LESS_EQ) ∧
      (T = object_type.DOUBLE ∨ T = object_type.INTEGER)) ∨
  (oper ≠ token_type.PLUS ∧ oper ≠ token_type.SUB ∧ oper ≠ token_type.MUL ∧
      oper ≠ token_type.DIV ∧ oper ≠ token_type.GREAT ∧ oper ≠ token_type.GREAT_EQ ∧
      oper ≠ token_type.LESS ∧ oper ≠ token_type.LESS_EQ)

instance (oper : token_type) (T : object_type) : Decidable (binary_operator_accepts oper T) := by
  unfold binary_operator_accepts; infer_instance

/-- A signature table with `f(a: int, b: str, c: int) -> float` and
`g(a: int) -> int` under their canonical names. -/
def call_table : def_visitor :=
  ⟨["yy__f", "yy__g"],
    [("yy__f", ⟨word "f",
        [⟨word "a", ⟨word "int"⟩⟩, ⟨word "b", ⟨word "str"⟩⟩, ⟨word "c", ⟨word "int"⟩⟩],
        ⟨word "float"⟩⟩),
      ("yy__g", ⟨word "g", [⟨word "a", ⟨word "int"⟩⟩], ⟨word "int"⟩⟩)],
    []⟩

/-- The checker state after `f` and `g` were registered as global callables. -/
def call_state : type_checker :=
  { type_checker.init with
    functions_ := call_table
    scope_ := ⟨[("yy__g", ⟨object_type.FUNCTION, ""⟩), ("yy__f", ⟨object_type.FUNCTION, ""⟩)], []⟩ }

/-- The literal `1`. -/
def literal_one : expr := .literal_expr (tok "1" token_type.INTEGER_DECIMAL)

/-- The literal `2`. -/
def literal_two : expr := .literal_expr (tok "2" token_type.INTEGER_DECIMAL)

/-- The literal `true`. -/
def literal_true : expr := .literal_expr (tok "true" token_type.KEYWORD_TRUE)

/-- The literal `false`. -/
def literal_false : expr := .literal_expr (tok "false" token_type.KEYWORD_FALSE)

/-- The literal `"s"`. -/
def literal_text : expr := .literal_expr (tok "s" token_type.STRING)

/-- The literal `1.5`. -/
def literal_float : expr := .literal_expr (tok "1.5" token_type.FLOAT_NUMBER)

/-- The program `def main() -> int { return helper(); }` followed by
`def helper() -> int { return 1; }`: the callee is declared after its caller. -/
def forward_call_program : List stmt :=
  [.def_stmt (word "main") []
      (.block_stmt [.return_stmt (word "return")
        (.fncall_expr (.variable_expr (word "helper")) (word "(") [])])
      ⟨word "int"⟩,
    .def_stmt (word "helper") []
      (.block_stmt [.return_stmt (word "return") literal_one])
      ⟨word "int"⟩]

/-! ## Definitions for the walk invariants -/

/-- The literal table of section 4.3, by lexical category. -/
def expected_literal_type : token_type → object_type
  | .STRING => object_type.STRING
  | .THREE_QUOTE_STRING => object_type.STRING
  | .KEYWORD_TRUE => object_type.BOOL
  | .KEYWORD_FALSE => object_type.BOOL
  | .INTEGER_BIN => object_type.INTEGER
  | .INTEGER_OCT => object_type.INTEGER
  | .INTEGER_DECIMAL => object_type.INTEGER
  | .INTEGER_HEX => object_type.INTEGER
  | .FLOAT_NUMBER => object_type.DOUBLE
  | _ => object_type.NONE_OBJ

/-- Two checker states agree on the scope-stack depth, the two context stacks
and the signature table. -/
def balanced (tc tc' : type_checker) : Prop :=
  tc'.scope_.frames_.length = tc.scope_.frames_.length ∧
    tc'.scope_type_stack_ = tc.scope_type_stack_ ∧
    tc'.function_name_stack_ = tc.function_name_stack_ ∧
    tc'.functions_ = tc.functions_

/-- Text of the diagnostic of `visit_break_stmt`. -/
def break_message : String := "Invalid use of break statement outside of while statement."

/-- Text of the diagnostic of `visit_continue_stmt`. -/
def continue_message : String :=
  "Invalid use of continue statement outside of while statement."

/-- A diagnostic of the break or the continue handler, told by its text. -/
def is_loop_diagnostic (e : parsing_error) : Bool :=
  e.message_ == break_message || e.message_ == continue_message

mutual
/-- The break and continue diagnostics the claim on loops expects for a
statement tree, in walk order: `in_while` says that the nearest enclosing
while-statement-or-function-definition ancestor is a while statement. -/
def loop_diagnostics (in_while : Bool) : stmt → List parsing_error
  | .block_stmt statements_ => loop_diagnostics_list in_while statements_
  | .break_stmt break_token_ =>
    if in_while then [] else [⟨break_message, some break_token_⟩]
  | .continue_stmt continue_token_ =>
    if in_while then [] else [⟨continue_message, some continue_token_⟩]
  | .def_stmt _ _ function_body_ _ => loop_diagnostics false function_body_
  | .defer_stmt _ _ => []
  | .expression_stmt _ => []
  | .if_stmt _ _ if_branch_ else_branch_ =>
    loop_diagnostics in_while if_branch_ ++ loop_diagnostics_else in_while else_branch_
  | .let_stmt _ _ _ => []
  | .pass_stmt _ => []
  | .print_stmt _ _ => []
  | .return_stmt _ _ => []
  | .while_stmt _ _ while_body_ => loop_diagnostics true while_body_
/-- The expected break and continue diagnostics of a statement list. -/
def loop_diagnostics_list (in_while : Bool) : List stmt → List parsing_error
  | [] => []
  | stm :: statements_ =>
    loop_diagnostics in_while stm ++ loop_diagnostics_list in_while statements_
/-- The expected break and continue diagnostics of an optional else branch. -/
def loop_diagnostics_else (in_while : Bool) : Option stmt → List parsing_error
  | none => []
  | some else_branch_ => loop_diagnostics in_while else_branch_
end

/-- The diagnostics appended between two states hold exactly the break and
continue diagnostics `l`, in order. -/
def appends_loop (l : List parsing_error) (tc tc' : type_checker) : Prop :=
  ∃ added, tc'.errors_ = tc.errors_ ++ added ∧ added.filter is_loop_diagnostic = l

mutual
/-- An expression built without assignment and logical nodes. -/
def expr.plain : expr → Bool
  | .assign_expr _ _ _ => false
  | .binary_expr left_ _ right_ => left_.plain && right_.plain
  | .fncall_expr name_ _ args_ => name_.plain && expr.plain_list args_
  | .grouping_expr expression_ => expression_.plain
  | .literal_expr _ => true
  | .logical_expr _ _ _ => false
  | .unary_expr _ right_ => right_.plain
  | .variable_expr _ => true
/-- Every expression of the list is built without assignment and logical
nodes. -/
def expr.plain_list : List expr → Bool
  | [] => true
  | arg :: args_ => arg.plain && expr.plain_list args_
end

/-- A Function-typed value carries a name of the signature table. -/
def value_known (t : def_visitor) (v : ykobject) : Prop :=
  v.object_type_ = object_type.FUNCTION → t.has v.string_val_ = true

/-- A Function-typed binding is bound under a name of the signature table. -/
def binding_known (t : def_visitor) (p : String × ykobject) : Prop :=
  p.2.object_type_ = object_type.FUNCTION → t.has p.1 = true

/-- Every Function-typed binding of every frame is known to the table. -/
def scope_known (t : def_visitor) (s : environment_stack) : Prop :=
  ∀ f ∈ s.all_frames, ∀ p ∈ f, binding_known t p

/-- Every Function-typed value of the operand stack is known to the table. -/
def stack_known (t : def_visitor) (stack : List ykobject) : Prop :=
  ∀ v ∈ stack, value_known t v

/-- The invariant behind the signature lookup of the call handler. -/
def signature_invariant (tc : type_checker) : Prop :=
  scope_known tc.functions_ tc.scope_ ∧ stack_known tc.functions_ tc.object_stack_

instance (tc : type_checker) : Decidable (signature_invariant tc) := by
  unfold signature_invariant scope_known stack_known binding_known value_known
  infer_instance

/-- The state in which the body of a function definition is walked. -/
def def_body_state (pfx : String → String) (name_ : token) (params_ : List parameter)
    (tc : type_checker) : type_checker :=
  def_params_loop pfx params_
    (((tc.push_scope_type ast_type.STMT_DEF).push_function (pfx name_.token_)).scope_push)

/-- The binding the amended claim on parameters expects for a name in the
fresh frame of a function: none when the name already resolves in the
enclosing scope, else the declared type of the first parameter of that
canonical name. -/
def expected_param_binding (pfx : String → String) (params_ : List parameter)
    (tc : type_checker) (name : String) : Option ykobject :=
  if tc.scope_.is_defined name then none
  else (params_.find? (fun p => pfx p.name_.token_ == name)).map
    (fun p => ⟨convert_data_type p.data_type_.name_, ""⟩)

/-- A checker state in which `x` is a global String variable. -/
def shadow_state : type_checker :=
  { type_checker.init with
    scope_ := ⟨[("yy__x", ⟨object_type.STRING, ""⟩)], []⟩ }

/-- The function definition `def f(x: int) -> int { let y: int = x }`. -/
def shadow_def : stmt :=
  .def_stmt (word "f") [⟨word "x", ⟨word "int"⟩⟩]
    (.block_stmt [.let_stmt (word "y") ⟨word "int"⟩ (some (.variable_expr (word "x")))])
    ⟨word "int"⟩

/-- A checker state in which `x` is a global Integer variable. -/
def assign_state : type_checker :=
  { type_checker.init with
    scope_ := ⟨[("yy__x", ⟨object_type.INTEGER, ""⟩)], []⟩ }

/-- The call `g(1)`. -/
def call_g_one : expr :=
  .fncall_expr (.variable_expr (word "g")) (word "(") [literal_one]

/-- The statement `while true { if true { break } }`. -/
def while_if_break : stmt :=
  .while_stmt (word "while") literal_true
    (.block_stmt [.if_stmt (word "if") literal_true
      (.block_stmt [.break_stmt (word "break")]) none])

/-- The statement `def f() -> int { break }`. -/
def def_break : stmt :=
  .def_stmt (word "f") [] (.block_stmt [.break_stmt (word "break")]) ⟨word "int"⟩

/-- The statement `if 1 < 2 { pass }`. -/
def if_less : stmt :=
  .if_stmt (word "if") (.binary_expr literal_one (tok "<" token_type.LESS) literal_two)
    (.pass_stmt (word "pass")) none

/-- The state in which the body of `def g(a: int) -> int` is walked from
`call_state`. -/
def g_body_state : type_checker :=
  def_body_state canonical_name (word "g") [⟨word "a", ⟨word "int"⟩⟩] call_state

/-- The diagnostics appended between two states hold no break or continue
diagnostic. -/
def quiet (tc tc' : type_checker) : Prop := appends_loop [] tc tc'

/-! ## Helper lemmas -/

/-- Fields of the state after `error`. -/
@[simp]
theorem error_errors (tc : type_checker) (t : token) (m : String) :
    (tc.error t m).errors_ = tc.errors_ ++ [⟨m, some t⟩] := rfl
@[simp]
theorem error_functions (tc : type_checker) (t : token) (m : String) :
    (tc.error t m).functions_ = tc.functions_ := rfl
@[simp]
theorem error_scope (tc : type_checker) (t : token) (m : String) :
    (tc.error t m).scope_ = tc.scope_ := rfl
@[simp]
theorem error_object_stack (tc : type_checker) (t : token) (m : String) :
    (tc.error t m).object_stack_ = tc.object_stack_ := rfl
@[simp]
theorem error_scope_type_stack (tc : type_checker) (t : token) (m : String) :
    (tc.error t m).scope_type_stack_ = tc.scope_type_stack_ := rfl
@[simp]
theorem error_function_name_stack (tc : type_checker) (t : token) (m : String) :
    (tc.error t m).function_name_stack_ = tc.function_name_stack_ := rfl

/-- Fields of the state after `push`. -/
@[simp]
theorem push_errors (tc : type_checker) (v : ykobject) :
    (tc.push v).errors_ = tc.errors_ := rfl
@[simp]
theorem push_functions (tc : type_checker) (v : ykobject) :
    (tc.push v).functions_ = tc.functions_ := rfl
@[simp]
theorem push_scope (tc : type_checker) (v : ykobject) :
    (tc.push v).scope_ = tc.scope_ := rfl
@[simp]
theorem push_object_stack (tc : type_checker) (v : ykobject) :
    (tc.push v).object_stack_ = v :: tc.object_stack_ := rfl
@[simp]
theorem push_scope_type_stack (tc : type_checker) (v : ykobject) :
    (tc.push v).scope_type_stack_ = tc.scope_type_stack_ := rfl
@[simp]
theorem push_function_name_stack (tc : type_checker) (v : ykobject) :
    (tc.push v).function_name_stack_ = tc.function_name_stack_ := rfl

/-- Fields of the state after `pop`. -/
@[simp]
theorem pop_errors (tc : type_checker) : tc.pop.2.errors_ = tc.errors_ := by
  unfold type_checker.pop; split <;> rfl
@[simp]
theorem pop_functions (tc : type_checker) : tc.pop.2.functions_ = tc.functions_ := by
  unfold type_checker.pop; split <;> rfl
@[simp]
theorem pop_scope (tc : type_checker) : tc.pop.2.scope_ = tc.scope_ := by
  unfold type_checker.pop; split <;> rfl
@[simp]
theorem pop_scope_type_stack (tc : type_checker) :
    tc.pop.2.scope_type_stack_ = tc.scope_type_stack_ := by
  unfold type_checker.pop; split <;> rfl
@[simp]
theorem pop_function_name_stack (tc : type_checker) :
    tc.pop.2.function_name_stack_ = tc.function_name_stack_ := by
  unfold type_checker.pop; split <;> rfl
/-- The operand stack after `pop` is the tail of the stack before. -/
theorem pop_object_stack (tc : type_checker) :
    tc.pop.2.object_stack_ = tc.object_stack_.tail := by
  unfold type_checker.pop; split <;> simp_all

/-- Removing the bindings of another name does not change a lookup. -/
theorem lookup_filter_ne (f : environment) (n name : String) (h : name ≠ n) :
    List.lookup name (f.filter (fun p => p.1 != n)) = List.lookup name f := by
  induction f with
  | nil => rfl
  | cons p ps ih =>
    obtain ⟨k, b⟩ := p
    rw [List.filter_cons]
    by_cases hp : k = n
    · have hne : (name == k) = false := by rw [hp]; simpa using h
      simp only [hp, bne_self_eq_false, Bool.false_eq_true, if_false, List.lookup_cons]
      rw [← hp, hne, hp]
      exact ih
    · have hpn : (k != n) = true := by simpa using hp
      simp only [hpn, if_true, List.lookup_cons]
      rw [ih]

/-- Lookup in a frame after a binding was inserted. -/
theorem lookup_define (f : environment) (n name : String) (v : ykobject) :
    List.lookup name (f.define n v) = if name = n then some v else List.lookup name f := by
  unfold environment.define
  by_cases h : name = n
  · subst h; simp [List.lookup_cons]
  · have h1 : (name == n) = false := by simpa using h
    simp only [List.lookup_cons, h1, h, if_false]
    exact lookup_filter_ne f n name h

/-- A table stays well formed when one more statement is extracted. -/
theorem extract_one_well_formed (pfx : String → String) (t : def_visitor) (s : stmt)
    (h : t.well_formed) : (t.extract_one pfx s).well_formed := by
  cases s <;> try exact h
  rename_i name_ params_ body ret
  simp only [def_visitor.extract_one]
  split
  · exact h
  · rename_i hnot
    intro name hname
    simp only [List.mem_append, List.mem_singleton] at hname
    have hw := h
    simp only [def_visitor.well_formed, def_visitor.has, def_visitor.get] at hw hnot ⊢
    rcases hname with hname | hname
    · have := hw name hname
      cases hl : List.lookup name t.functions_ with
      | none => simp [hl] at this
      | some v => simp [List.lookup_append, hl]
    · subst hname
      cases hl : List.lookup (pfx name_.token_) t.functions_ with
      | none => simp [List.lookup_append, hl, List.lookup_cons]
      | some v => simp [hl] at hnot

/-- The table of a fresh checker is well formed. -/
theorem init_well_formed : type_checker.init.functions_.well_formed := by
  intro name h
  cases h

/-- Extraction yields a well formed table. -/
theorem extract_well_formed (pfx : String → String) (statements : List stmt) :
    ∀ t : def_visitor, t.well_formed → (t.extract pfx statements).well_formed := by
  induction statements with
  | nil => intro t h; exact h
  | cons s ss ih =>
    intro t h
    exact ih _ (extract_one_well_formed pfx t s h)

/-- The entry-point step always returns, adding exactly the expected
position-less diagnostics. -/
theorem check_main_eq (pfx : String → String) (tc : type_checker) :
    check_main pfx tc =
      some { tc with errors_ := tc.errors_ ++ expected_critical pfx tc.functions_ } := by
  unfold check_main expected_critical def_visitor.has
  cases hg : tc.functions_.get (pfx "main") with
  | none => simp [type_checker.error_no_token, hg]
  | some m =>
    have hlen : (1 ≤ m.params_.length) ↔ m.params_ ≠ [] := by
      cases m.params_ <;> simp
    by_cases hp : m.params_ = [] <;>
      by_cases hr : convert_data_type m.return_type_.name_ = object_type.INTEGER <;>
      simp [type_checker.error_no_token, hg, hlen, hp, hr]

/-- The registration loop returns when every listed name has a signature; it
touches only the diagnostics and the bottom frame. -/
theorem check_register_spec (names : List String) :
    ∀ tc : type_checker, (∀ n ∈ names, tc.functions_.has n = true) →
      ∃ tc' added, check_register names tc = some tc' ∧
        tc'.errors_ = tc.errors_ ++ added ∧
        (∀ e ∈ added, e.token_set_ = true) ∧
        tc'.functions_ = tc.functions_ ∧
        tc'.scope_.frames_ = tc.scope_.frames_ ∧
        tc'.object_stack_ = tc.object_stack_ ∧
        tc'.scope_type_stack_ = tc.scope_type_stack_ ∧
        tc'.function_name_stack_ = tc.function_name_stack_ ∧
        ∀ name, List.lookup name tc'.scope_.global_ =
          if name ∈ names then some ⟨object_type.FUNCTION, ""⟩
          else List.lookup name tc.scope_.global_ := by
  induction names with
  | nil =>
    intro tc _
    exact ⟨tc, [], rfl, by simp, by simp, rfl, rfl, rfl, rfl, rfl, by simp⟩
  | cons n ns ih =>
    intro tc h
    have hn := h n (List.mem_cons_self _ _)
    simp only [def_visitor.has] at hn
    cases hg : tc.functions_.get n with
    | none => simp [hg] at hn
    | some fd =>
      simp only [check_register, hg]
      have hrest : ∀ tc1 : type_checker, tc1.functions_ = tc.functions_ →
          ∀ m ∈ ns, tc1.functions_.has m = true := by
        intro tc1 h1 m hm
        rw [h1]; exact h m (List.mem_cons_of_mem _ hm)
      by_cases hbig : fd.params_.length > 100
      · simp only [hbig, if_true]
        obtain ⟨tc', added, h1, h2, h3, h4, h5, h6, h7, h8, h9⟩ :=
          ih ((tc.error fd.name_
            "Number of parameters cannot be larger than 100.").scope_define_global n
              ⟨object_type.FUNCTION, ""⟩) (hrest _ rfl)
        refine ⟨tc', ⟨"Number of parameters cannot be larger than 100.", some fd.name_⟩ :: added, h1, ?_, ?_, h4, h5, h6, h7, h8, ?_⟩
        · rw [h2]; simp [type_checker.scope_define_global]
        · intro e he
          rcases List.mem_cons.1 he with he | he
          · subst he; rfl
          · exact h3 e he
        · intro name
          rw [h9 name]
          simp only [type_checker.scope_define_global, environment_stack.define_global,
            lookup_define, List.mem_cons, error_scope]
          by_cases hm : name ∈ ns <;> by_cases hq : name = n <;> simp [hm, hq]
      · simp only [hbig, if_false]
        obtain ⟨tc', added, h1, h2, h3, h4, h5, h6, h7, h8, h9⟩ :=
          ih (tc.scope_define_global n ⟨object_type.FUNCTION, ""⟩) (hrest _ rfl)
        refine ⟨tc', added, h1, h2, h3, h4, h5, h6, h7, h8, ?_⟩
        intro name
        rw [h9 name]
        simp only [type_checker.scope_define_global, environment_stack.define_global,
          lookup_define, List.mem_cons]
        by_cases hm : name ∈ ns <;> by_cases hq : name = n <;> simp [hm, hq]

/-- A name bound in no frame of a list is looked up in the frames after it. -/
theorem find_in_append_of_none (fs gs : List environment) (name : String)
    (h : ∀ f ∈ fs, List.lookup name f = none) :
    environment.find_in (fs ++ gs) name = environment.find_in gs name := by
  induction fs with
  | nil => rfl
  | cons f fs ih =>
    have hf := h f (List.mem_cons_self _ _)
    simp only [List.cons_append, environment.find_in, hf]
    exact ih (fun g hg => h g (List.mem_cons_of_mem _ hg))

/-- What `check` does after extraction, for a well formed table. -/
theorem check_after_extract_spec (pfx : String → String) (tc : type_checker)
    (hwf : tc.functions_.well_formed) :
    ∃ tc' added, check_after_extract pfx tc = some tc' ∧
      tc'.errors_ = tc.errors_ ++ tc.functions_.errors_ ++
        expected_critical pfx tc.functions_ ++ added ∧
      (∀ e ∈ added, e.token_set_ = true) ∧
      tc'.functions_ = tc.functions_ ∧
      tc'.scope_.frames_ = tc.scope_.frames_ ∧
      tc'.object_stack_ = tc.object_stack_ ∧
      tc'.scope_type_stack_ = tc.scope_type_stack_ ∧
      tc'.function_name_stack_ = tc.function_name_stack_ ∧
      ∀ name, List.lookup name tc'.scope_.global_ =
        if name ∈ tc.functions_.function_names_ then some ⟨object_type.FUNCTION, ""⟩
        else List.lookup name tc.scope_.global_ := by
  unfold check_after_extract
  simp only [check_main_eq]
  obtain ⟨tc', added, h1, h2, h3, h4, h5, h6, h7, h8, h9⟩ :=
    check_register_spec tc.functions_.function_names_
      { tc with errors_ := tc.errors_ ++ tc.functions_.errors_ ++
          expected_critical pfx tc.functions_ } hwf
  exact ⟨tc', added, h1, h2, h3, h4, h5, h6, h7, h8, h9⟩

/-- Every expected entry-point diagnostic is position-less. -/
theorem expected_critical_no_token (pfx : String → String) (t : def_visitor) :
    ∀ e ∈ expected_critical pfx t, e.token_set_ = false := by
  intro e he
  unfold expected_critical at he
  split at he
  · simp at he; subst he; rfl
  · simp only [List.mem_append] at he
    rcases he with he | he <;> split at he <;> simp at he <;> subst he <;> rfl

/-- A state keeps its own context. -/
theorem same_context_refl (tc : type_checker) : same_context tc tc := ⟨rfl, rfl, rfl, rfl⟩

/-- Keeping the context composes. -/
theorem same_context_trans {a b c : type_checker} (h1 : same_context a b)
    (h2 : same_context b c) : same_context a c :=
  ⟨h2.1.trans h1.1, h2.2.1.trans h1.2.1, h2.2.2.1.trans h1.2.2.1, h2.2.2.2.trans h1.2.2.2⟩

/-- Reporting a diagnostic keeps the context. -/
theorem same_context_error (tc : type_checker) (t : token) (m : String) :
    same_context tc (tc.error t m) := ⟨rfl, rfl, rfl, rfl⟩

/-- Pushing a value keeps the context. -/
theorem same_context_push (tc : type_checker) (v : ykobject) :
    same_context tc (tc.push v) := ⟨rfl, rfl, rfl, rfl⟩

/-- Popping a value keeps the context. -/
theorem same_context_pop (tc : type_checker) : same_context tc tc.pop.2 :=
  ⟨pop_scope tc, pop_functions tc, pop_scope_type_stack tc, pop_function_name_stack tc⟩

/-- The parameter loop of a call only appends diagnostics. -/
theorem fncall_match_loop_same (paren : token) :
    ∀ (params : List parameter) (arguments : List ykobject) (i : Nat) (tc : type_checker),
      same_context tc (fncall_match_loop paren i params arguments tc) ∧
      (fncall_match_loop paren i params arguments tc).object_stack_ = tc.object_stack_
  | [], _, _, tc => by simp [fncall_match_loop, same_context_refl]
  | _ :: _, [], _, tc => by simp [fncall_match_loop, same_context_refl]
  | p :: ps, a :: as, i, tc => by
    simp only [fncall_match_loop]
    have ih := fncall_match_loop_same paren ps as (i + 1)
    split
    · exact ⟨same_context_trans (same_context_error _ _ _) (ih _).1, (ih _).2⟩
    · exact ih _

/-- The checks of the binary handler keep the context. -/
theorem binary_checks_same (opr_ : token) (lhs rhs : ykobject) (tc : type_checker) :
    same_context tc (binary_checks opr_ lhs rhs tc) := by
  unfold binary_checks
  simp only [same_context]
  split <;> split <;> split <;> simp

mutual
/-- Expression handlers leave the scope table, the signature table and the two
context stacks as they were. -/
theorem visit_expr_same_context (pfx : String → String) :
    ∀ (e : expr) (tc tc' : type_checker), visit_expr pfx e tc = some tc' → same_context tc tc'
  | .assign_expr name_ _ right_, tc, tc', h => by
    simp only [visit_expr] at h
    cases hr : visit_expr pfx right_ tc with
    | none => simp [hr] at h
    | some tc1 =>
      have ih := same_context_trans (visit_expr_same_context pfx right_ tc tc1 hr)
        (same_context_pop tc1)
      simp only [hr] at h
      split at h
      · cases h; exact same_context_trans ih (same_context_error _ _ _)
      · split at h
        · cases h; exact same_context_trans ih (same_context_error _ _ _)
        · cases h; exact ih
  | .binary_expr left_ opr_ right_, tc, tc', h => by
    simp only [visit_expr] at h
    cases hl : visit_expr pfx left_ tc with
    | none => simp [hl] at h
    | some tc1 =>
      simp only [hl] at h
      cases hr : visit_expr pfx right_ tc1.pop.2 with
      | none => simp [hr] at h
      | some tc2 =>
        simp only [hr] at h
        cases h
        exact same_context_trans (same_context_trans (same_context_trans
          (same_context_trans (visit_expr_same_context pfx left_ tc tc1 hl)
            (same_context_pop tc1))
          (visit_expr_same_context pfx right_ _ tc2 hr)) (same_context_pop tc2))
          (binary_checks_same _ _ _ _)
  | .fncall_expr name_ paren_token_ args_, tc, tc', h => by
    simp only [visit_expr] at h
    cases hn : visit_expr pfx name_ tc with
    | none => simp [hn] at h
    | some tc1 =>
      have ih := same_context_trans (visit_expr_same_context pfx name_ tc tc1 hn)
        (same_context_pop tc1)
      simp only [hn] at h
      split at h
      · cases h
        exact same_context_trans ih
          (same_context_trans (same_context_error _ _ _) (same_context_push _ _))
      · cases ha : visit_args pfx args_ tc1.pop.2 with
        | none => simp [ha] at h
        | some r =>
          obtain ⟨arguments, tc3⟩ := r
          have iha := same_context_trans ih (visit_args_same_context pfx args_ _ _ _ ha)
          simp only [ha] at h
          cases hg : tc3.functions_.get tc1.pop.1.string_val_ with
          | none => simp [hg] at h
          | some funct =>
            simp only [hg] at h
            split at h
            · cases h
              exact same_context_trans iha
                (same_context_trans (same_context_error _ _ _) (same_context_push _ _))
            · cases h
              exact same_context_trans iha
                (same_context_trans (fncall_match_loop_same _ _ _ _ _).1
                  (same_context_push _ _))
  | .grouping_expr expression_, tc, tc', h => by
    simp only [visit_expr] at h
    cases he : visit_expr pfx expression_ tc with
    | none => simp [he] at h
    | some tc1 =>
      simp only [he] at h
      cases h
      exact same_context_trans (same_context_trans
        (visit_expr_same_context pfx expression_ tc tc1 he) (same_context_pop tc1))
        (same_context_push _ _)
  | .literal_expr _, tc, tc', h => by
    simp only [visit_expr] at h
    cases h
    exact same_context_push _ _
  | .logical_expr left_ opr_ right_, tc, tc', h => by
    simp only [visit_expr] at h
    cases hl : visit_expr pfx left_ tc with
    | none => simp [hl] at h
    | some tc1 =>
      simp only [hl] at h
      cases hr : visit_expr pfx right_ tc1.pop.2 with
      | none => simp [hr] at h
      | some tc2 =>
        simp only [hr] at h
        have ih := same_context_trans (same_context_trans
          (same_context_trans (visit_expr_same_context pfx left_ tc tc1 hl)
            (same_context_pop tc1))
          (visit_expr_same_context pfx right_ _ tc2 hr)) (same_context_pop tc2)
        split at h
        · cases h; exact same_context_trans ih (same_context_error _ _ _)
        · cases h; exact ih
  | .unary_expr opr_ right_, tc, tc', h => by
    simp only [visit_expr] at h
    cases hr : visit_expr pfx right_ tc with
    | none => simp [hr] at h
    | some tc1 =>
      have ih := same_context_trans (visit_expr_same_context pfx right_ tc tc1 hr)
        (same_context_pop tc1)
      simp only [hr] at h
      split at h
      · cases h
        exact same_context_trans ih
          (same_context_trans (same_context_error _ _ _) (same_context_push _ _))
      · cases h; exact same_context_trans ih (same_context_push _ _)
  | .variable_expr name_, tc, tc', h => by
    simp only [visit_expr] at h
    split at h
    · cases h
      exact same_context_trans (same_context_error _ _ _) (same_context_push _ _)
    · split at h
      · cases h; exact same_context_push _ _
      · cases h; exact same_context_push _ _
/-- The argument loop of a call leaves the context as it was. -/
theorem visit_args_same_context (pfx : String → String) :
    ∀ (args : List expr) (tc : type_checker) (arguments : List ykobject) (tc' : type_checker),
      visit_args pfx args tc = some (arguments, tc') → same_context tc tc'
  | [], tc, arguments, tc', h => by
    simp only [visit_args] at h
    cases h
    exact same_context_refl _
  | arg :: args_, tc, arguments, tc', h => by
    simp only [visit_args] at h
    cases ha : visit_expr pfx arg tc with
    | none => simp [ha] at h
    | some tc1 =>
      simp only [ha] at h
      cases hr : visit_args pfx args_ tc1.pop.2 with
      | none => simp [hr] at h
      | some r =>
        obtain ⟨vs, tc2⟩ := r
        simp only [hr] at h
        cases h
        exact same_context_trans (same_context_trans
          (visit_expr_same_context pfx arg tc tc1 ha) (same_context_pop tc1))
          (visit_args_same_context pfx args_ _ _ _ hr)
end


/-- Replacing the statement-kind stack commutes with the state helpers. -/
@[simp]
theorem with_scope_types_pop_fst (k : List ast_type) (tc : type_checker) :
    (with_scope_types k tc).pop.1 = tc.pop.1 := by
  obtain ⟨e, f, s, o, k0, n⟩ := tc
  cases o <;> rfl

@[simp]
theorem with_scope_types_pop_snd (k : List ast_type) (tc : type_checker) :
    (with_scope_types k tc).pop.2 = with_scope_types k tc.pop.2 := by
  obtain ⟨e, f, s, o, k0, n⟩ := tc
  cases o <;> rfl

@[simp]
theorem with_scope_types_scope (k : List ast_type) (tc : type_checker) :
    (with_scope_types k tc).scope_ = tc.scope_ := rfl
@[simp]
theorem with_scope_types_functions (k : List ast_type) (tc : type_checker) :
    (with_scope_types k tc).functions_ = tc.functions_ := rfl
@[simp]
theorem with_scope_types_errors (k : List ast_type) (tc : type_checker) :
    (with_scope_types k tc).errors_ = tc.errors_ := rfl
@[simp]
theorem with_scope_types_object_stack (k : List ast_type) (tc : type_checker) :
    (with_scope_types k tc).object_stack_ = tc.object_stack_ := rfl
@[simp]
theorem with_scope_types_function_names (k : List ast_type) (tc : type_checker) :
    (with_scope_types k tc).function_name_stack_ = tc.function_name_stack_ := rfl
@[simp]
theorem with_scope_types_error (k : List ast_type) (tc : type_checker) (t : token)
    (m : String) : (with_scope_types k tc).error t m = with_scope_types k (tc.error t m) := rfl
@[simp]
theorem with_scope_types_push (k : List ast_type) (tc : type_checker) (v : ykobject) :
    (with_scope_types k tc).push v = with_scope_types k (tc.push v) := rfl

/-- The parameter loop of a call never reads the statement-kind stack. -/
theorem fncall_match_loop_scope_types (paren : token) (k : List ast_type) :
    ∀ (params : List parameter) (arguments : List ykobject) (i : Nat) (tc : type_checker),
      fncall_match_loop paren i params arguments (with_scope_types k tc) =
        with_scope_types k (fncall_match_loop paren i params arguments tc)
  | [], _, _, tc => by simp [fncall_match_loop]
  | _ :: _, [], _, tc => by simp [fncall_match_loop]
  | p :: ps, a :: as, i, tc => by
    simp only [fncall_match_loop]
    split
    · rw [with_scope_types_error, fncall_match_loop_scope_types paren k ps as (i + 1)]
    · rw [fncall_match_loop_scope_types paren k ps as (i + 1)]

/-- The checks of the binary handler never read the statement-kind stack. -/
theorem binary_checks_scope_types (k : List ast_type) (opr_ : token) (lhs rhs : ykobject)
    (tc : type_checker) :
    binary_checks opr_ lhs rhs (with_scope_types k tc) =
      with_scope_types k (binary_checks opr_ lhs rhs tc) := by
  unfold binary_checks
  simp only []
  split <;> split <;> split <;> rfl

mutual
/-- Expression handlers never read the statement-kind stack. -/
theorem visit_expr_scope_types (pfx : String → String) (k : List ast_type) :
    ∀ (e : expr) (tc : type_checker),
      visit_expr pfx e (with_scope_types k tc) =
        (visit_expr pfx e tc).map (with_scope_types k)
  | .assign_expr name_ _ right_, tc => by
    simp only [visit_expr, visit_expr_scope_types pfx k right_ tc]
    cases visit_expr pfx right_ tc with
    | none => rfl
    | some tc1 =>
      simp only [Option.map_some', with_scope_types_pop_snd, with_scope_types_pop_fst,
        with_scope_types_scope, with_scope_types_error]
      split
      · rfl
      · split <;> rfl
  | .binary_expr left_ opr_ right_, tc => by
    simp only [visit_expr, visit_expr_scope_types pfx k left_ tc]
    cases visit_expr pfx left_ tc with
    | none => rfl
    | some tc1 =>
      simp only [Option.map_some', with_scope_types_pop_snd, with_scope_types_pop_fst,
        visit_expr_scope_types pfx k right_ tc1.pop.2]
      cases visit_expr pfx right_ tc1.pop.2 with
      | none => rfl
      | some tc2 =>
        simp only [Option.map_some', with_scope_types_pop_snd, with_scope_types_pop_fst,
          binary_checks_scope_types]
  | .fncall_expr name_ paren_token_ args_, tc => by
    simp only [visit_expr, visit_expr_scope_types pfx k name_ tc]
    cases visit_expr pfx name_ tc with
    | none => rfl
    | some tc1 =>
      simp only [Option.map_some', with_scope_types_pop_snd, with_scope_types_pop_fst,
        with_scope_types_error, with_scope_types_push,
        visit_args_scope_types pfx k args_ tc1.pop.2]
      split
      · rfl
      · cases visit_args pfx args_ tc1.pop.2 with
        | none => rfl
        | some r =>
          obtain ⟨arguments, tc3⟩ := r
          simp only [Option.map_some', with_scope_types_functions]
          cases tc3.functions_.get tc1.pop.1.string_val_ with
          | none => rfl
          | some funct =>
            simp only [with_scope_types_error, with_scope_types_push,
              fncall_match_loop_scope_types]
            split <;> rfl
  | .grouping_expr expression_, tc => by
    simp only [visit_expr, visit_expr_scope_types pfx k expression_ tc]
    cases visit_expr pfx expression_ tc with
    | none => rfl
    | some tc1 =>
      simp only [Option.map_some', with_scope_types_pop_snd, with_scope_types_pop_fst,
        with_scope_types_push]
  | .literal_expr _, tc => by
    simp only [visit_expr, with_scope_types_push, Option.map_some']
  | .logical_expr left_ opr_ right_, tc => by
    simp only [visit_expr, visit_expr_scope_types pfx k left_ tc]
    cases visit_expr pfx left_ tc with
    | none => rfl
    | some tc1 =>
      simp only [Option.map_some', with_scope_types_pop_snd, with_scope_types_pop_fst,
        visit_expr_scope_types pfx k right_ tc1.pop.2]
      cases visit_expr pfx right_ tc1.pop.2 with
      | none => rfl
      | some tc2 =>
        simp only [Option.map_some', with_scope_types_pop_snd, with_scope_types_pop_fst,
          with_scope_types_error]
        split <;> rfl
  | .unary_expr opr_ right_, tc => by
    simp only [visit_expr, visit_expr_scope_types pfx k right_ tc]
    cases visit_expr pfx right_ tc with
    | none => rfl
    | some tc1 =>
      simp only [Option.map_some', with_scope_types_pop_snd, with_scope_types_pop_fst,
        with_scope_types_error, with_scope_types_push]
      split <;> rfl
  | .variable_expr name_, tc => by
    simp only [visit_expr, with_scope_types_scope, with_scope_types_error,
      with_scope_types_push]
    split
    · rfl
    · split <;> rfl
/-- The argument loop never reads the statement-kind stack. -/
theorem visit_args_scope_types (pfx : String → String) (k : List ast_type) :
    ∀ (args : List expr) (tc : type_checker),
      visit_args pfx args (with_scope_types k tc) =
        (visit_args pfx args tc).map (fun r => (r.1, with_scope_types k r.2))
  | [], tc => by simp only [visit_args, Option.map_some']
  | arg :: args_, tc => by
    simp only [visit_args, visit_expr_scope_types pfx k arg tc]
    cases visit_expr pfx arg tc with
    | none => rfl
    | some tc1 =>
      simp only [Option.map_some', with_scope_types_pop_snd, with_scope_types_pop_fst,
        visit_args_scope_types pfx k args_ tc1.pop.2]
      cases visit_args pfx args_ tc1.pop.2 with
      | none => rfl
      | some r => rfl
end


/-- The parameter loop of a call, entered at counter `i` with equally long
lists, appends one diagnostic per mismatching position, in increasing order. -/
theorem fncall_match_loop_eq (paren : token) :
    ∀ (params : List parameter) (arguments : List ykobject) (i : Nat) (tc : type_checker),
      params.length = arguments.length →
      fncall_match_loop paren i params arguments tc =
        { tc with
          errors_ := tc.errors_ ++
            List.map (fun j => ⟨mismatch_message (i + j), some paren⟩)
              ((List.range params.length).filter
                (fun j => decide (declared_type_at params j ≠ argument_type_at arguments j))) }
  | [], [], i, tc, _ => by simp [fncall_match_loop]
  | [], _ :: _, i, tc, h => by simp at h
  | _ :: _, [], i, tc, h => by simp at h
  | p :: ps, a :: as, i, tc, h => by
    have hlen : ps.length = as.length := by simpa using h
    simp only [fncall_match_loop]
    rw [fncall_match_loop_eq paren ps as (i + 1) _ hlen]
    have hshift : ∀ j, mismatch_message (i + 1 + j) = mismatch_message (i + (j + 1)) := by
      intro j; rw [Nat.add_assoc, Nat.add_comm 1 j]
    have hd : ∀ j, declared_type_at (p :: ps) (j + 1) = declared_type_at ps j := by
      intro j; simp [declared_type_at]
    have ha : ∀ j, argument_type_at (a :: as) (j + 1) = argument_type_at as j := by
      intro j; simp [argument_type_at]
    have h0 : (declared_type_at (p :: ps) 0 ≠ argument_type_at (a :: as) 0) ↔
        match_data_type p.data_type_.name_ a = false := by
      simp [declared_type_at, argument_type_at, match_data_type]
    rw [List.length_cons, List.range_succ_eq_map, List.filter_cons, List.filter_map]
    have hcomp : ((fun j => decide (declared_type_at (p :: ps) j ≠
        argument_type_at (a :: as) j)) ∘ Nat.succ) =
        (fun j => decide (declared_type_at ps j ≠ argument_type_at as j)) := by
      funext j; simp only [Function.comp, Nat.succ_eq_add_one, hd, ha]
    rw [hcomp]
    by_cases hm : match_data_type p.data_type_.name_ a = false
    · have h0' := h0.2 hm
      simp only [hm, if_true, decide_eq_true h0', List.map_cons, List.map_map, error_errors,
        Function.comp_def, Nat.succ_eq_add_one, hshift]
      simp [type_checker.error]
    · have h0' : ¬ (declared_type_at (p :: ps) 0 ≠ argument_type_at (a :: as) 0) :=
        fun hc => hm (h0.1 hc)
      simp only [hm, if_false, decide_eq_false h0', List.map_map,
        Function.comp_def, Nat.succ_eq_add_one, hshift]
      simp

/-- The argument loop yields one value per argument. -/
theorem visit_args_length (pfx : String → String) :
    ∀ (args : List expr) (tc : type_checker) (arguments : List ykobject) (tc' : type_checker),
      visit_args pfx args tc = some (arguments, tc') → arguments.length = args.length
  | [], tc, arguments, tc', h => by
    simp only [visit_args] at h
    cases h; rfl
  | arg :: args_, tc, arguments, tc', h => by
    simp only [visit_args] at h
    cases ha : visit_expr pfx arg tc with
    | none => simp [ha] at h
    | some tc1 =>
      simp only [ha] at h
      cases hr : visit_args pfx args_ tc1.pop.2 with
      | none => simp [hr] at h
      | some r =>
        obtain ⟨vs, tc2⟩ := r
        simp only [hr] at h
        cases h
        simp [visit_args_length pfx args_ _ _ _ hr]

/-- The diagnostics of the binary handler after both operands were popped. -/
theorem binary_checks_eq (opr_ : token) (lhs rhs : ykobject) (tc : type_checker) :
    binary_checks opr_ lhs rhs tc =
      type_checker.push
        { tc with
          errors_ := tc.errors_ ++
            ((if lhs.object_type_ ≠ rhs.object_type_ then
              [⟨"Binary operation between two different data types is not supported",
                some opr_⟩] else []) ++
            (if binary_operator_accepts opr_.type_ rhs.object_type_ then []
              else [⟨"Unsupported operation", some opr_⟩])) }
        rhs := by
  obtain ⟨lt, ls⟩ := lhs
  obtain ⟨rt, rs⟩ := rhs
  obtain ⟨otext, oty, oline, opos⟩ := opr_
  unfold binary_checks binary_operator_accepts
  by_cases hd : lt = rt <;> cases oty <;> cases rt <;>
    simp [hd, type_checker.error, type_checker.push]


/-- What the binary handler does once both operand visits returned. -/
theorem visit_binary_eq (pfx : String → String) (left_ right_ : expr) (opr_ : token)
    (tc tc1 tc2 : type_checker)
    (hl : visit_expr pfx left_ tc = some tc1)
    (hr : visit_expr pfx right_ tc1.pop.2 = some tc2) :
    visit_expr pfx (.binary_expr left_ opr_ right_) tc =
      some (binary_checks opr_ tc1.pop.1 tc2.pop.1 tc2.pop.2) := by
  simp only [visit_expr, hl, hr]

/-- A name is bound in the top frame right after `define`. -/
theorem top_frame_define (s : environment_stack) (name : String) (v : ykobject) :
    List.lookup name (s.define name v).top_frame = some v := by
  unfold environment_stack.define environment_stack.top_frame
  cases hf : s.frames_ <;> simp [lookup_define]


/-! ## The entry operation -/

/-- C1 (code defect): `check` returns without walking the statements.  For
`def main() -> int { let x: str = 1; return x; }` and every canonical naming
function the diagnostic list after `check` is empty, although the statement
handlers, run on that same statement from the state `check` returns, report
exactly the two diagnostics of the scenario. -/
theorem check_skips_statement_walk (pfx : String → String) :
    (check pfx [main_str_program] type_checker.init).map (fun tc => tc.errors_) = some [] ∧
    ((check canonical_name [main_str_program] type_checker.init).bind
        (visit_stmt canonical_name main_str_program)).map (fun tc => tc.errors_) =
      some [⟨"Data type mismatch in expression and declaration.", some (word "x")⟩,
            ⟨"Invalid return data type", some (word "return")⟩] := by
  constructor
  · simp [check, check_after_extract, check_main, check_register, def_visitor.extract,
      def_visitor.extract_one, main_str_program, type_checker.init, def_visitor.has,
      def_visitor.get, List.lookup_cons, type_checker.scope_define_global, convert_data_type,
      word, tok]
  · decide

/-- C2: for every table extraction produces from a well formed table, `check`
returns, and its diagnostics are the old ones, then the table's, then exactly
the position-less entry-point diagnostics of `expected_critical` (one when
`main` is missing; otherwise one for a parameter and one for a return type
that is not Integer), then only diagnostics that carry a token. -/
theorem check_critical_diagnostics (pfx : String → String) (statements : List stmt)
    (tc : type_checker) (hwf : tc.functions_.well_formed) :
    ∃ tc' added, check pfx statements tc = some tc' ∧
      tc'.errors_ = tc.errors_ ++ (tc.functions_.extract pfx statements).errors_ ++
        expected_critical pfx (tc.functions_.extract pfx statements) ++ added ∧
      (∀ e ∈ added, e.token_set_ = true) ∧
      (∀ e ∈ expected_critical pfx (tc.functions_.extract pfx statements),
        e.token_set_ = false) ∧
      (expected_critical pfx (tc.functions_.extract pfx statements) ++ added).filter
          (fun e => !e.token_set_) =
        expected_critical pfx (tc.functions_.extract pfx statements) := by
  obtain ⟨tc', added, h1, h2, h3, _⟩ :=
    check_after_extract_spec pfx
      { tc with functions_ := tc.functions_.extract pfx statements }
      (extract_well_formed pfx statements tc.functions_ hwf)
  refine ⟨tc', added, h1, h2, h3, expected_critical_no_token pfx _, ?_⟩
  rw [List.filter_append]
  have ha : added.filter (fun e => !e.token_set_) = [] := by
    rw [List.filter_eq_nil_iff]
    intro e he
    simp [h3 e he]
  have hc : (expected_critical pfx (tc.functions_.extract pfx statements)).filter
      (fun e => !e.token_set_) = expected_critical pfx (tc.functions_.extract pfx statements) := by
    rw [List.filter_eq_self]
    intro e he
    simp [expected_critical_no_token pfx _ e he]
  rw [ha, hc, List.append_nil]

/-- C2 at `def main() -> int { let x: int = 1 + 2; return x; }` on a fresh
checker, where no entry-point diagnostic is expected. -/
theorem check_critical_diagnostics_witness :
    (type_checker.init.functions_.well_formed ∧
      expected_critical canonical_name
        (type_checker.init.functions_.extract canonical_name [main_ok_program]) = []) ∧
    ∃ tc' added, check canonical_name [main_ok_program] type_checker.init = some tc' ∧
      tc'.errors_ = type_checker.init.errors_ ++
        (type_checker.init.functions_.extract canonical_name [main_ok_program]).errors_ ++
        expected_critical canonical_name
          (type_checker.init.functions_.extract canonical_name [main_ok_program]) ++ added ∧
      (∀ e ∈ added, e.token_set_ = true) ∧
      (∀ e ∈ expected_critical canonical_name
          (type_checker.init.functions_.extract canonical_name [main_ok_program]),
        e.token_set_ = false) ∧
      (expected_critical canonical_name
          (type_checker.init.functions_.extract canonical_name [main_ok_program]) ++
          added).filter (fun e => !e.token_set_) =
        expected_critical canonical_name
          (type_checker.init.functions_.extract canonical_name [main_ok_program]) :=
  ⟨⟨init_well_formed, by decide⟩,
    check_critical_diagnostics canonical_name [main_ok_program] type_checker.init
      init_well_formed⟩

/-- C3: after `check` returns, every enumerated function name is bound in the
bottom frame to a Function-typed value, whatever the order of the
declarations; and when no pushed frame of the starting state binds the name,
a variable reference to it pushes a Function-typed value carrying the name. -/
theorem check_registers_every_function (pfx : String → String) (statements : List stmt)
    (tc : type_checker) (hwf : tc.functions_.well_formed) :
    ∃ tc', check pfx statements tc = some tc' ∧
      ∀ name ∈ (tc.functions_.extract pfx statements).function_names_,
        List.lookup name tc'.scope_.global_ = some ⟨object_type.FUNCTION, ""⟩ ∧
        ((∀ f ∈ tc.scope_.frames_, List.lookup name f = none) →
          ∀ t : token, pfx t.token_ = name →
            visit_expr pfx (.variable_expr t) tc' =
              some (tc'.push ⟨object_type.FUNCTION, name⟩)) := by
  obtain ⟨tc', added, h1, _, _, _, h5, _, _, _, h9⟩ :=
    check_after_extract_spec pfx
      { tc with functions_ := tc.functions_.extract pfx statements }
      (extract_well_formed pfx statements tc.functions_ hwf)
  refine ⟨tc', h1, ?_⟩
  intro name hname
  have hg : List.lookup name tc'.scope_.global_ = some ⟨object_type.FUNCTION, ""⟩ := by
    rw [h9 name]
    exact if_pos hname
  refine ⟨hg, ?_⟩
  intro hfree t ht
  have hfind : environment.find_in tc'.scope_.all_frames name =
      some ⟨object_type.FUNCTION, ""⟩ := by
    unfold environment_stack.all_frames
    rw [find_in_append_of_none _ _ _ (by rw [h5]; exact hfree)]
    simp only [environment.find_in, hg]
  simp [visit_expr, environment_stack.is_defined, environment_stack.get, ht, hfind]

/-- C3 at a program whose `main` calls a function declared after it. -/
theorem check_registers_every_function_witness :
    type_checker.init.functions_.well_formed ∧
    ∃ tc', check canonical_name forward_call_program type_checker.init = some tc' ∧
      ∀ name ∈ (type_checker.init.functions_.extract canonical_name
          forward_call_program).function_names_,
        List.lookup name tc'.scope_.global_ = some ⟨object_type.FUNCTION, ""⟩ ∧
        ((∀ f ∈ type_checker.init.scope_.frames_, List.lookup name f = none) →
          ∀ t : token, canonical_name t.token_ = name →
            visit_expr canonical_name (.variable_expr t) tc' =
              some (tc'.push ⟨object_type.FUNCTION, name⟩)) :=
  ⟨init_well_formed,
    check_registers_every_function canonical_name forward_call_program type_checker.init
      init_well_formed⟩

/-! ## Function calls -/

/-- C4: when the callee evaluates to a Function-typed value whose signature
has as many parameters as the call has arguments, the call handler appends
one "Parameter & argument N mismatches" diagnostic for exactly the positions
whose evaluated argument type differs from the declared parameter type, in
increasing order, and pushes one value of the declared return type. -/
theorem fncall_reports_each_mismatch (pfx : String → String) (callee : expr)
    (paren_token_ : token) (args : List expr) (tc tc1 tc3 : type_checker)
    (arguments : List ykobject) (funct : def_signature)
    (hcallee : visit_expr pfx callee tc = some tc1)
    (hfunction : tc1.pop.1.object_type_ = object_type.FUNCTION)
    (hargs : visit_args pfx args tc1.pop.2 = some (arguments, tc3))
    (hget : tc3.functions_.get tc1.pop.1.string_val_ = some funct)
    (harity : args.length = funct.params_.length) :
    visit_expr pfx (.fncall_expr callee paren_token_ args) tc =
      some (type_checker.push
        { tc3 with
          errors_ := tc3.errors_ ++ expected_mismatches paren_token_ funct.params_ arguments }
        ⟨convert_data_type funct.return_type_.name_, ""⟩) := by
  have hlen := visit_args_length pfx args _ _ _ hargs
  have hpl : funct.params_.length = arguments.length := by rw [hlen, harity]
  simp only [visit_expr, hcallee, hfunction, ne_eq, not_true_eq_false, if_false, hargs, hget,
    hpl]
  rw [fncall_match_loop_eq paren_token_ _ _ 0 _ hpl]
  simp [expected_mismatches, mismatch_message]

/-- C4 at `f(true, "s", 1.5)` for `f(a: int, b: str, c: int) -> float`:
positions 1 and 3 mismatch. -/
theorem fncall_reports_each_mismatch_witness :
    (visit_expr canonical_name (.variable_expr (word "f")) call_state =
        some (call_state.push ⟨object_type.FUNCTION, "yy__f"⟩) ∧
      (call_state.push ⟨object_type.FUNCTION, "yy__f"⟩).pop.1.object_type_ =
        object_type.FUNCTION ∧
      visit_args canonical_name [literal_true, literal_text, literal_float]
          (call_state.push ⟨object_type.FUNCTION, "yy__f"⟩).pop.2 =
        some ([⟨object_type.BOOL, ""⟩, ⟨object_type.STRING, ""⟩, ⟨object_type.DOUBLE, ""⟩],
          call_state) ∧
      expected_mismatches (word "(")
          [⟨word "a", ⟨word "int"⟩⟩, ⟨word "b", ⟨word "str"⟩⟩, ⟨word "c", ⟨word "int"⟩⟩]
          [⟨object_type.BOOL, ""⟩, ⟨object_type.STRING, ""⟩, ⟨object_type.DOUBLE, ""⟩] =
        [⟨"Parameter & argument 1 mismatches", some (word "(")⟩,
          ⟨"Parameter & argument 3 mismatches", some (word "(")⟩]) ∧
    visit_expr canonical_name
        (.fncall_expr (.variable_expr (word "f")) (word "(")
          [literal_true, literal_text, literal_float]) call_state =
      some (type_checker.push
        { call_state with
          errors_ := call_state.errors_ ++ expected_mismatches (word "(")
            [⟨word "a", ⟨word "int"⟩⟩, ⟨word "b", ⟨word "str"⟩⟩, ⟨word "c", ⟨word "int"⟩⟩]
            [⟨object_type.BOOL, ""⟩, ⟨object_type.STRING, ""⟩, ⟨object_type.DOUBLE, ""⟩] }
        ⟨convert_data_type (word "float"), ""⟩) :=
  ⟨⟨by decide, by decide, by decide, by decide⟩,
    fncall_reports_each_mismatch canonical_name (.variable_expr (word "f")) (word "(")
      [literal_true, literal_text, literal_float] call_state
      (call_state.push ⟨object_type.FUNCTION, "yy__f"⟩) call_state
      [⟨object_type.BOOL, ""⟩, ⟨object_type.STRING, ""⟩, ⟨object_type.DOUBLE, ""⟩]
      ⟨word "f",
        [⟨word "a", ⟨word "int"⟩⟩, ⟨word "b", ⟨word "str"⟩⟩, ⟨word "c", ⟨word "int"⟩⟩],
        ⟨word "float"⟩⟩
      (by decide) (by decide) (by decide) (by decide) (by decide)⟩

/-- C5: when the callee evaluates to a Function-typed value whose signature
has a parameter count different from the argument count, the call handler
appends the one "Too few or too much arguments" diagnostic, no per-parameter
diagnostic, and pushes one None-typed placeholder. -/
theorem fncall_arity_mismatch (pfx : String → String) (callee : expr)
    (paren_token_ : token) (args : List expr) (tc tc1 tc3 : type_checker)
    (arguments : List ykobject) (funct : def_signature)
    (hcallee : visit_expr pfx callee tc = some tc1)
    (hfunction : tc1.pop.1.object_type_ = object_type.FUNCTION)
    (hargs : visit_args pfx args tc1.pop.2 = some (arguments, tc3))
    (hget : tc3.functions_.get tc1.pop.1.string_val_ = some funct)
    (harity : args.length ≠ funct.params_.length) :
    ∃ tc', visit_expr pfx (.fncall_expr callee paren_token_ args) tc = some tc' ∧
      tc'.errors_ = tc3.errors_ ++
        [⟨"Too few or too much arguments for function call", some paren_token_⟩] ∧
      tc'.object_stack_ = ⟨object_type.NONE_OBJ, ""⟩ :: tc3.object_stack_ := by
  have hlen := visit_args_length pfx args _ _ _ hargs
  have hpl : funct.params_.length ≠ arguments.length := by
    rw [hlen]; exact fun h => harity h.symm
  refine ⟨(tc3.error paren_token_
    "Too few or too much arguments for function call").push ykobject.mk0, ?_, ?_, ?_⟩
  · simp only [visit_expr, hcallee, hfunction, ne_eq, not_true_eq_false, if_false, hargs, hget,
      hpl, if_true, not_false_eq_true]
  · simp
  · simp [ykobject.mk0]

/-- C5 at `g(1, 2)` for `g(a: int) -> int`. -/
theorem fncall_arity_mismatch_witness :
    (visit_expr canonical_name (.variable_expr (word "g")) call_state =
        some (call_state.push ⟨object_type.FUNCTION, "yy__g"⟩) ∧
      (call_state.push ⟨object_type.FUNCTION, "yy__g"⟩).pop.1.object_type_ =
        object_type.FUNCTION ∧
      visit_args canonical_name [literal_one, literal_two]
          (call_state.push ⟨object_type.FUNCTION, "yy__g"⟩).pop.2 =
        some ([⟨object_type.INTEGER, ""⟩, ⟨object_type.INTEGER, ""⟩], call_state)) ∧
    ∃ tc', visit_expr canonical_name
        (.fncall_expr (.variable_expr (word "g")) (word "(") [literal_one, literal_two])
        call_state = some tc' ∧
      tc'.errors_ = call_state.errors_ ++
        [⟨"Too few or too much arguments for function call", some (word "(")⟩] ∧
      tc'.object_stack_ = ⟨object_type.NONE_OBJ, ""⟩ :: call_state.object_stack_ :=
  ⟨⟨by decide, by decide, by decide⟩,
    fncall_arity_mismatch canonical_name (.variable_expr (word "g")) (word "(")
      [literal_one, literal_two] call_state
      (call_state.push ⟨object_type.FUNCTION, "yy__g"⟩) call_state
      [⟨object_type.INTEGER, ""⟩, ⟨object_type.INTEGER, ""⟩]
      ⟨word "g", [⟨word "a", ⟨word "int"⟩⟩], ⟨word "int"⟩⟩
      (by decide) (by decide) (by decide) (by decide) (by decide)⟩

/-! ## Binary and logical expressions -/

/-- C6 as stated fails: for `1 + true` the operand types are Integer and
Bool, and the binary handler reports two diagnostics, the mismatch and
"Unsupported operation". -/
theorem binary_mismatch_two_diagnostics :
    (visit_expr canonical_name literal_one type_checker.init).map
        (fun tc => tc.pop.1.object_type_) = some object_type.INTEGER ∧
    (visit_expr canonical_name literal_true type_checker.init).map
        (fun tc => tc.pop.1.object_type_) = some object_type.BOOL ∧
    (visit_expr canonical_name
        (.binary_expr literal_one (tok "+" token_type.PLUS) literal_true)
        type_checker.init).map (fun tc => tc.errors_) =
      some [⟨"Binary operation between two different data types is not supported",
              some (tok "+" token_type.PLUS)⟩,
            ⟨"Unsupported operation", some (tok "+" token_type.PLUS)⟩] := by
  decide

/-- C6 amended: when the operand types differ, the binary handler appends the
mismatch diagnostic once, followed by "Unsupported operation" exactly when
the operator rule rejects the right operand's type; it pushes the right
operand's value on the stack left by the two pops, so the stack is one longer
than before whenever each operand visit left it one longer. -/
theorem binary_mismatch_diagnostics (pfx : String → String) (left_ right_ : expr)
    (opr_ : token) (tc tc1 tc2 : type_checker)
    (hl : visit_expr pfx left_ tc = some tc1)
    (hr : visit_expr pfx right_ tc1.pop.2 = some tc2)
    (hdiff : tc1.pop.1.object_type_ ≠ tc2.pop.1.object_type_) :
    ∃ tc', visit_expr pfx (.binary_expr left_ opr_ right_) tc = some tc' ∧
      tc'.errors_ = tc2.errors_ ++
        ([⟨"Binary operation between two different data types is not supported",
            some opr_⟩] ++
          (if binary_operator_accepts opr_.type_ tc2.pop.1.object_type_ then []
            else [⟨"Unsupported operation", some opr_⟩])) ∧
      tc'.object_stack_ = tc2.pop.1 :: tc2.pop.2.object_stack_ ∧
      (tc1.object_stack_.length = tc.object_stack_.length + 1 →
        tc2.object_stack_.length = tc1.pop.2.object_stack_.length + 1 →
        tc'.object_stack_.length = tc.object_stack_.length + 1) := by
  refine ⟨_, visit_binary_eq pfx left_ right_ opr_ tc tc1 tc2 hl hr, ?_, ?_, ?_⟩
  · rw [binary_checks_eq]
    simp [hdiff]
  · rw [binary_checks_eq]
    simp
  · intro h1 h2
    rw [binary_checks_eq]
    simp only [push_object_stack, List.length_cons, pop_object_stack, List.length_tail] at h2 ⊢
    omega

/-- C6 amended at `1 + true` on a fresh checker. -/
theorem binary_mismatch_diagnostics_witness :
    (visit_expr canonical_name literal_one type_checker.init =
        some (type_checker.init.push ⟨object_type.INTEGER, ""⟩) ∧
      visit_expr canonical_name literal_true
          (type_checker.init.push ⟨object_type.INTEGER, ""⟩).pop.2 =
        some (type_checker.init.push ⟨object_type.BOOL, ""⟩) ∧
      (type_checker.init.push ⟨object_type.INTEGER, ""⟩).pop.1.object_type_ ≠
        (type_checker.init.push ⟨object_type.BOOL, ""⟩).pop.1.object_type_) ∧
    ∃ tc', visit_expr canonical_name
        (.binary_expr literal_one (tok "+" token_type.PLUS) literal_true)
        type_checker.init = some tc' ∧
      tc'.errors_ = (type_checker.init.push ⟨object_type.BOOL, ""⟩).errors_ ++
        ([⟨"Binary operation between two different data types is not supported",
            some (tok "+" token_type.PLUS)⟩] ++
          (if binary_operator_accepts (tok "+" token_type.PLUS).type_
              (type_checker.init.push ⟨object_type.BOOL, ""⟩).pop.1.object_type_ then []
            else [⟨"Unsupported operation", some (tok "+" token_type.PLUS)⟩])) ∧
      tc'.object_stack_ = (type_checker.init.push ⟨object_type.BOOL, ""⟩).pop.1 ::
        (type_checker.init.push ⟨object_type.BOOL, ""⟩).pop.2.object_stack_ ∧
      ((type_checker.init.push ⟨object_type.INTEGER, ""⟩).object_stack_.length =
          type_checker.init.object_stack_.length + 1 →
        (type_checker.init.push ⟨object_type.BOOL, ""⟩).object_stack_.length =
          (type_checker.init.push ⟨object_type.INTEGER, ""⟩).pop.2.object_stack_.length + 1 →
        tc'.object_stack_.length = type_checker.init.object_stack_.length + 1) :=
  ⟨⟨by decide, by decide, by decide⟩,
    binary_mismatch_diagnostics canonical_name literal_one literal_true
      (tok "+" token_type.PLUS) type_checker.init
      (type_checker.init.push ⟨object_type.INTEGER, ""⟩)
      (type_checker.init.push ⟨object_type.BOOL, ""⟩)
      (by decide) (by decide) (by decide)⟩

/-- C7: when both operands evaluate to the same type `T`, the binary handler
appends no diagnostic exactly when the operator rule accepts `T` (`+` with
Double, Integer or String; `-`, `*`, `/`, `>`, `>=`, `<`, `<=` with Double or
Integer; any other operator), and exactly one "Unsupported operation"
diagnostic otherwise; the right operand's value is pushed. -/
theorem binary_same_type_diagnostics (pfx : String → String) (left_ right_ : expr)
    (opr_ : token) (tc tc1 tc2 : type_checker)
    (hl : visit_expr pfx left_ tc = some tc1)
    (hr : visit_expr pfx right_ tc1.pop.2 = some tc2)
    (hsame : tc1.pop.1.object_type_ = tc2.pop.1.object_type_) :
    ∃ tc', visit_expr pfx (.binary_expr left_ opr_ right_) tc = some tc' ∧
      tc'.errors_ = tc2.errors_ ++
        (if binary_operator_accepts opr_.type_ tc2.pop.1.object_type_ then []
          else [⟨"Unsupported operation", some opr_⟩]) ∧
      tc'.object_stack_ = tc2.pop.1 :: tc2.pop.2.object_stack_ := by
  refine ⟨_, visit_binary_eq pfx left_ right_ opr_ tc tc1 tc2 hl hr, ?_, ?_⟩
  · rw [binary_checks_eq]
    simp [hsame]
  · rw [binary_checks_eq]
    simp

/-- C7 at `true - false` on a fresh checker: same type Bool, rejected by the
rule of `-`. -/
theorem binary_same_type_diagnostics_witness :
    (visit_expr canonical_name literal_true type_checker.init =
        some (type_checker.init.push ⟨object_type.BOOL, ""⟩) ∧
      visit_expr canonical_name literal_false
          (type_checker.init.push ⟨object_type.BOOL, ""⟩).pop.2 =
        some (type_checker.init.push ⟨object_type.BOOL, ""⟩) ∧
      (type_checker.init.push ⟨object_type.BOOL, ""⟩).pop.1.object_type_ =
        (type_checker.init.push ⟨object_type.BOOL, ""⟩).pop.1.object_type_ ∧
      ¬ binary_operator_accepts token_type.SUB object_type.BOOL) ∧
    ∃ tc', visit_expr canonical_name
        (.binary_expr literal_true (tok "-" token_type.SUB) literal_false)
        type_checker.init = some tc' ∧
      tc'.errors_ = (type_checker.init.push ⟨object_type.BOOL, ""⟩).errors_ ++
        (if binary_operator_accepts (tok "-" token_type.SUB).type_
            (type_checker.init.push ⟨object_type.BOOL, ""⟩).pop.1.object_type_ then []
          else [⟨"Unsupported operation", some (tok "-" token_type.SUB)⟩]) ∧
      tc'.object_stack_ = (type_checker.init.push ⟨object_type.BOOL, ""⟩).pop.1 ::
        (type_checker.init.push ⟨object_type.BOOL, ""⟩).pop.2.object_stack_ :=
  ⟨⟨by decide, by decide, by decide, by decide⟩,
    binary_same_type_diagnostics canonical_name literal_true literal_false
      (tok "-" token_type.SUB) type_checker.init
      (type_checker.init.push ⟨object_type.BOOL, ""⟩)
      (type_checker.init.push ⟨object_type.BOOL, ""⟩)
      (by decide) (by decide) (by decide)⟩

/-- C8 (code defect): the logical handler pushes nothing.  Visiting
`true and false` on a fresh checker returns the state unchanged, with an
empty operand stack, so `if true and false { pass }` pops the `ykobject()`
placeholder and reports "Invalid boolean expression used". -/
theorem logical_expr_pushes_nothing :
    visit_expr canonical_name (.logical_expr literal_true (word "and") literal_false)
        type_checker.init = some type_checker.init ∧
    type_checker.init.object_stack_ = [] ∧
    (visit_stmt canonical_name
        (.if_stmt (word "if")
          (.logical_expr literal_true (word "and") literal_false)
          (.pass_stmt (word "pass")) none)
        type_checker.init).map (fun tc => tc.errors_) =
      some [⟨"Invalid boolean expression used", some (word "if")⟩] := by
  decide

/-! ## Statements -/

/-- C9: a let statement whose initializer visit returns (or that has no
initializer) returns with its canonical name bound, in the top frame of the
scope table it started from, to the type of its annotation; the mismatch
diagnostic is appended exactly when an initializer is present and its
evaluated type differs from the declared type. -/
theorem let_stmt_binds_declared_type (pfx : String → String) (name_ : token)
    (data_type_ : ykdatatype) (expression_ : Option expr) (tc : type_checker)
    (hinit : ∀ e, expression_ = some e → (visit_expr pfx e tc).isSome = true) :
    ∃ tc', visit_stmt pfx (.let_stmt name_ data_type_ expression_) tc = some tc' ∧
      tc'.scope_ = tc.scope_.define (pfx name_.token_)
        ⟨convert_data_type data_type_.name_, ""⟩ ∧
      List.lookup (pfx name_.token_) tc'.scope_.top_frame =
        some ⟨convert_data_type data_type_.name_, ""⟩ ∧
      (match expression_ with
        | none => tc'.errors_ = tc.errors_
        | some e => ∃ tc1, visit_expr pfx e tc = some tc1 ∧
            tc'.errors_ = tc1.errors_ ++
              (if tc1.pop.1.object_type_ ≠ convert_data_type data_type_.name_ then
                [⟨"Data type mismatch in expression and declaration.", some name_⟩]
              else [])) := by
  cases expression_ with
  | none =>
    refine ⟨tc.scope_define (pfx name_.token_) ⟨convert_data_type data_type_.name_, ""⟩,
      ?_, rfl, ?_, rfl⟩
    · simp only [visit_stmt]
    · exact top_frame_define _ _ _
  | some e =>
    have hs := hinit e rfl
    cases he : visit_expr pfx e tc with
    | none => simp [he] at hs
    | some tc1 =>
      have hctx := visit_expr_same_context pfx e tc tc1 he
      by_cases hm : tc1.pop.1.object_type_ = convert_data_type data_type_.name_
      · refine ⟨tc1.pop.2.scope_define (pfx name_.token_)
          ⟨convert_data_type data_type_.name_, ""⟩, ?_, ?_, ?_, tc1, he, ?_⟩
        · simp only [visit_stmt, he, hm, ne_eq, not_true_eq_false, if_false]
        · simp [type_checker.scope_define, hctx.1]
        · simp only [type_checker.scope_define]; exact top_frame_define _ _ _
        · simp [type_checker.scope_define, hm]
      · refine ⟨(tc1.pop.2.error name_
          "Data type mismatch in expression and declaration.").scope_define (pfx name_.token_)
          ⟨convert_data_type data_type_.name_, ""⟩, ?_, ?_, ?_, tc1, he, ?_⟩
        · simp only [visit_stmt, he, hm, ne_eq, not_false_eq_true, if_true]
        · simp [type_checker.scope_define, hctx.1]
        · simp only [type_checker.scope_define]; exact top_frame_define _ _ _
        · simp [type_checker.scope_define, hm]

/-- C9 at `let x: str = 1` on a fresh checker. -/
theorem let_stmt_binds_declared_type_witness :
    (∀ e, some literal_one = some e →
      (visit_expr canonical_name e type_checker.init).isSome = true) ∧
    ∃ tc', visit_stmt canonical_name
        (.let_stmt (word "x") ⟨word "str"⟩ (some literal_one)) type_checker.init = some tc' ∧
      tc'.scope_ = type_checker.init.scope_.define (canonical_name (word "x").token_)
        ⟨convert_data_type (ykdatatype.mk (word "str")).name_, ""⟩ ∧
      List.lookup (canonical_name (word "x").token_) tc'.scope_.top_frame =
        some ⟨convert_data_type (ykdatatype.mk (word "str")).name_, ""⟩ ∧
      (match some literal_one with
        | none => tc'.errors_ = type_checker.init.errors_
        | some e => ∃ tc1, visit_expr canonical_name e type_checker.init = some tc1 ∧
            tc'.errors_ = tc1.errors_ ++
              (if tc1.pop.1.object_type_ ≠
                  convert_data_type (ykdatatype.mk (word "str")).name_ then
                [⟨"Data type mismatch in expression and declaration.", some (word "x")⟩]
              else [])) :=
  ⟨fun e h => by cases h; decide,
    let_stmt_binds_declared_type canonical_name (word "x") ⟨word "str"⟩ (some literal_one)
      type_checker.init (fun e h => by cases h; decide)⟩

/-- The return handler in any state: when the expression visit returns, the
handler returns, pops the expression's value and appends exactly the
diagnostics of `return_handler_diagnostics`; replacing the statement-kind
stack changes nothing else in the outcome. -/
theorem visit_return_stmt_eq (pfx : String → String) (return_keyword_ : token)
    (expression_ : expr) (tc tc1 : type_checker)
    (he : visit_expr pfx expression_ tc = some tc1) :
    ∃ tc', visit_stmt pfx (.return_stmt return_keyword_ expression_) tc = some tc' ∧
      tc'.object_stack_ = tc1.object_stack_.tail ∧
      tc'.errors_ = tc1.errors_ ++
        return_handler_diagnostics return_keyword_ tc.function_name_stack_ tc.functions_
          tc1.pop.1.object_type_ ∧
      ∀ kinds, visit_stmt pfx (.return_stmt return_keyword_ expression_)
          (with_scope_types kinds tc) = some (with_scope_types kinds tc') := by
  have hctx := visit_expr_same_context pfx expression_ tc tc1 he
  have hkinds : ∀ kinds, visit_stmt pfx (.return_stmt return_keyword_ expression_)
      (with_scope_types kinds tc) =
      (visit_stmt pfx (.return_stmt return_keyword_ expression_) tc).map
        (with_scope_types kinds) := by
    intro kinds
    simp only [visit_stmt, visit_expr_scope_types, he, Option.map_some',
      with_scope_types_pop_snd, with_scope_types_pop_fst, with_scope_types_functions,
      with_scope_types_error]
    have hp : (with_scope_types kinds tc).peek_function = tc.peek_function := rfl
    rw [hp]
    split
    · rfl
    · cases tc1.pop.2.functions_.get tc.peek_function with
      | none => rfl
      | some func =>
        simp only []
        split <;> rfl
  have hmain : ∃ tc', visit_stmt pfx (.return_stmt return_keyword_ expression_) tc = some tc' ∧
      tc'.object_stack_ = tc1.object_stack_.tail ∧
      tc'.errors_ = tc1.errors_ ++
        return_handler_diagnostics return_keyword_ tc.function_name_stack_ tc.functions_
          tc1.pop.1.object_type_ := by
    have hf : tc1.pop.2.functions_ = tc.functions_ := by rw [pop_functions]; exact hctx.2.1
    simp only [visit_stmt, he, hf, type_checker.peek_function, def_visitor.has,
      return_handler_diagnostics, claimed_return_diagnostics]
    cases hs : tc.function_name_stack_ with
    | nil =>
      exact ⟨tc1.pop.2.error return_keyword_ "Invalid use of return statement",
        by simp, by simp [pop_object_stack], by simp⟩
    | cons top rest =>
      by_cases htop : top = ""
      · exact ⟨tc1.pop.2.error return_keyword_ "Invalid use of return statement",
          by simp [htop], by simp [pop_object_stack], by simp [htop]⟩
      · cases hg : tc.functions_.get top with
        | none =>
          exact ⟨tc1.pop.2.error return_keyword_ "Invalid use of return statement",
            by simp [htop], by simp [pop_object_stack], by simp [htop, hg]⟩
        | some func =>
          by_cases hty : convert_data_type func.return_type_.name_ = tc1.pop.1.object_type_
          · exact ⟨tc1.pop.2, by simp [htop, hty], by simp [pop_object_stack],
              by simp [htop, hty, hg]⟩
          · exact ⟨tc1.pop.2.error return_keyword_ "Invalid return data type",
              by simp [htop, hty], by simp [pop_object_stack], by simp [htop, hty, hg]⟩
  obtain ⟨tc', h1, h2, h3⟩ := hmain
  exact ⟨tc', h1, h2, h3, fun kinds => by rw [hkinds kinds, h1]; rfl⟩

/-- When `peek_function` gives the empty string only for an empty
function-name stack, the return handler's diagnostics are those of
`claimed_return_diagnostics`. -/
theorem return_handler_diagnostics_eq (return_keyword_ : token) (tc : type_checker)
    (table : def_visitor) (evaluated : object_type)
    (hname : tc.peek_function = "" → tc.function_name_stack_ = []) :
    return_handler_diagnostics return_keyword_ tc.function_name_stack_ table evaluated =
      claimed_return_diagnostics return_keyword_ tc.function_name_stack_ table evaluated := by
  unfold type_checker.peek_function at hname
  cases hs : tc.function_name_stack_ with
  | nil => rfl
  | cons top rest =>
    rw [hs] at hname
    have htop : top ≠ "" := fun h => by simpa using hname h
    simp [return_handler_diagnostics, htop]

/-- The canonical name of an identifier is never the empty string. -/
theorem canonical_name_ne_empty (s : String) : canonical_name s ≠ "" := by
  intro h
  have hl := congrArg String.length h
  simp [canonical_name, String.length_append] at hl
  have : ("yy__" : String).length = 4 := by decide
  omega

/-- The parameter loop of the def handler leaves the function-name stack as
it is. -/
theorem def_params_loop_function_names (pfx : String → String) :
    ∀ (params_ : List parameter) (tc : type_checker),
      (def_params_loop pfx params_ tc).function_name_stack_ = tc.function_name_stack_
  | [], _ => rfl
  | p :: ps, tc => by
    rw [def_params_loop, def_params_loop_function_names pfx ps]
    split <;> rfl

/-- The body of a function definition is walked with the canonical name of the
function pushed on the function-name stack the definition was met with; this
is the only push onto that stack. -/
theorem def_body_state_function_names (pfx : String → String) (name_ : token)
    (params_ : List parameter) (tc : type_checker) :
    (def_body_state pfx name_ params_ tc).function_name_stack_ =
      pfx name_.token_ :: tc.function_name_stack_ := by
  rw [def_body_state, def_params_loop_function_names]
  rfl

/-- In the state in which the body of a function definition is walked,
`peek_function` gives the canonical name of the function, so it does not give
the empty string when that canonical name is not empty. -/
theorem def_body_state_active_name (pfx : String → String) (name_ : token)
    (params_ : List parameter) (tc : type_checker) (hp : pfx name_.token_ ≠ "") :
    (def_body_state pfx name_ params_ tc).peek_function = pfx name_.token_ ∧
      ((def_body_state pfx name_ params_ tc).peek_function = "" →
        (def_body_state pfx name_ params_ tc).function_name_stack_ = []) := by
  have h : (def_body_state pfx name_ params_ tc).peek_function = pfx name_.token_ := by
    simp [type_checker.peek_function, def_body_state_function_names]
  exact ⟨h, fun h0 => absurd (h ▸ h0) hp⟩

/-- C10: in every state in which the active function name, when there is one,
is not the empty string (`peek_function` gives the empty string only for an
empty function-name stack), a return statement whose expression visit returns
is handled as follows.  The handler returns, with the expression evaluated
and its value popped in all cases, and appends exactly the diagnostics of
`claimed_return_diagnostics`: "Invalid use of return statement" exactly when
the function-name stack is empty or its top name is not in the signature
table; otherwise "Invalid return data type" exactly when the evaluated type
differs from the declared return type of that function; otherwise none.
Replacing the statement-kind stack changes nothing else in the outcome.  The
names on the function-name stack are the canonical names of the function
definitions being walked (`def_body_state_function_names`), and every statement
visit restores the stack, so the condition on the active name holds wherever
canonical names are not empty (`def_body_state_active_name`,
`canonical_name_ne_empty`). -/
theorem return_stmt_claimed_diagnostics (pfx : String → String) (return_keyword_ : token)
    (expression_ : expr) (tc tc1 : type_checker)
    (he : visit_expr pfx expression_ tc = some tc1)
    (hname : tc.peek_function = "" → tc.function_name_stack_ = []) :
    ∃ tc', visit_stmt pfx (.return_stmt return_keyword_ expression_) tc = some tc' ∧
      tc'.object_stack_ = tc1.object_stack_.tail ∧
      tc'.errors_ = tc1.errors_ ++
        claimed_return_diagnostics return_keyword_ tc.function_name_stack_ tc.functions_
          tc1.pop.1.object_type_ ∧
      ∀ kinds, visit_stmt pfx (.return_stmt return_keyword_ expression_)
          (with_scope_types kinds tc) = some (with_scope_types kinds tc') := by
  obtain ⟨tc', h1, h2, h3, h4⟩ :=
    visit_return_stmt_eq pfx return_keyword_ expression_ tc tc1 he
  rw [return_handler_diagnostics_eq return_keyword_ tc tc.functions_ _ hname] at h3
  exact ⟨tc', h1, h2, h3, h4⟩

/-- C10 at `return "s"` in the body of `def g(a: int) -> int`: the handler
pops the String value and reports "Invalid return data type". -/
theorem return_stmt_claimed_diagnostics_witness :
    visit_expr canonical_name literal_text g_body_state =
      some (g_body_state.push ⟨object_type.STRING, ""⟩) ∧
    (g_body_state.peek_function = "" → g_body_state.function_name_stack_ = []) ∧
    claimed_return_diagnostics (word "return") g_body_state.function_name_stack_
        g_body_state.functions_
        (g_body_state.push ⟨object_type.STRING, ""⟩).pop.1.object_type_ =
      [⟨"Invalid return data type", some (word "return")⟩] ∧
    ∃ tc', visit_stmt canonical_name (.return_stmt (word "return") literal_text)
        g_body_state = some tc' ∧
      tc'.object_stack_ = (g_body_state.push ⟨object_type.STRING, ""⟩).object_stack_.tail ∧
      tc'.errors_ = (g_body_state.push ⟨object_type.STRING, ""⟩).errors_ ++
        claimed_return_diagnostics (word "return") g_body_state.function_name_stack_
          g_body_state.functions_
          (g_body_state.push ⟨object_type.STRING, ""⟩).pop.1.object_type_ ∧
      ∀ kinds, visit_stmt canonical_name (.return_stmt (word "return") literal_text)
          (with_scope_types kinds g_body_state) = some (with_scope_types kinds tc') :=
  ⟨by decide, by decide, by decide,
    return_stmt_claimed_diagnostics canonical_name (word "return") literal_text g_body_state
      (g_body_state.push ⟨object_type.STRING, ""⟩) (by decide) (by decide)⟩

/-! ## Helper lemmas for the walk invariants -/

/-- The literal handler's category test agrees with the literal table. -/
theorem literal_object_type_eq (t : token_type) :
    literal_object_type t = expected_literal_type t := by
  cases t <;> simp [literal_object_type, expected_literal_type]

/-- The type mapping never yields Function. -/
theorem convert_data_type_ne_function (t : token) :
    convert_data_type t ≠ object_type.FUNCTION := by
  unfold convert_data_type
  split
  · simp
  · split
    · simp
    · split <;> simp

/-- Resolution of a name in a scope whose top frame is `fr`. -/
theorem find_in_cons (fr : environment) (fs : List environment) (n : String) :
    environment.find_in (fr :: fs) n =
      match List.lookup n fr with
      | some v => some v
      | none => environment.find_in fs n := by
  cases h : List.lookup n fr <;> simp [environment.find_in, h]

/-- A name that resolves keeps resolving after a binding is inserted. -/
theorem is_defined_define (s : environment_stack) (m n : String) (v : ykobject)
    (h : s.is_defined n = true) : (s.define m v).is_defined n = true := by
  unfold environment_stack.is_defined environment_stack.all_frames at *
  unfold environment_stack.define
  cases hf : s.frames_ with
  | nil =>
    rw [hf] at h
    simp only [List.nil_append, find_in_cons, lookup_define] at h ⊢
    by_cases hn : n = m
    · simp [hn]
    · simpa [hn] using h
  | cons f fs =>
    rw [hf] at h
    simp only [List.cons_append, find_in_cons, lookup_define] at h ⊢
    by_cases hn : n = m
    · simp [hn]
    · simpa [hn] using h

/-- The parameter loop of a function definition only appends diagnostics. -/
theorem def_params_loop_errors (pfx : String → String) :
    ∀ (params : List parameter) (tc : type_checker),
      ∃ added, (def_params_loop pfx params tc).errors_ = tc.errors_ ++ added
  | [], tc => ⟨[], by simp [def_params_loop]⟩
  | p :: ps, tc => by
    simp only [def_params_loop]
    split
    · obtain ⟨added, h⟩ := def_params_loop_errors pfx ps
        (tc.error p.name_ "Parameter shadows outer scope name.")
      exact ⟨⟨"Parameter shadows outer scope name.", some p.name_⟩ :: added,
        by rw [h]; simp⟩
    · obtain ⟨added, h⟩ := def_params_loop_errors pfx ps
        (tc.scope_define (pfx p.name_.token_) ⟨convert_data_type p.data_type_.name_, ""⟩)
      exact ⟨added, by rw [h]; rfl⟩

/-- What the parameter loop of a function definition leaves behind, entered
with top frame `fr` above the frames `F`: the frames below, the bottom frame
and everything but the diagnostics stay; a name is bound in the top frame as
before, or, when it was bound nowhere, to the declared type of the first
parameter of that canonical name. -/
theorem def_params_loop_spec (pfx : String → String) :
    ∀ (params : List parameter) (tc : type_checker) (fr : environment)
      (F : List environment), tc.scope_.frames_ = fr :: F →
      ∃ fr' added,
        (def_params_loop pfx params tc).scope_.frames_ = fr' :: F ∧
        (def_params_loop pfx params tc).scope_.global_ = tc.scope_.global_ ∧
        (def_params_loop pfx params tc).errors_ = tc.errors_ ++ added ∧
        (∀ e ∈ added, e.message_ = "Parameter shadows outer scope name.") ∧
        (def_params_loop pfx params tc).functions_ = tc.functions_ ∧
        (def_params_loop pfx params tc).object_stack_ = tc.object_stack_ ∧
        (def_params_loop pfx params tc).scope_type_stack_ = tc.scope_type_stack_ ∧
        (def_params_loop pfx params tc).function_name_stack_ = tc.function_name_stack_ ∧
        ∀ n, List.lookup n fr' =
          match List.lookup n fr with
          | some v => some v
          | none =>
            if (environment.find_in (F ++ [tc.scope_.global_]) n).isSome then none
            else (params.find? (fun p => pfx p.name_.token_ == n)).map
              (fun p => ⟨convert_data_type p.data_type_.name_, ""⟩)
  | [], tc, fr, F, h => by
    refine ⟨fr, [], h, rfl, by simp [def_params_loop], by simp, rfl, rfl, rfl, rfl, ?_⟩
    intro n
    cases List.lookup n fr <;> simp
  | p :: ps, tc, fr, F, h => by
    simp only [def_params_loop]
    by_cases hd : tc.scope_.is_defined (pfx p.name_.token_) = true
    · simp only [hd, if_true]
      obtain ⟨fr', added, h1, h2, h3, h4, h5, h6, h7, h8, h9⟩ :=
        def_params_loop_spec pfx ps
          (tc.error p.name_ "Parameter shadows outer scope name.") fr F h
      refine ⟨fr', ⟨"Parameter shadows outer scope name.", some p.name_⟩ :: added, h1, h2,
        by rw [h3]; simp, ?_, h5, h6, h7, h8, ?_⟩
      · intro e he
        rcases List.mem_cons.1 he with he | he
        · subst he; rfl
        · exact h4 e he
      · intro n
        rw [h9 n]
        cases hl : List.lookup n fr with
        | some v => rfl
        | none =>
          simp only [error_scope]
          by_cases henc : (environment.find_in (F ++ [tc.scope_.global_]) n).isSome = true
          · simp [henc]
          · have hne : (pfx p.name_.token_ == n) = false := by
              cases hb : (pfx p.name_.token_ == n) with
              | false => rfl
              | true =>
                have hb' : pfx p.name_.token_ = n := by simpa using hb
                exfalso
                rw [hb'] at hd
                simp only [environment_stack.is_defined, environment_stack.all_frames, h,
                  List.cons_append, find_in_cons, hl] at hd
                exact henc hd
            simp [henc, List.find?_cons, hne]
    · simp only [hd, if_false, Bool.false_eq_true]
      have hd' : tc.scope_.is_defined (pfx p.name_.token_) = false := by simpa using hd
      have hfr : (tc.scope_define (pfx p.name_.token_)
          ⟨convert_data_type p.data_type_.name_, ""⟩).scope_.frames_ =
          fr.define (pfx p.name_.token_) ⟨convert_data_type p.data_type_.name_, ""⟩ :: F := by
        simp [type_checker.scope_define, environment_stack.define, h]
      have hgl : (tc.scope_define (pfx p.name_.token_)
          ⟨convert_data_type p.data_type_.name_, ""⟩).scope_.global_ = tc.scope_.global_ := by
        simp [type_checker.scope_define, environment_stack.define, h]
      obtain ⟨fr', added, h1, h2, h3, h4, h5, h6, h7, h8, h9⟩ :=
        def_params_loop_spec pfx ps _ _ F hfr
      refine ⟨fr', added, h1, by rw [h2, hgl], h3, h4, h5, h6, h7, h8, ?_⟩
      intro n
      rw [h9 n, lookup_define, hgl]
      simp only [environment_stack.is_defined, environment_stack.all_frames, h,
        List.cons_append, find_in_cons] at hd'
      by_cases hn : n = pfx p.name_.token_
      · subst hn
        cases hl : List.lookup (pfx p.name_.token_) fr with
        | some v => simp [hl] at hd'
        | none =>
          simp only [hl] at hd'
          simp [hd', List.find?_cons]
      · have hne : (pfx p.name_.token_ == n) = false := by
          simpa using fun h => hn h.symm
        simp only [hn, if_false, List.find?_cons, hne]

/-- A parameter whose name already resolves is reported by the parameter
loop. -/
theorem def_params_loop_reports (pfx : String → String) :
    ∀ (params : List parameter) (tc : type_checker) (p : parameter), p ∈ params →
      tc.scope_.is_defined (pfx p.name_.token_) = true →
      (⟨"Parameter shadows outer scope name.", some p.name_⟩ : parsing_error) ∈
        (def_params_loop pfx params tc).errors_
  | [], _, _, hp, _ => by cases hp
  | q :: qs, tc, p, hp, hd => by
    simp only [def_params_loop]
    rcases List.mem_cons.1 hp with hp | hp
    · subst hp
      simp only [hd, if_true]
      obtain ⟨added, h⟩ := def_params_loop_errors pfx qs
        (tc.error p.name_ "Parameter shadows outer scope name.")
      rw [h]
      simp
    · split
      · exact def_params_loop_reports pfx qs _ p hp hd
      · exact def_params_loop_reports pfx qs _ p hp
          (by simp only [type_checker.scope_define]; exact is_defined_define _ _ _ _ hd)

/-- The text of a per-parameter diagnostic starts with `P`. -/
theorem mismatch_message_head (i : Nat) : (mismatch_message i).data.head? = some 'P' := by
  unfold mismatch_message
  rw [String.data_append, String.data_append]
  rfl

/-- A per-parameter diagnostic is no break or continue diagnostic. -/
theorem mismatch_message_not_loop (i : Nat) (t : Option token) :
    is_loop_diagnostic ⟨mismatch_message i, t⟩ = false := by
  have h := mismatch_message_head i
  have hb : mismatch_message i ≠ break_message := by
    intro hc
    rw [hc] at h
    exact absurd h (by decide)
  have hcn : mismatch_message i ≠ continue_message := by
    intro hc
    rw [hc] at h
    exact absurd h (by decide)
  simp [is_loop_diagnostic, hb, hcn]

/-- Consecutive walks append the concatenation of their break and continue
diagnostics. -/
theorem appends_loop_trans {l1 l2 : List parsing_error} {a b c : type_checker}
    (h1 : appends_loop l1 a b) (h2 : appends_loop l2 b c) : appends_loop (l1 ++ l2) a c := by
  obtain ⟨x, hx, hxf⟩ := h1
  obtain ⟨y, hy, hyf⟩ := h2
  exact ⟨x ++ y, by rw [hy, hx, List.append_assoc], by rw [List.filter_append, hxf, hyf]⟩

/-- Doing nothing is quiet. -/
theorem quiet_refl (tc : type_checker) : quiet tc tc := ⟨[], by simp, rfl⟩

/-- A step that keeps the diagnostics is quiet. -/
theorem quiet_of_errors {a b : type_checker} (h : b.errors_ = a.errors_) : quiet a b :=
  ⟨[], by simp [h], rfl⟩

/-- Quiet steps compose. -/
theorem quiet_trans {a b c : type_checker} (h1 : quiet a b) (h2 : quiet b c) : quiet a c :=
  appends_loop_trans h1 h2

/-- Reporting a diagnostic whose text is neither the break nor the continue
text is quiet. -/
theorem quiet_error (tc : type_checker) (t : token) (m : String)
    (h : (m == break_message || m == continue_message) = false) : quiet tc (tc.error t m) :=
  ⟨[⟨m, some t⟩], rfl, by simp only [List.filter, is_loop_diagnostic, h]⟩

/-- Pushing a value is quiet. -/
theorem quiet_push (tc : type_checker) (v : ykobject) : quiet tc (tc.push v) :=
  quiet_of_errors rfl

/-- Popping a value is quiet. -/
theorem quiet_pop (tc : type_checker) : quiet tc tc.pop.2 := quiet_of_errors (pop_errors tc)

/-- The parameter loop of a call is quiet. -/
theorem fncall_match_loop_quiet (paren : token) :
    ∀ (params : List parameter) (arguments : List ykobject) (i : Nat) (tc : type_checker),
      quiet tc (fncall_match_loop paren i params arguments tc)
  | [], _, _, tc => by simp [fncall_match_loop, quiet_refl]
  | _ :: _, [], _, tc => by simp [fncall_match_loop, quiet_refl]
  | p :: ps, a :: as, i, tc => by
    simp only [fncall_match_loop]
    split
    · exact quiet_trans (quiet_error _ _ _ (mismatch_message_not_loop _ none))
        (fncall_match_loop_quiet paren ps as (i + 1) _)
    · exact fncall_match_loop_quiet paren ps as (i + 1) _

/-- The checks of the binary handler are quiet. -/
theorem binary_checks_quiet (opr_ : token) (lhs rhs : ykobject) (tc : type_checker) :
    quiet tc (binary_checks opr_ lhs rhs tc) := by
  rw [binary_checks_eq]
  refine ⟨_, rfl, ?_⟩
  rw [List.filter_append]
  split <;> split <;> rfl

mutual
/-- Expression handlers only append diagnostics, none of them a break or
continue diagnostic. -/
theorem visit_expr_quiet (pfx : String → String) :
    ∀ (e : expr) (tc tc' : type_checker), visit_expr pfx e tc = some tc' → quiet tc tc'
  | .assign_expr name_ _ right_, tc, tc', h => by
    simp only [visit_expr] at h
    cases hr : visit_expr pfx right_ tc with
    | none => simp [hr] at h
    | some tc1 =>
      have ih := quiet_trans (visit_expr_quiet pfx right_ tc tc1 hr) (quiet_pop tc1)
      simp only [hr] at h
      split at h
      · cases h; exact quiet_trans ih (quiet_error _ _ _ (by decide))
      · split at h
        · cases h; exact quiet_trans ih (quiet_error _ _ _ (by decide))
        · cases h; exact ih
  | .binary_expr left_ opr_ right_, tc, tc', h => by
    simp only [visit_expr] at h
    cases hl : visit_expr pfx left_ tc with
    | none => simp [hl] at h
    | some tc1 =>
      simp only [hl] at h
      cases hr : visit_expr pfx right_ tc1.pop.2 with
      | none => simp [hr] at h
      | some tc2 =>
        simp only [hr] at h
        cases h
        exact quiet_trans (quiet_trans (quiet_trans
          (quiet_trans (visit_expr_quiet pfx left_ tc tc1 hl) (quiet_pop tc1))
          (visit_expr_quiet pfx right_ _ tc2 hr)) (quiet_pop tc2))
          (binary_checks_quiet _ _ _ _)
  | .fncall_expr name_ paren_token_ args_, tc, tc', h => by
    simp only [visit_expr] at h
    cases hn : visit_expr pfx name_ tc with
    | none => simp [hn] at h
    | some tc1 =>
      have ih := quiet_trans (visit_expr_quiet pfx name_ tc tc1 hn) (quiet_pop tc1)
      simp only [hn] at h
      split at h
      · cases h
        exact quiet_trans ih
          (quiet_trans (quiet_error _ _ _ (by decide)) (quiet_push _ _))
      · cases ha : visit_args pfx args_ tc1.pop.2 with
        | none => simp [ha] at h
        | some r =>
          obtain ⟨arguments, tc3⟩ := r
          have iha := quiet_trans ih (visit_args_quiet pfx args_ _ _ _ ha)
          simp only [ha] at h
          cases hg : tc3.functions_.get tc1.pop.1.string_val_ with
          | none => simp [hg] at h
          | some funct =>
            simp only [hg] at h
            split at h
            · cases h
              exact quiet_trans iha
                (quiet_trans (quiet_error _ _ _ (by decide)) (quiet_push _ _))
            · cases h
              exact quiet_trans iha
                (quiet_trans (fncall_match_loop_quiet _ _ _ _ _) (quiet_push _ _))
  | .grouping_expr expression_, tc, tc', h => by
    simp only [visit_expr] at h
    cases he : visit_expr pfx expression_ tc with
    | none => simp [he] at h
    | some tc1 =>
      simp only [he] at h
      cases h
      exact quiet_trans (quiet_trans
        (visit_expr_quiet pfx expression_ tc tc1 he) (quiet_pop tc1)) (quiet_push _ _)
  | .literal_expr _, tc, tc', h => by
    simp only [visit_expr] at h
    cases h
    exact quiet_push _ _
  | .logical_expr left_ opr_ right_, tc, tc', h => by
    simp only [visit_expr] at h
    cases hl : visit_expr pfx left_ tc with
    | none => simp [hl] at h
    | some tc1 =>
      simp only [hl] at h
      cases hr : visit_expr pfx right_ tc1.pop.2 with
      | none => simp [hr] at h
      | some tc2 =>
        simp only [hr] at h
        have ih := quiet_trans (quiet_trans
          (quiet_trans (visit_expr_quiet pfx left_ tc tc1 hl) (quiet_pop tc1))
          (visit_expr_quiet pfx right_ _ tc2 hr)) (quiet_pop tc2)
        split at h
        · cases h; exact quiet_trans ih (quiet_error _ _ _ (by decide))
        · cases h; exact ih
  | .unary_expr opr_ right_, tc, tc', h => by
    simp only [visit_expr] at h
    cases hr : visit_expr pfx right_ tc with
    | none => simp [hr] at h
    | some tc1 =>
      have ih := quiet_trans (visit_expr_quiet pfx right_ tc tc1 hr) (quiet_pop tc1)
      simp only [hr] at h
      split at h
      · cases h
        exact quiet_trans ih
          (quiet_trans (quiet_error _ _ _ (by decide)) (quiet_push _ _))
      · cases h; exact quiet_trans ih (quiet_push _ _)
  | .variable_expr name_, tc, tc', h => by
    simp only [visit_expr] at h
    split at h
    · cases h
      exact quiet_trans (quiet_error _ _ _ (by decide)) (quiet_push _ _)
    · split at h
      · cases h; exact quiet_push _ _
      · cases h; exact quiet_push _ _
/-- The argument loop of a call appends no break or continue diagnostic. -/
theorem visit_args_quiet (pfx : String → String) :
    ∀ (args : List expr) (tc : type_checker) (arguments : List ykobject) (tc' : type_checker),
      visit_args pfx args tc = some (arguments, tc') → quiet tc tc'
  | [], tc, arguments, tc', h => by
    simp only [visit_args] at h
    cases h
    exact quiet_refl _
  | arg :: args_, tc, arguments, tc', h => by
    simp only [visit_args] at h
    cases ha : visit_expr pfx arg tc with
    | none => simp [ha] at h
    | some tc1 =>
      simp only [ha] at h
      cases hr : visit_args pfx args_ tc1.pop.2 with
      | none => simp [hr] at h
      | some r =>
        obtain ⟨vs, tc2⟩ := r
        simp only [hr] at h
        cases h
        exact quiet_trans (quiet_trans
          (visit_expr_quiet pfx arg tc tc1 ha) (quiet_pop tc1))
          (visit_args_quiet pfx args_ _ _ _ hr)
end

/-- A state is balanced with itself. -/
theorem balanced_refl (tc : type_checker) : balanced tc tc := ⟨rfl, rfl, rfl, rfl⟩

/-- Balance composes. -/
theorem balanced_trans {a b c : type_checker} (h1 : balanced a b) (h2 : balanced b c) :
    balanced a c :=
  ⟨h2.1.trans h1.1, h2.2.1.trans h1.2.1, h2.2.2.1.trans h1.2.2.1, h2.2.2.2.trans h1.2.2.2⟩

/-- States with the same context are balanced. -/
theorem balanced_of_same_context {a b : type_checker} (h : same_context a b) :
    balanced a b :=
  ⟨by rw [h.1], h.2.2.1, h.2.2.2, h.2.1⟩

/-- Reporting a diagnostic keeps the balance. -/
theorem balanced_error (tc : type_checker) (t : token) (m : String) :
    balanced tc (tc.error t m) := ⟨rfl, rfl, rfl, rfl⟩

/-- Inserting a binding keeps the number of frames. -/
theorem define_frames_length (s : environment_stack) (n : String) (v : ykobject) :
    (s.define n v).frames_.length = s.frames_.length := by
  unfold environment_stack.define
  cases h : s.frames_ <;> simp [h]

/-- Inserting a binding keeps the balance. -/
theorem balanced_scope_define (tc : type_checker) (n : String) (v : ykobject) :
    balanced tc (tc.scope_define n v) :=
  ⟨define_frames_length _ _ _, rfl, rfl, rfl⟩

/-- A balanced walk inside a pushed frame is balanced once the frame is
popped. -/
theorem balanced_scope_pop {tc tc2 : type_checker} (h : balanced tc.scope_push tc2) :
    balanced tc tc2.scope_pop := by
  obtain ⟨h1, h2, h3, h4⟩ := h
  refine ⟨?_, h2, h3, h4⟩
  simp only [type_checker.scope_pop, environment_stack.pop, List.length_tail, h1,
    type_checker.scope_push, environment_stack.push, List.length_cons]
  omega

/-- A balanced walk under a pushed statement-kind marker is balanced once the
marker is popped. -/
theorem balanced_pop_scope_type {tc tc2 : type_checker} (k : ast_type)
    (h : balanced (tc.push_scope_type k) tc2) : balanced tc tc2.pop_scope_type := by
  obtain ⟨h1, h2, h3, h4⟩ := h
  exact ⟨h1, by simp [type_checker.pop_scope_type, h2, type_checker.push_scope_type], h3, h4⟩

/-- The parameter loop of a function definition is balanced. -/
theorem def_params_loop_balanced (pfx : String → String) :
    ∀ (params : List parameter) (tc : type_checker),
      balanced tc (def_params_loop pfx params tc)
  | [], tc => balanced_refl tc
  | p :: ps, tc => by
    simp only [def_params_loop]
    split
    · exact balanced_trans (balanced_error _ _ _) (def_params_loop_balanced pfx ps _)
    · exact balanced_trans (balanced_scope_define _ _ _) (def_params_loop_balanced pfx ps _)

/-- Expression handlers are balanced. -/
theorem visit_expr_balanced (pfx : String → String) (e : expr) (tc tc' : type_checker)
    (h : visit_expr pfx e tc = some tc') : balanced tc tc' :=
  balanced_of_same_context (visit_expr_same_context pfx e tc tc' h)

/-- Popping a value keeps the balance. -/
theorem balanced_pop (tc : type_checker) : balanced tc tc.pop.2 :=
  balanced_of_same_context (same_context_pop tc)

mutual
/-- Statement handlers leave the scope-stack depth, the statement-kind stack,
the function-name stack and the signature table as they were. -/
theorem visit_stmt_balanced (pfx : String → String) :
    ∀ (s : stmt) (tc tc' : type_checker), visit_stmt pfx s tc = some tc' → balanced tc tc'
  | .block_stmt statements_, tc, tc', h => by
    simp only [visit_stmt] at h
    exact visit_stmts_balanced pfx statements_ tc tc' h
  | .break_stmt _, tc, tc', h => by
    simp only [visit_stmt] at h
    split at h
    · cases h; exact balanced_error _ _ _
    · cases h; exact balanced_refl _
  | .continue_stmt _, tc, tc', h => by
    simp only [visit_stmt] at h
    split at h
    · cases h; exact balanced_error _ _ _
    · cases h; exact balanced_refl _
  | .def_stmt name_ params_ function_body_ _, tc, tc', h => by
    simp only [visit_stmt] at h
    cases hb : visit_stmt pfx function_body_ (def_params_loop pfx params_
        ((tc.push_scope_type ast_type.STMT_DEF).push_function (pfx name_.token_)).scope_push) with
    | none => rw [hb] at h; simp at h
    | some tc2 =>
      simp only [hb] at h
      cases h
      obtain ⟨i1, i2, i3, i4⟩ := balanced_trans (def_params_loop_balanced pfx params_ _)
        (visit_stmt_balanced pfx function_body_ _ tc2 hb)
      refine ⟨?_, ?_, ?_, i4⟩
      · simp only [type_checker.pop_function, type_checker.pop_scope_type,
          type_checker.scope_pop, environment_stack.pop, List.length_tail, i1]
        simp [type_checker.scope_push, environment_stack.push, type_checker.push_function,
          type_checker.push_scope_type]
      · simp only [type_checker.pop_function, type_checker.pop_scope_type,
          type_checker.scope_pop, i2]
        rfl
      · simp only [type_checker.pop_function, type_checker.pop_scope_type,
          type_checker.scope_pop, i3]
        rfl
  | .defer_stmt _ expression_, tc, tc', h => by
    simp only [visit_stmt] at h
    exact visit_expr_balanced pfx expression_ tc tc' h
  | .expression_stmt expression_, tc, tc', h => by
    simp only [visit_stmt] at h
    exact visit_expr_balanced pfx expression_ tc tc' h
  | .if_stmt if_keyword_ expression_ if_branch_ else_branch_, tc, tc', h => by
    simp only [visit_stmt] at h
    cases he : visit_expr pfx expression_ tc with
    | none => simp [he] at h
    | some tc1 =>
      simp only [he] at h
      have h0 : balanced tc (if tc1.pop.1.object_type_ ≠ object_type.BOOL then
          tc1.pop.2.error if_keyword_ "Invalid boolean expression used" else tc1.pop.2) := by
        have hb := balanced_trans (visit_expr_balanced pfx expression_ tc tc1 he)
          (balanced_pop tc1)
        split
        · exact balanced_trans hb (balanced_error _ _ _)
        · exact hb
      cases hbr : visit_stmt pfx if_branch_ (if tc1.pop.1.object_type_ ≠ object_type.BOOL then
          tc1.pop.2.error if_keyword_ "Invalid boolean expression used"
          else tc1.pop.2).scope_push with
      | none => rw [hbr] at h; simp at h
      | some tc2 =>
        simp only [hbr] at h
        have h1 := balanced_trans h0
          (balanced_scope_pop (visit_stmt_balanced pfx if_branch_ _ tc2 hbr))
        exact balanced_trans h1 (visit_else_balanced pfx else_branch_ _ tc' h)
  | .let_stmt name_ data_type_ expression_, tc, tc', h => by
    simp only [visit_stmt] at h
    cases expression_ with
    | none =>
      simp only at h
      cases h
      exact balanced_scope_define _ _ _
    | some e =>
      simp only at h
      cases he : visit_expr pfx e tc with
      | none => simp [he] at h
      | some tc1 =>
        simp only [he] at h
        cases h
        have hb := balanced_trans (visit_expr_balanced pfx e tc tc1 he) (balanced_pop tc1)
        split
        · exact balanced_trans (balanced_trans hb (balanced_error _ _ _))
            (balanced_scope_define _ _ _)
        · exact balanced_trans hb (balanced_scope_define _ _ _)
  | .pass_stmt _, tc, tc', h => by
    simp only [visit_stmt] at h
    cases h
    exact balanced_refl _
  | .print_stmt _ expression_, tc, tc', h => by
    simp only [visit_stmt] at h
    cases he : visit_expr pfx expression_ tc with
    | none => simp [he] at h
    | some tc1 =>
      simp only [he] at h
      cases h
      exact balanced_trans (visit_expr_balanced pfx expression_ tc tc1 he) (balanced_pop tc1)
  | .return_stmt return_keyword_ expression_, tc, tc', h => by
    simp only [visit_stmt] at h
    cases he : visit_expr pfx expression_ tc with
    | none => simp [he] at h
    | some tc1 =>
      simp only [he] at h
      have hb := balanced_trans (visit_expr_balanced pfx expression_ tc tc1 he)
        (balanced_pop tc1)
      split at h
      · cases h; exact balanced_trans hb (balanced_error _ _ _)
      · cases hg : tc1.pop.2.functions_.get tc.peek_function with
        | none => rw [hg] at h; simp at h
        | some func =>
          simp only [hg] at h
          split at h
          · cases h; exact balanced_trans hb (balanced_error _ _ _)
          · cases h; exact hb
  | .while_stmt while_keyword_ expression_ while_body_, tc, tc', h => by
    simp only [visit_stmt] at h
    cases he : visit_expr pfx expression_ tc with
    | none => simp [he] at h
    | some tc1 =>
      simp only [he] at h
      have h0 : balanced tc (if tc1.pop.1.object_type_ ≠ object_type.BOOL then
          tc1.pop.2.error while_keyword_ "While statement expression need to be a boolean"
          else tc1.pop.2) := by
        have hb := balanced_trans (visit_expr_balanced pfx expression_ tc tc1 he)
          (balanced_pop tc1)
        split
        · exact balanced_trans hb (balanced_error _ _ _)
        · exact hb
      cases hbr : visit_stmt pfx while_body_ ((if tc1.pop.1.object_type_ ≠ object_type.BOOL then
          tc1.pop.2.error while_keyword_ "While statement expression need to be a boolean"
          else tc1.pop.2).push_scope_type ast_type.STMT_WHILE).scope_push with
      | none => rw [hbr] at h; simp at h
      | some tc2 =>
        simp only [hbr] at h
        cases h
        have h1 := balanced_scope_pop (visit_stmt_balanced pfx while_body_ _ tc2 hbr)
        exact balanced_trans h0 (balanced_pop_scope_type ast_type.STMT_WHILE h1)
/-- The statement loop of a block is balanced. -/
theorem visit_stmts_balanced (pfx : String → String) :
    ∀ (ss : List stmt) (tc tc' : type_checker), visit_stmts pfx ss tc = some tc' →
      balanced tc tc'
  | [], tc, tc', h => by
    simp only [visit_stmts] at h
    cases h
    exact balanced_refl _
  | stm :: statements_, tc, tc', h => by
    simp only [visit_stmts] at h
    cases hs : visit_stmt pfx stm tc with
    | none => simp [hs] at h
    | some tc1 =>
      simp only [hs] at h
      exact balanced_trans (visit_stmt_balanced pfx stm tc tc1 hs)
        (visit_stmts_balanced pfx statements_ tc1 tc' h)
/-- The walk of an optional else branch is balanced. -/
theorem visit_else_balanced (pfx : String → String) :
    ∀ (e : Option stmt) (tc tc' : type_checker), visit_else pfx e tc = some tc' →
      balanced tc tc'
  | none, tc, tc', h => by
    simp only [visit_else] at h
    cases h
    exact balanced_refl _
  | some else_branch_, tc, tc', h => by
    simp only [visit_else] at h
    cases hs : visit_stmt pfx else_branch_ tc.scope_push with
    | none => simp [hs] at h
    | some tc1 =>
      simp only [hs] at h
      cases h
      exact balanced_scope_pop (visit_stmt_balanced pfx else_branch_ _ tc1 hs)
end

/-- The property `appends_loop` only reads the diagnostics of the two states. -/
theorem appends_loop_congr {l : List parsing_error} {a p b q : type_checker}
    (ha : p.errors_ = a.errors_) (hb : q.errors_ = b.errors_)
    (h : appends_loop l a b) : appends_loop l p q := by
  obtain ⟨x, hx, hf⟩ := h
  exact ⟨x, by rw [ha, hb, hx], hf⟩

/-- A quiet step before a walk does not change its break and continue
diagnostics. -/
theorem quiet_then {l : List parsing_error} {a b c : type_checker}
    (h1 : quiet a b) (h2 : appends_loop l b c) : appends_loop l a c := by
  have := appends_loop_trans h1 h2
  simpa using this

/-- The top of the statement-kind stack only depends on that stack. -/
theorem peek_scope_type_congr {a c : type_checker}
    (h : c.scope_type_stack_ = a.scope_type_stack_) :
    c.peek_scope_type = a.peek_scope_type := by
  simp only [type_checker.peek_scope_type, h]

/-- The parameter loop of a function definition appends no break or continue
diagnostic. -/
theorem def_params_loop_quiet (pfx : String → String) :
    ∀ (params : List parameter) (tc : type_checker),
      quiet tc (def_params_loop pfx params tc)
  | [], tc => quiet_refl tc
  | p :: ps, tc => by
    simp only [def_params_loop]
    split
    · exact quiet_trans (quiet_error _ _ _ (by decide)) (def_params_loop_quiet pfx ps _)
    · exact quiet_trans (quiet_of_errors rfl) (def_params_loop_quiet pfx ps _)

/-- The state after an optional diagnostic that is no break or continue
diagnostic. -/
theorem quiet_ite_error (c : Prop) [Decidable c] (tc : type_checker) (t : token) (m : String)
    (h : (m == break_message || m == continue_message) = false) :
    quiet tc (if c then tc.error t m else tc) := by
  split
  · exact quiet_error _ _ _ h
  · exact quiet_refl _

/-- An optional diagnostic keeps the balance. -/
theorem balanced_ite_error (c : Prop) [Decidable c] (tc : type_checker) (t : token)
    (m : String) : balanced tc (if c then tc.error t m else tc) := by
  split
  · exact balanced_error _ _ _
  · exact balanced_refl _

mutual
/-- The break and continue diagnostics of a statement walk are those expected
from the nearest enclosing while statement or function definition. -/
theorem visit_stmt_loop (pfx : String → String) :
    ∀ (s : stmt) (tc tc' : type_checker) (b : Bool), visit_stmt pfx s tc = some tc' →
      decide (tc.peek_scope_type = ast_type.STMT_WHILE) = b →
      appends_loop (loop_diagnostics b s) tc tc'
  | .block_stmt statements_, tc, tc', b, h, hb => by
    simp only [visit_stmt] at h
    simp only [loop_diagnostics]
    exact visit_stmts_loop pfx statements_ tc tc' b h hb
  | .break_stmt break_token_, tc, tc', b, h, hb => by
    simp only [visit_stmt] at h
    simp only [loop_diagnostics]
    by_cases hp : tc.peek_scope_type = ast_type.STMT_WHILE
    · simp only [hp, ne_eq, not_true_eq_false, if_false, Option.some.injEq] at h
      subst h
      simp only [hp, decide_True] at hb
      subst hb
      exact quiet_refl _
    · simp only [hp, ne_eq, not_false_eq_true, if_true, Option.some.injEq] at h
      subst h
      simp only [hp, decide_False] at hb
      subst hb
      have hm : (break_message == break_message || break_message == continue_message) = true := by
        decide
      exact ⟨[⟨break_message, some break_token_⟩], rfl,
        by simp only [List.filter, is_loop_diagnostic, hm, Bool.false_eq_true, if_false]⟩
  | .continue_stmt continue_token_, tc, tc', b, h, hb => by
    simp only [visit_stmt] at h
    simp only [loop_diagnostics]
    by_cases hp : tc.peek_scope_type = ast_type.STMT_WHILE
    · simp only [hp, ne_eq, not_true_eq_false, if_false, Option.some.injEq] at h
      subst h
      simp only [hp, decide_True] at hb
      subst hb
      exact quiet_refl _
    · simp only [hp, ne_eq, not_false_eq_true, if_true, Option.some.injEq] at h
      subst h
      simp only [hp, decide_False] at hb
      subst hb
      have hm : (continue_message == break_message ||
          continue_message == continue_message) = true := by
        decide
      exact ⟨[⟨continue_message, some continue_token_⟩], rfl,
        by simp only [List.filter, is_loop_diagnostic, hm, Bool.false_eq_true, if_false]⟩
  | .def_stmt name_ params_ function_body_ _, tc, tc', b, h, _ => by
    simp only [visit_stmt] at h
    simp only [loop_diagnostics]
    cases hbody : visit_stmt pfx function_body_ (def_params_loop pfx params_
        ((tc.push_scope_type ast_type.STMT_DEF).push_function (pfx name_.token_)).scope_push) with
    | none => rw [hbody] at h; simp at h
    | some tc2 =>
      rw [hbody] at h
      simp only [Option.some.injEq] at h
      subst h
      have hq : quiet tc (def_params_loop pfx params_
          ((tc.push_scope_type ast_type.STMT_DEF).push_function
            (pfx name_.token_)).scope_push) :=
        quiet_trans (quiet_of_errors rfl) (def_params_loop_quiet pfx params_ _)
      have hpk : decide ((def_params_loop pfx params_
          ((tc.push_scope_type ast_type.STMT_DEF).push_function
            (pfx name_.token_)).scope_push).peek_scope_type = ast_type.STMT_WHILE) = false := by
        rw [peek_scope_type_congr (def_params_loop_balanced pfx params_ _).2.1]
        rfl
      exact appends_loop_congr rfl rfl
        (quiet_then hq (visit_stmt_loop pfx function_body_ _ tc2 false hbody hpk))
  | .defer_stmt _ expression_, tc, tc', b, h, _ => by
    simp only [visit_stmt] at h
    exact visit_expr_quiet pfx expression_ tc tc' h
  | .expression_stmt expression_, tc, tc', b, h, _ => by
    simp only [visit_stmt] at h
    exact visit_expr_quiet pfx expression_ tc tc' h
  | .if_stmt if_keyword_ expression_ if_branch_ else_branch_, tc, tc', b, h, hb => by
    simp only [visit_stmt] at h
    simp only [loop_diagnostics]
    cases he : visit_expr pfx expression_ tc with
    | none => rw [he] at h; simp at h
    | some tc1 =>
      rw [he] at h
      simp only at h
      have hq0 := quiet_trans (visit_expr_quiet pfx expression_ tc tc1 he) (quiet_pop tc1)
      have hb0 := balanced_trans (visit_expr_balanced pfx expression_ tc tc1 he)
        (balanced_pop tc1)
      have hq := quiet_trans hq0 (quiet_ite_error
        (tc1.pop.1.object_type_ ≠ object_type.BOOL) tc1.pop.2 if_keyword_
        "Invalid boolean expression used" (by decide))
      have hbal := balanced_trans hb0 (balanced_ite_error
        (tc1.pop.1.object_type_ ≠ object_type.BOOL) tc1.pop.2 if_keyword_
        "Invalid boolean expression used")
      generalize (if tc1.pop.1.object_type_ ≠ object_type.BOOL then
        tc1.pop.2.error if_keyword_ "Invalid boolean expression used" else tc1.pop.2) = X
        at h hq hbal
      cases hbr : visit_stmt pfx if_branch_ X.scope_push with
      | none => rw [hbr] at h; simp at h
      | some tc2 =>
        rw [hbr] at h
        simp only at h
        have hpk : decide (X.scope_push.peek_scope_type = ast_type.STMT_WHILE) = b := by
          rw [peek_scope_type_congr (a := tc) (c := X.scope_push) hbal.2.1]
          exact hb
        have h1 := visit_stmt_loop pfx if_branch_ _ tc2 b hbr hpk
        have hbal2 := balanced_trans hbal
          (balanced_scope_pop (visit_stmt_balanced pfx if_branch_ _ tc2 hbr))
        have hpk2 : decide (tc2.scope_pop.peek_scope_type = ast_type.STMT_WHILE) = b := by
          rw [peek_scope_type_congr (a := tc) (c := tc2.scope_pop) hbal2.2.1]
          exact hb
        have h2 := visit_else_loop pfx else_branch_ _ tc' b h hpk2
        have h12 := appends_loop_trans (appends_loop_congr (a := X.scope_push) (p := X)
          (b := tc2) (q := tc2.scope_pop) rfl rfl h1) h2
        exact quiet_then hq h12
  | .let_stmt name_ data_type_ expression_, tc, tc', b, h, _ => by
    simp only [visit_stmt] at h
    simp only [loop_diagnostics]
    cases expression_ with
    | none =>
      simp only [Option.some.injEq] at h
      subst h
      exact quiet_of_errors rfl
    | some e =>
      simp only at h
      cases he : visit_expr pfx e tc with
      | none => rw [he] at h; simp at h
      | some tc1 =>
        rw [he] at h
        simp only [Option.some.injEq] at h
        subst h
        have hq0 := quiet_trans (visit_expr_quiet pfx e tc tc1 he) (quiet_pop tc1)
        exact quiet_trans (quiet_trans hq0 (quiet_ite_error _ tc1.pop.2 name_
          "Data type mismatch in expression and declaration." (by decide)))
          (quiet_of_errors rfl)
  | .pass_stmt _, tc, tc', b, h, _ => by
    simp only [visit_stmt, Option.some.injEq] at h
    subst h
    exact quiet_refl _
  | .print_stmt _ expression_, tc, tc', b, h, _ => by
    simp only [visit_stmt] at h
    simp only [loop_diagnostics]
    cases he : visit_expr pfx expression_ tc with
    | none => rw [he] at h; simp at h
    | some tc1 =>
      rw [he] at h
      simp only [Option.some.injEq] at h
      subst h
      exact quiet_trans (visit_expr_quiet pfx expression_ tc tc1 he) (quiet_pop tc1)
  | .return_stmt return_keyword_ expression_, tc, tc', b, h, _ => by
    simp only [visit_stmt] at h
    simp only [loop_diagnostics]
    cases he : visit_expr pfx expression_ tc with
    | none => rw [he] at h; simp at h
    | some tc1 =>
      rw [he] at h
      simp only at h
      have hq0 := quiet_trans (visit_expr_quiet pfx expression_ tc tc1 he) (quiet_pop tc1)
      split at h
      · cases h; exact quiet_trans hq0 (quiet_error _ _ _ (by decide))
      · cases hg : tc1.pop.2.functions_.get tc.peek_function with
        | none => rw [hg] at h; simp at h
        | some func =>
          rw [hg] at h
          simp only at h
          split at h
          · cases h; exact quiet_trans hq0 (quiet_error _ _ _ (by decide))
          · cases h; exact hq0
  | .while_stmt while_keyword_ expression_ while_body_, tc, tc', b, h, _ => by
    simp only [visit_stmt] at h
    simp only [loop_diagnostics]
    cases he : visit_expr pfx expression_ tc with
    | none => rw [he] at h; simp at h
    | some tc1 =>
      rw [he] at h
      simp only at h
      have hq0 := quiet_trans (visit_expr_quiet pfx expression_ tc tc1 he) (quiet_pop tc1)
      have hq := quiet_trans hq0 (quiet_ite_error
        (tc1.pop.1.object_type_ ≠ object_type.BOOL) tc1.pop.2 while_keyword_
        "While statement expression need to be a boolean" (by decide))
      generalize (if tc1.pop.1.object_type_ ≠ object_type.BOOL then
        tc1.pop.2.error while_keyword_ "While statement expression need to be a boolean"
        else tc1.pop.2) = X at h hq
      cases hbr : visit_stmt pfx while_body_
          (X.push_scope_type ast_type.STMT_WHILE).scope_push with
      | none => rw [hbr] at h; simp at h
      | some tc2 =>
        rw [hbr] at h
        simp only [Option.some.injEq] at h
        subst h
        have h1 := visit_stmt_loop pfx while_body_ _ tc2 true hbr rfl
        exact quiet_then hq (appends_loop_congr
          (a := (X.push_scope_type ast_type.STMT_WHILE).scope_push) (p := X)
          (b := tc2) (q := tc2.scope_pop.pop_scope_type) rfl rfl h1)
/-- The break and continue diagnostics of the walk of a statement list. -/
theorem visit_stmts_loop (pfx : String → String) :
    ∀ (ss : List stmt) (tc tc' : type_checker) (b : Bool), visit_stmts pfx ss tc = some tc' →
      decide (tc.peek_scope_type = ast_type.STMT_WHILE) = b →
      appends_loop (loop_diagnostics_list b ss) tc tc'
  | [], tc, tc', b, h, _ => by
    simp only [visit_stmts, Option.some.injEq] at h
    subst h
    exact quiet_refl _
  | stm :: statements_, tc, tc', b, h, hb => by
    simp only [visit_stmts] at h
    simp only [loop_diagnostics_list]
    cases hs : visit_stmt pfx stm tc with
    | none => rw [hs] at h; simp at h
    | some tc1 =>
      rw [hs] at h
      simp only at h
      have hpk : decide (tc1.peek_scope_type = ast_type.STMT_WHILE) = b := by
        rw [peek_scope_type_congr (visit_stmt_balanced pfx stm tc tc1 hs).2.1]
        exact hb
      exact appends_loop_trans (visit_stmt_loop pfx stm tc tc1 b hs hb)
        (visit_stmts_loop pfx statements_ tc1 tc' b h hpk)
/-- The break and continue diagnostics of the walk of an optional else
branch. -/
theorem visit_else_loop (pfx : String → String) :
    ∀ (e : Option stmt) (tc tc' : type_checker) (b : Bool), visit_else pfx e tc = some tc' →
      decide (tc.peek_scope_type = ast_type.STMT_WHILE) = b →
      appends_loop (loop_diagnostics_else b e) tc tc'
  | none, tc, tc', b, h, _ => by
    simp only [visit_else, Option.some.injEq] at h
    subst h
    exact quiet_refl _
  | some else_branch_, tc, tc', b, h, hb => by
    simp only [visit_else] at h
    simp only [loop_diagnostics_else]
    cases hs : visit_stmt pfx else_branch_ tc.scope_push with
    | none => rw [hs] at h; simp at h
    | some tc1 =>
      rw [hs] at h
      simp only [Option.some.injEq] at h
      subst h
      exact appends_loop_congr (a := tc.scope_push) (p := tc) (b := tc1)
        (q := tc1.scope_pop) rfl rfl
        (visit_stmt_loop pfx else_branch_ _ tc1 b hs hb)
end

/-- The placeholder `ykobject()` is no Function-typed value. -/
theorem value_known_mk0 (t : def_visitor) : value_known t ykobject.mk0 := by
  intro h; cases h

/-- A value that is not Function-typed needs no signature. -/
theorem value_known_of_ne (t : def_visitor) (v : ykobject)
    (h : v.object_type_ ≠ object_type.FUNCTION) : value_known t v :=
  fun hf => absurd hf h

/-- A known value on a known stack gives a known stack. -/
theorem stack_known_cons {t : def_visitor} {v : ykobject} {s : List ykobject}
    (hv : value_known t v) (hs : stack_known t s) : stack_known t (v :: s) := by
  intro w hw
  rcases List.mem_cons.1 hw with hw | hw
  · subst hw; exact hv
  · exact hs w hw

/-- The popped value and the remaining stack of a known stack are known. -/
theorem stack_known_pop {t : def_visitor} (tc : type_checker)
    (hs : stack_known t tc.object_stack_) :
    value_known t tc.pop.1 ∧ stack_known t tc.pop.2.object_stack_ := by
  obtain ⟨e, f, s, o, k, n⟩ := tc
  cases o with
  | nil => exact ⟨value_known_mk0 t, hs⟩
  | cons v rest =>
    exact ⟨hs v (List.mem_cons_self _ _), fun w hw => hs w (List.mem_cons_of_mem _ hw)⟩

/-- A successful lookup in a frame returns a binding of the frame. -/
theorem lookup_some_mem (f : environment) (n : String) (v : ykobject)
    (h : List.lookup n f = some v) : (n, v) ∈ f := by
  induction f with
  | nil => simp at h
  | cons p ps ih =>
    obtain ⟨k, w⟩ := p
    rw [List.lookup_cons] at h
    cases hk : (n == k) with
    | true =>
      rw [hk] at h
      simp only [Option.some.injEq] at h
      have hk' : n = k := by simpa using hk
      subst hk' h
      exact List.mem_cons_self _ _
    | false =>
      rw [hk] at h
      exact List.mem_cons_of_mem _ (ih h)

/-- A resolved name is bound to the resolved value in one of the frames. -/
theorem find_in_some_mem (fs : List environment) (n : String) (v : ykobject)
    (h : environment.find_in fs n = some v) : ∃ f ∈ fs, (n, v) ∈ f := by
  induction fs with
  | nil => simp [environment.find_in] at h
  | cons f fs ih =>
    rw [find_in_cons] at h
    cases hl : List.lookup n f with
    | some w =>
      rw [hl] at h
      simp only [Option.some.injEq] at h
      subst h
      exact ⟨f, List.mem_cons_self _ _, lookup_some_mem f n w hl⟩
    | none =>
      rw [hl] at h
      obtain ⟨g, hg, hm⟩ := ih h
      exact ⟨g, List.mem_cons_of_mem _ hg, hm⟩

/-- A known table entry is found by `get`. -/
theorem get_of_has (t : def_visitor) (n : String) (h : t.has n = true) :
    ∃ funct, t.get n = some funct := by
  unfold def_visitor.has at h
  cases hg : t.get n with
  | none => simp [hg] at h
  | some f => exact ⟨f, rfl⟩

/-- The value a variable reference pushes is known to the table. -/
theorem variable_value_known (t : def_visitor) (s : environment_stack) (name : String)
    (hs : scope_known t s) (hf : (s.get name).object_type_ = object_type.FUNCTION) :
    t.has name = true := by
  unfold environment_stack.get at hf
  cases hfi : environment.find_in s.all_frames name with
  | none =>
    rw [hfi] at hf
    cases hf
  | some v =>
    rw [hfi] at hf
    obtain ⟨f, hfm, hm⟩ := find_in_some_mem _ _ _ hfi
    exact hs f hfm (name, v) hm hf

mutual
/-- Under the invariant on scope bindings and stack values every expression
handler returns, and the operand stack stays known to the table. -/
theorem visit_expr_total (pfx : String → String) (t : def_visitor) :
    ∀ (e : expr) (tc : type_checker), tc.functions_ = t → scope_known t tc.scope_ →
      stack_known t tc.object_stack_ →
      ∃ tc', visit_expr pfx e tc = some tc' ∧ stack_known t tc'.object_stack_
  | .assign_expr name_ _ right_, tc, ht, hsc, hst => by
    obtain ⟨tc1, h1, hk1⟩ := visit_expr_total pfx t right_ tc ht hsc hst
    have hp := (stack_known_pop tc1 hk1).2
    simp only [visit_expr, h1]
    split
    · exact ⟨_, rfl, hp⟩
    · split
      · exact ⟨_, rfl, hp⟩
      · exact ⟨_, rfl, hp⟩
  | .binary_expr left_ opr_ right_, tc, ht, hsc, hst => by
    obtain ⟨tc1, h1, hk1⟩ := visit_expr_total pfx t left_ tc ht hsc hst
    have hc1 := visit_expr_same_context pfx left_ tc tc1 h1
    have hp1 := (stack_known_pop tc1 hk1).2
    obtain ⟨tc2, h2, hk2⟩ := visit_expr_total pfx t right_ tc1.pop.2
      (by rw [pop_functions, hc1.2.1, ht]) (by rw [pop_scope, hc1.1]; exact hsc) hp1
    have hp2 := stack_known_pop tc2 hk2
    simp only [visit_expr, h1, h2]
    refine ⟨_, rfl, ?_⟩
    rw [binary_checks_eq]
    exact stack_known_cons hp2.1 hp2.2
  | .fncall_expr name_ paren_token_ args_, tc, ht, hsc, hst => by
    obtain ⟨tc1, h1, hk1⟩ := visit_expr_total pfx t name_ tc ht hsc hst
    have hc1 := visit_expr_same_context pfx name_ tc tc1 h1
    have hp1 := stack_known_pop tc1 hk1
    simp only [visit_expr, h1]
    by_cases hfn : tc1.pop.1.object_type_ = object_type.FUNCTION
    · obtain ⟨arguments, tc3, h3, hk3⟩ := visit_args_total pfx t args_ tc1.pop.2
        (by rw [pop_functions, hc1.2.1, ht]) (by rw [pop_scope, hc1.1]; exact hsc) hp1.2
      have hc3 := visit_args_same_context pfx args_ _ _ _ h3
      have hft : tc3.functions_ = t := by rw [hc3.2.1, pop_functions, hc1.2.1, ht]
      obtain ⟨funct, hg⟩ := get_of_has t _ (hp1.1 hfn)
      simp only [hfn, ne_eq, not_true_eq_false, if_false, h3, hft, hg]
      split
      · exact ⟨_, rfl, stack_known_cons (value_known_mk0 t) hk3⟩
      · refine ⟨_, rfl, ?_⟩
        rw [push_object_stack, (fncall_match_loop_same _ _ _ _ _).2]
        exact stack_known_cons
          (value_known_of_ne t _ (convert_data_type_ne_function _)) hk3
    · simp only [hfn, ne_eq, not_false_eq_true, if_true]
      exact ⟨_, rfl, stack_known_cons (value_known_mk0 t) hp1.2⟩
  | .grouping_expr expression_, tc, ht, hsc, hst => by
    obtain ⟨tc1, h1, hk1⟩ := visit_expr_total pfx t expression_ tc ht hsc hst
    have hp := stack_known_pop tc1 hk1
    simp only [visit_expr, h1]
    exact ⟨_, rfl, stack_known_cons hp.1 hp.2⟩
  | .literal_expr literal_token_, tc, _, _, hst => by
    simp only [visit_expr]
    refine ⟨_, rfl, ?_⟩
    refine stack_known_cons (value_known_of_ne t _ ?_) hst
    rw [literal_object_type_eq]
    cases literal_token_.type_ <;> simp [expected_literal_type]
  | .logical_expr left_ opr_ right_, tc, ht, hsc, hst => by
    obtain ⟨tc1, h1, hk1⟩ := visit_expr_total pfx t left_ tc ht hsc hst
    have hc1 := visit_expr_same_context pfx left_ tc tc1 h1
    have hp1 := (stack_known_pop tc1 hk1).2
    obtain ⟨tc2, h2, hk2⟩ := visit_expr_total pfx t right_ tc1.pop.2
      (by rw [pop_functions, hc1.2.1, ht]) (by rw [pop_scope, hc1.1]; exact hsc) hp1
    have hp2 := (stack_known_pop tc2 hk2).2
    simp only [visit_expr, h1, h2]
    split
    · exact ⟨_, rfl, hp2⟩
    · exact ⟨_, rfl, hp2⟩
  | .unary_expr opr_ right_, tc, ht, hsc, hst => by
    obtain ⟨tc1, h1, hk1⟩ := visit_expr_total pfx t right_ tc ht hsc hst
    have hp := stack_known_pop tc1 hk1
    simp only [visit_expr, h1]
    split
    · exact ⟨_, rfl, stack_known_cons hp.1 hp.2⟩
    · exact ⟨_, rfl, stack_known_cons hp.1 hp.2⟩
  | .variable_expr name_, tc, ht, hsc, hst => by
    simp only [visit_expr]
    split
    · exact ⟨_, rfl, stack_known_cons (value_known_mk0 t) hst⟩
    · split
      · rename_i hf
        refine ⟨_, rfl, stack_known_cons ?_ hst⟩
        intro _
        exact variable_value_known t tc.scope_ _ hsc hf
      · rename_i hf
        exact ⟨_, rfl, stack_known_cons (value_known_of_ne t _ hf) hst⟩
/-- Under the invariant the argument loop of a call returns, and the operand
stack stays known to the table. -/
theorem visit_args_total (pfx : String → String) (t : def_visitor) :
    ∀ (args : List expr) (tc : type_checker), tc.functions_ = t → scope_known t tc.scope_ →
      stack_known t tc.object_stack_ →
      ∃ arguments tc', visit_args pfx args tc = some (arguments, tc') ∧
        stack_known t tc'.object_stack_
  | [], tc, _, _, hst => ⟨[], tc, by simp only [visit_args], hst⟩
  | arg :: args_, tc, ht, hsc, hst => by
    obtain ⟨tc1, h1, hk1⟩ := visit_expr_total pfx t arg tc ht hsc hst
    have hc1 := visit_expr_same_context pfx arg tc tc1 h1
    have hp1 := (stack_known_pop tc1 hk1).2
    obtain ⟨arguments, tc2, h2, hk2⟩ := visit_args_total pfx t args_ tc1.pop.2
      (by rw [pop_functions, hc1.2.1, ht]) (by rw [pop_scope, hc1.1]; exact hsc) hp1
    exact ⟨tc1.pop.1 :: arguments, tc2, by simp only [visit_args, h1, h2], hk2⟩
end

/-- Pushing a frame keeps the scope known to the table. -/
theorem scope_known_push (t : def_visitor) (s : environment_stack) (h : scope_known t s) :
    scope_known t s.push := by
  intro f hf p hp
  simp only [environment_stack.all_frames, environment_stack.push, List.cons_append,
    List.mem_cons] at hf
  rcases hf with hf | hf
  · subst hf; cases hp
  · exact h f hf p hp

/-- Popping a frame keeps the scope known to the table. -/
theorem scope_known_pop (t : def_visitor) (s : environment_stack) (h : scope_known t s) :
    scope_known t s.pop := by
  intro f hf p hp
  simp only [environment_stack.all_frames, environment_stack.pop, List.mem_append,
    List.mem_singleton] at hf
  rcases hf with hf | hf
  · exact h f (by
      simp only [environment_stack.all_frames, List.mem_append]
      exact Or.inl (List.mem_of_mem_tail hf)) p hp
  · exact h f (by simp [environment_stack.all_frames, hf]) p hp

/-- The bindings of a frame after an insertion are the new binding and old
ones. -/
theorem mem_define (f : environment) (n : String) (v : ykobject) (p : String × ykobject)
    (h : p ∈ f.define n v) : p = (n, v) ∨ p ∈ f := by
  simp only [environment.define, List.mem_cons, List.mem_filter] at h
  rcases h with h | h
  · exact Or.inl h
  · exact Or.inr h.1

/-- Inserting a binding that is known keeps the scope known to the table. -/
theorem scope_known_define (t : def_visitor) (s : environment_stack) (n : String)
    (v : ykobject) (hv : binding_known t (n, v)) (h : scope_known t s) :
    scope_known t (s.define n v) := by
  intro f hf p hp
  unfold environment_stack.define at hf
  cases hfr : s.frames_ with
  | nil =>
    simp only [hfr, environment_stack.all_frames, List.nil_append, List.mem_singleton] at hf
    subst hf
    rcases mem_define _ _ _ _ hp with hp | hp
    · subst hp; exact hv
    · exact h s.global_ (by simp [environment_stack.all_frames]) p hp
  | cons g gs =>
    simp only [hfr, environment_stack.all_frames, List.cons_append, List.mem_cons] at hf
    rcases hf with hf | hf
    · subst hf
      rcases mem_define _ _ _ _ hp with hp | hp
      · subst hp; exact hv
      · exact h g (by simp [environment_stack.all_frames, hfr]) p hp
    · exact h f (by
        simp only [environment_stack.all_frames, hfr, List.cons_append, List.mem_cons]
        exact Or.inr hf) p hp

/-- The parameter loop of a function definition keeps the invariant. -/
theorem def_params_loop_invariant (pfx : String → String) :
    ∀ (params : List parameter) (tc : type_checker), signature_invariant tc →
      signature_invariant (def_params_loop pfx params tc) ∧
        (def_params_loop pfx params tc).functions_ = tc.functions_
  | [], tc, h => ⟨h, rfl⟩
  | p :: ps, tc, h => by
    simp only [def_params_loop]
    split
    · exact def_params_loop_invariant pfx ps
        (tc.error p.name_ "Parameter shadows outer scope name.") h
    · exact def_params_loop_invariant pfx ps
        (tc.scope_define (pfx p.name_.token_) ⟨convert_data_type p.data_type_.name_, ""⟩)
        ⟨scope_known_define _ _ _ _
          (fun hf => absurd hf (convert_data_type_ne_function _)) h.1, h.2⟩

/-- Under the invariant every expression handler returns and keeps the
invariant, the signature table and the scope table. -/
theorem visit_expr_invariant (pfx : String → String) (e : expr) (tc : type_checker)
    (h : signature_invariant tc) :
    ∃ tc', visit_expr pfx e tc = some tc' ∧ signature_invariant tc' ∧
      tc'.functions_ = tc.functions_ := by
  obtain ⟨tc', h1, hk⟩ := visit_expr_total pfx tc.functions_ e tc rfl h.1 h.2
  have hc := visit_expr_same_context pfx e tc tc' h1
  exact ⟨tc', h1, ⟨by rw [hc.1, hc.2.1]; exact h.1, by rw [hc.2.1]; exact hk⟩, hc.2.1⟩

/-- Popping keeps the invariant. -/
theorem signature_invariant_pop (tc : type_checker) (h : signature_invariant tc) :
    signature_invariant tc.pop.2 :=
  ⟨by rw [pop_scope, pop_functions]; exact h.1,
    by rw [pop_functions]; exact (stack_known_pop tc h.2).2⟩

/-- An optional diagnostic keeps the invariant. -/
theorem signature_invariant_ite_error (c : Prop) [Decidable c] (tc : type_checker)
    (t : token) (m : String) (h : signature_invariant tc) :
    signature_invariant (if c then tc.error t m else tc) ∧
      (if c then tc.error t m else tc).functions_ = tc.functions_ := by
  split
  · exact ⟨h, rfl⟩
  · exact ⟨h, rfl⟩

/-- Pushing a frame keeps the invariant. -/
theorem signature_invariant_scope_push (tc : type_checker) (h : signature_invariant tc) :
    signature_invariant tc.scope_push :=
  ⟨scope_known_push _ _ h.1, h.2⟩

/-- Popping a frame keeps the invariant. -/
theorem signature_invariant_scope_pop (tc : type_checker) (h : signature_invariant tc) :
    signature_invariant tc.scope_pop :=
  ⟨scope_known_pop _ _ h.1, h.2⟩

mutual
/-- Under the invariant every statement handler returns and keeps the
invariant and the signature table. -/
theorem visit_stmt_invariant (pfx : String → String) :
    ∀ (s : stmt) (tc : type_checker), signature_invariant tc →
      ∃ tc', visit_stmt pfx s tc = some tc' ∧ signature_invariant tc' ∧
        tc'.functions_ = tc.functions_
  | .block_stmt statements_, tc, h => by
    simp only [visit_stmt]
    exact visit_stmts_invariant pfx statements_ tc h
  | .break_stmt _, tc, h => by
    simp only [visit_stmt]
    split
    · exact ⟨_, rfl, h, rfl⟩
    · exact ⟨_, rfl, h, rfl⟩
  | .continue_stmt _, tc, h => by
    simp only [visit_stmt]
    split
    · exact ⟨_, rfl, h, rfl⟩
    · exact ⟨_, rfl, h, rfl⟩
  | .def_stmt name_ params_ function_body_ _, tc, h => by
    simp only [visit_stmt]
    have h0 : signature_invariant
        ((tc.push_scope_type ast_type.STMT_DEF).push_function (pfx name_.token_)).scope_push :=
      signature_invariant_scope_push _ h
    obtain ⟨hl, hlf⟩ := def_params_loop_invariant pfx params_ _ h0
    obtain ⟨tc2, h2, hi2, hf2⟩ := visit_stmt_invariant pfx function_body_ _ hl
    rw [h2]
    exact ⟨_, rfl, signature_invariant_scope_pop _ hi2, by
      show tc2.functions_ = tc.functions_
      rw [hf2, hlf]; rfl⟩
  | .defer_stmt _ expression_, tc, h => by
    simp only [visit_stmt]
    exact visit_expr_invariant pfx expression_ tc h
  | .expression_stmt expression_, tc, h => by
    simp only [visit_stmt]
    exact visit_expr_invariant pfx expression_ tc h
  | .if_stmt if_keyword_ expression_ if_branch_ else_branch_, tc, h => by
    simp only [visit_stmt]
    obtain ⟨tc1, h1, hi1, hf1⟩ := visit_expr_invariant pfx expression_ tc h
    rw [h1]
    simp only
    obtain ⟨hx, hxf⟩ := signature_invariant_ite_error
      (tc1.pop.1.object_type_ ≠ object_type.BOOL) tc1.pop.2 if_keyword_
      "Invalid boolean expression used" (signature_invariant_pop tc1 hi1)
    generalize (if tc1.pop.1.object_type_ ≠ object_type.BOOL then
      tc1.pop.2.error if_keyword_ "Invalid boolean expression used" else tc1.pop.2) = X
      at hx hxf
    obtain ⟨tc2, h2, hi2, hf2⟩ := visit_stmt_invariant pfx if_branch_ X.scope_push
      (signature_invariant_scope_push _ hx)
    rw [h2]
    simp only
    obtain ⟨tc3, h3, hi3, hf3⟩ := visit_else_invariant pfx else_branch_ tc2.scope_pop
      (signature_invariant_scope_pop _ hi2)
    exact ⟨tc3, h3, hi3, by
      rw [hf3]
      show tc2.functions_ = tc.functions_
      rw [hf2]
      show X.functions_ = tc.functions_
      rw [hxf, pop_functions, hf1]⟩
  | .let_stmt name_ data_type_ expression_, tc, h => by
    simp only [visit_stmt]
    have hb : ∀ n : String, binding_known tc.functions_
        (n, (⟨convert_data_type data_type_.name_, ""⟩ : ykobject)) :=
      fun n hf => absurd hf (convert_data_type_ne_function _)
    cases expression_ with
    | none =>
      exact ⟨_, rfl, ⟨scope_known_define _ _ _ _ (hb _) h.1, h.2⟩, rfl⟩
    | some e =>
      simp only
      obtain ⟨tc1, h1, hi1, hf1⟩ := visit_expr_invariant pfx e tc h
      rw [h1]
      simp only
      obtain ⟨hx, hxf⟩ := signature_invariant_ite_error
        (tc1.pop.1.object_type_ ≠ convert_data_type data_type_.name_) tc1.pop.2 name_
        "Data type mismatch in expression and declaration." (signature_invariant_pop tc1 hi1)
      generalize (if tc1.pop.1.object_type_ ≠ convert_data_type data_type_.name_ then
        tc1.pop.2.error name_ "Data type mismatch in expression and declaration."
        else tc1.pop.2) = X at hx hxf
      have hXf : X.functions_ = tc.functions_ := by rw [hxf, pop_functions, hf1]
      exact ⟨_, rfl, ⟨scope_known_define _ _ _ _ (by
        show binding_known X.functions_ _
        rw [hXf]; exact hb _) hx.1, hx.2⟩, hXf⟩
  | .pass_stmt _, tc, h => by
    simp only [visit_stmt]
    exact ⟨_, rfl, h, rfl⟩
  | .print_stmt _ expression_, tc, h => by
    simp only [visit_stmt]
    obtain ⟨tc1, h1, hi1, hf1⟩ := visit_expr_invariant pfx expression_ tc h
    rw [h1]
    exact ⟨_, rfl, signature_invariant_pop tc1 hi1, by rw [pop_functions, hf1]⟩
  | .return_stmt return_keyword_ expression_, tc, h => by
    simp only [visit_stmt]
    obtain ⟨tc1, h1, hi1, hf1⟩ := visit_expr_invariant pfx expression_ tc h
    rw [h1]
    simp only
    have hp := signature_invariant_pop tc1 hi1
    have hpf : tc1.pop.2.functions_ = tc.functions_ := by rw [pop_functions, hf1]
    split
    · exact ⟨_, rfl, hp, hpf⟩
    · rename_i hc
      have hhas : tc1.pop.2.functions_.has tc.peek_function = true := by
        cases hh : tc1.pop.2.functions_.has tc.peek_function with
        | true => rfl
        | false => exact absurd (Or.inr hh) hc
      obtain ⟨func, hg⟩ := get_of_has _ _ hhas
      rw [hg]
      simp only
      split
      · exact ⟨_, rfl, hp, hpf⟩
      · exact ⟨_, rfl, hp, hpf⟩
  | .while_stmt while_keyword_ expression_ while_body_, tc, h => by
    simp only [visit_stmt]
    obtain ⟨tc1, h1, hi1, hf1⟩ := visit_expr_invariant pfx expression_ tc h
    rw [h1]
    simp only
    obtain ⟨hx, hxf⟩ := signature_invariant_ite_error
      (tc1.pop.1.object_type_ ≠ object_type.BOOL) tc1.pop.2 while_keyword_
      "While statement expression need to be a boolean" (signature_invariant_pop tc1 hi1)
    generalize (if tc1.pop.1.object_type_ ≠ object_type.BOOL then
      tc1.pop.2.error while_keyword_ "While statement expression need to be a boolean"
      else tc1.pop.2) = X at hx hxf
    obtain ⟨tc2, h2, hi2, hf2⟩ := visit_stmt_invariant pfx while_body_
      (X.push_scope_type ast_type.STMT_WHILE).scope_push
      (signature_invariant_scope_push _ hx)
    rw [h2]
    exact ⟨_, rfl, signature_invariant_scope_pop _ hi2, by
      show tc2.functions_ = tc.functions_
      rw [hf2]
      show X.functions_ = tc.functions_
      rw [hxf, pop_functions, hf1]⟩
/-- Under the invariant the statement loop of a block returns and keeps the
invariant. -/
theorem visit_stmts_invariant (pfx : String → String) :
    ∀ (ss : List stmt) (tc : type_checker), signature_invariant tc →
      ∃ tc', visit_stmts pfx ss tc = some tc' ∧ signature_invariant tc' ∧
        tc'.functions_ = tc.functions_
  | [], tc, h => ⟨tc, by simp only [visit_stmts], h, rfl⟩
  | stm :: statements_, tc, h => by
    simp only [visit_stmts]
    obtain ⟨tc1, h1, hi1, hf1⟩ := visit_stmt_invariant pfx stm tc h
    rw [h1]
    simp only
    obtain ⟨tc2, h2, hi2, hf2⟩ := visit_stmts_invariant pfx statements_ tc1 hi1
    exact ⟨tc2, h2, hi2, by rw [hf2, hf1]⟩
/-- Under the invariant the walk of an optional else branch returns and
keeps the invariant. -/
theorem visit_else_invariant (pfx : String → String) :
    ∀ (e : Option stmt) (tc : type_checker), signature_invariant tc →
      ∃ tc', visit_else pfx e tc = some tc' ∧ signature_invariant tc' ∧
        tc'.functions_ = tc.functions_
  | none, tc, h => ⟨tc, by simp only [visit_else], h, rfl⟩
  | some else_branch_, tc, h => by
    simp only [visit_else]
    obtain ⟨tc1, h1, hi1, hf1⟩ := visit_stmt_invariant pfx else_branch_ tc.scope_push
      (signature_invariant_scope_push _ h)
    rw [h1]
    exact ⟨_, rfl, signature_invariant_scope_pop _ hi1, hf1⟩
end

/-- Popping a stack that was just extended by one value restores it. -/
theorem pop_of_cons (tc : type_checker) (v : ykobject) (s : List ykobject)
    (h : tc.object_stack_ = v :: s) : tc.pop.2.object_stack_ = s := by
  rw [pop_object_stack, h]; rfl

/-- The value popped from a stack that was just extended is the new value. -/
theorem pop_fst_of_cons (tc : type_checker) (v : ykobject) (s : List ykobject)
    (h : tc.object_stack_ = v :: s) : tc.pop.1 = v := by
  obtain ⟨e, f, sc, o, k, n⟩ := tc
  simp only at h
  subst h
  rfl

mutual
/-- An expression without assignment and logical nodes leaves exactly one
value on top of the operand stack it started with. -/
theorem visit_expr_plain (pfx : String → String) :
    ∀ (e : expr) (tc tc' : type_checker), e.plain = true → visit_expr pfx e tc = some tc' →
      ∃ v, tc'.object_stack_ = v :: tc.object_stack_
  | .assign_expr _ _ _, _, _, hp, _ => by simp [expr.plain] at hp
  | .binary_expr left_ opr_ right_, tc, tc', hp, h => by
    simp only [expr.plain, Bool.and_eq_true] at hp
    simp only [visit_expr] at h
    cases hl : visit_expr pfx left_ tc with
    | none => rw [hl] at h; simp at h
    | some tc1 =>
      rw [hl] at h
      simp only at h
      obtain ⟨v1, hv1⟩ := visit_expr_plain pfx left_ tc tc1 hp.1 hl
      cases hr : visit_expr pfx right_ tc1.pop.2 with
      | none => rw [hr] at h; simp at h
      | some tc2 =>
        rw [hr] at h
        simp only [Option.some.injEq] at h
        subst h
        obtain ⟨v2, hv2⟩ := visit_expr_plain pfx right_ _ tc2 hp.2 hr
        rw [pop_of_cons tc1 v1 _ hv1] at hv2
        refine ⟨tc2.pop.1, ?_⟩
        rw [binary_checks_eq]
        simp [pop_of_cons tc2 v2 _ hv2]
  | .fncall_expr name_ paren_token_ args_, tc, tc', hp, h => by
    simp only [expr.plain, Bool.and_eq_true] at hp
    simp only [visit_expr] at h
    cases hn : visit_expr pfx name_ tc with
    | none => rw [hn] at h; simp at h
    | some tc1 =>
      rw [hn] at h
      simp only at h
      obtain ⟨v1, hv1⟩ := visit_expr_plain pfx name_ tc tc1 hp.1 hn
      have hs1 := pop_of_cons tc1 v1 _ hv1
      split at h
      · cases h
        exact ⟨ykobject.mk0, by simp [hs1]⟩
      · cases ha : visit_args pfx args_ tc1.pop.2 with
        | none => rw [ha] at h; simp at h
        | some r =>
          obtain ⟨arguments, tc3⟩ := r
          rw [ha] at h
          simp only at h
          have hs3 := visit_args_plain pfx args_ _ _ _ hp.2 ha
          rw [hs1] at hs3
          cases hg : tc3.functions_.get tc1.pop.1.string_val_ with
          | none => rw [hg] at h; simp at h
          | some funct =>
            rw [hg] at h
            simp only at h
            split at h
            · cases h
              exact ⟨ykobject.mk0, by simp [hs3]⟩
            · cases h
              exact ⟨_, by
                rw [push_object_stack, (fncall_match_loop_same _ _ _ _ _).2, hs3]⟩
  | .grouping_expr expression_, tc, tc', hp, h => by
    simp only [expr.plain] at hp
    simp only [visit_expr] at h
    cases he : visit_expr pfx expression_ tc with
    | none => rw [he] at h; simp at h
    | some tc1 =>
      rw [he] at h
      simp only [Option.some.injEq] at h
      subst h
      obtain ⟨v1, hv1⟩ := visit_expr_plain pfx expression_ tc tc1 hp he
      exact ⟨tc1.pop.1, by simp [pop_of_cons tc1 v1 _ hv1]⟩
  | .literal_expr _, tc, tc', _, h => by
    simp only [visit_expr, Option.some.injEq] at h
    subst h
    exact ⟨_, rfl⟩
  | .logical_expr _ _ _, _, _, hp, _ => by simp [expr.plain] at hp
  | .unary_expr opr_ right_, tc, tc', hp, h => by
    simp only [expr.plain] at hp
    simp only [visit_expr] at h
    cases hr : visit_expr pfx right_ tc with
    | none => rw [hr] at h; simp at h
    | some tc1 =>
      rw [hr] at h
      simp only at h
      obtain ⟨v1, hv1⟩ := visit_expr_plain pfx right_ tc tc1 hp hr
      have hs1 := pop_of_cons tc1 v1 _ hv1
      split at h
      · cases h; exact ⟨tc1.pop.1, by simp [hs1]⟩
      · cases h; exact ⟨tc1.pop.1, by simp [hs1]⟩
  | .variable_expr name_, tc, tc', _, h => by
    simp only [visit_expr] at h
    split at h
    · cases h; exact ⟨_, rfl⟩
    · split at h
      · cases h; exact ⟨_, rfl⟩
      · cases h; exact ⟨_, rfl⟩
/-- The argument loop over expressions without assignment and logical nodes
restores the operand stack. -/
theorem visit_args_plain (pfx : String → String) :
    ∀ (args : List expr) (tc : type_checker) (arguments : List ykobject) (tc' : type_checker),
      expr.plain_list args = true → visit_args pfx args tc = some (arguments, tc') →
      tc'.object_stack_ = tc.object_stack_
  | [], tc, arguments, tc', _, h => by
    simp only [visit_args, Option.some.injEq, Prod.mk.injEq] at h
    rw [← h.2]
  | arg :: args_, tc, arguments, tc', hp, h => by
    simp only [expr.plain_list, Bool.and_eq_true] at hp
    simp only [visit_args] at h
    cases ha : visit_expr pfx arg tc with
    | none => rw [ha] at h; simp at h
    | some tc1 =>
      rw [ha] at h
      simp only at h
      obtain ⟨v1, hv1⟩ := visit_expr_plain pfx arg tc tc1 hp.1 ha
      cases hr : visit_args pfx args_ tc1.pop.2 with
      | none => rw [hr] at h; simp at h
      | some r =>
        obtain ⟨vs, tc2⟩ := r
        rw [hr] at h
        simp only [Option.some.injEq, Prod.mk.injEq] at h
        rw [← h.2, visit_args_plain pfx args_ _ _ _ hp.2 hr, pop_of_cons tc1 v1 _ hv1]
end

/-- A binding of a frame is found under its name. -/
theorem lookup_isSome_of_mem (f : environment) (p : String × ykobject) (h : p ∈ f) :
    (List.lookup p.1 f).isSome = true := by
  induction f with
  | nil => cases h
  | cons q qs ih =>
    obtain ⟨k, w⟩ := q
    rw [List.lookup_cons]
    cases hk : (p.1 == k) with
    | true => rfl
    | false =>
      rcases List.mem_cons.1 h with h | h
      · subst h; simp at hk
      · exact ih h

/-- The state `check` returns on a fresh checker satisfies the invariant. -/
theorem check_establishes_invariant (pfx : String → String) (statements : List stmt) :
    ∃ tc, check pfx statements type_checker.init = some tc ∧ signature_invariant tc := by
  have hwf := extract_well_formed pfx statements type_checker.init.functions_ init_well_formed
  obtain ⟨tc', added, h1, _, _, h4, h5, h6, _, _, h9⟩ :=
    check_after_extract_spec pfx
      { type_checker.init with
        functions_ := type_checker.init.functions_.extract pfx statements } hwf
  refine ⟨tc', h1, ?_, ?_⟩
  · intro f hf p hp
    simp only [environment_stack.all_frames, h5, List.mem_append, List.mem_singleton] at hf
    rcases hf with hf | hf
    · cases hf
    · subst hf
      intro _
      have hl := lookup_isSome_of_mem _ p hp
      rw [h9 p.1] at hl
      by_cases hn : p.1 ∈ (type_checker.init.functions_.extract pfx statements).function_names_
      · rw [h4]
        exact hwf p.1 hn
      · simp only [hn, if_false] at hl
        cases hl
  · rw [h6]
    intro v hv
    cases hv

/-- Statement handlers only append diagnostics. -/
theorem visit_stmt_extends (pfx : String → String) (s : stmt) (tc tc' : type_checker)
    (h : visit_stmt pfx s tc = some tc') : ∃ added, tc'.errors_ = tc.errors_ ++ added := by
  obtain ⟨added, ha, _⟩ := visit_stmt_loop pfx s tc tc' _ h rfl
  exact ⟨added, ha⟩

/-- The walk of an optional else branch only appends diagnostics. -/
theorem visit_else_extends (pfx : String → String) (e : Option stmt) (tc tc' : type_checker)
    (h : visit_else pfx e tc = some tc') : ∃ added, tc'.errors_ = tc.errors_ ++ added := by
  obtain ⟨added, ha, _⟩ := visit_else_loop pfx e tc tc' _ h rfl
  exact ⟨added, ha⟩

/-- Expression handlers only append diagnostics. -/
theorem visit_expr_extends (pfx : String → String) (e : expr) (tc tc' : type_checker)
    (h : visit_expr pfx e tc = some tc') : ∃ added, tc'.errors_ = tc.errors_ ++ added := by
  obtain ⟨added, ha, _⟩ := visit_expr_quiet pfx e tc tc' h
  exact ⟨added, ha⟩

/-- A relational operator accepts exactly Double and Integer. -/
theorem relational_accepts (oper : token_type) (T : object_type)
    (hrel : oper = token_type.GREAT ∨ oper = token_type.GREAT_EQ ∨ oper = token_type.LESS ∨
      oper = token_type.LESS_EQ) (h : binary_operator_accepts oper T) :
    T ≠ object_type.BOOL := by
  unfold binary_operator_accepts at h
  rcases hrel with hr | hr | hr | hr <;> subst hr <;> cases T <;> simp at h ⊢

/-- After a relational comparison was visited, either it reported
"Unsupported operation" or the value it pushed is not Bool. -/
theorem relational_result (pfx : String → String) (left_ right_ : expr) (opr_ : token)
    (tc tcb : type_checker)
    (hrel : opr_.type_ = token_type.GREAT ∨ opr_.type_ = token_type.GREAT_EQ ∨
      opr_.type_ = token_type.LESS ∨ opr_.type_ = token_type.LESS_EQ)
    (h : visit_expr pfx (.binary_expr left_ opr_ right_) tc = some tcb) :
    ∃ added, tcb.pop.2.errors_ = tc.errors_ ++ added ∧
      ((⟨"Unsupported operation", some opr_⟩ : parsing_error) ∈ added ∨
        tcb.pop.1.object_type_ ≠ object_type.BOOL) := by
  simp only [visit_expr] at h
  cases hl : visit_expr pfx left_ tc with
  | none => rw [hl] at h; simp at h
  | some tc1 =>
    rw [hl] at h
    simp only at h
    cases hr : visit_expr pfx right_ tc1.pop.2 with
    | none => rw [hr] at h; simp at h
    | some tc2 =>
      rw [hr] at h
      simp only [Option.some.injEq] at h
      subst h
      obtain ⟨a1, ha1⟩ := visit_expr_extends pfx left_ tc tc1 hl
      obtain ⟨a2, ha2⟩ := visit_expr_extends pfx right_ _ tc2 hr
      rw [pop_errors, ha1] at ha2
      rw [binary_checks_eq]
      refine ⟨a1 ++ a2 ++
        ((if tc1.pop.1.object_type_ ≠ tc2.pop.1.object_type_ then
            [⟨"Binary operation between two different data types is not supported",
              some opr_⟩] else []) ++
          (if binary_operator_accepts opr_.type_ tc2.pop.1.object_type_ then []
            else [⟨"Unsupported operation", some opr_⟩])), ?_, ?_⟩
      · simp only [pop_errors, push_errors, ha2, List.append_assoc]
      · by_cases hacc : binary_operator_accepts opr_.type_ tc2.pop.1.object_type_
        · right
          rw [pop_fst_of_cons _ _ _ (push_object_stack _ _)]
          exact relational_accepts _ _ hrel hacc
        · left
          simp [hacc]

/-! ## Break and continue -/

/-- C11: in a walk started with an empty statement-kind stack, the break
and continue diagnostics among the appended diagnostics are exactly those of
`loop_diagnostics false`: one for each break or continue whose nearest
enclosing while statement or function definition is a function definition or
does not exist, whatever if statements and blocks lie between.  Under the
signature invariant the walk returns. -/
theorem loop_keyword_diagnostics (pfx : String → String) (s : stmt) (tc : type_checker)
    (hempty : tc.scope_type_stack_ = []) :
    (∀ tc', visit_stmt pfx s tc = some tc' →
      ∃ added, tc'.errors_ = tc.errors_ ++ added ∧
        added.filter is_loop_diagnostic = loop_diagnostics false s) ∧
    (signature_invariant tc → ∃ tc', visit_stmt pfx s tc = some tc') := by
  constructor
  · intro tc' h
    have hb : decide (tc.peek_scope_type = ast_type.STMT_WHILE) = false := by
      simp [type_checker.peek_scope_type, hempty]
    exact visit_stmt_loop pfx s tc tc' false h hb
  · intro hinv
    obtain ⟨tc', h, _⟩ := visit_stmt_invariant pfx s tc hinv
    exact ⟨tc', h⟩

/-- C11 at `def f() -> int { break }`, which yields exactly one diagnostic,
next to `while true { if true { break } }`, which yields none. -/
theorem loop_keyword_diagnostics_witness :
    (type_checker.init.scope_type_stack_ = [] ∧
      loop_diagnostics false while_if_break = [] ∧
      loop_diagnostics false def_break = [⟨break_message, some (word "break")⟩] ∧
      (visit_stmt canonical_name while_if_break type_checker.init).map
        (fun tc => tc.errors_) = some [] ∧
      (visit_stmt canonical_name def_break type_checker.init).map (fun tc => tc.errors_) =
        some [⟨"Invalid use of break statement outside of while statement.",
          some (word "break")⟩]) ∧
    ((∀ tc', visit_stmt canonical_name def_break type_checker.init = some tc' →
      ∃ added, tc'.errors_ = type_checker.init.errors_ ++ added ∧
        added.filter is_loop_diagnostic = loop_diagnostics false def_break) ∧
    (signature_invariant type_checker.init →
      ∃ tc', visit_stmt canonical_name def_break type_checker.init = some tc')) :=
  ⟨⟨rfl, by decide, by decide, by decide, by decide⟩,
    loop_keyword_diagnostics canonical_name def_break type_checker.init rfl⟩

/-! ## Function definitions -/

/-- C12 as stated fails: with `x` a global String variable, the parameter
`x: int` of `def f(x: int) -> int { let y: int = x }` is reported as shadowing
and is not bound in the fresh frame, so `x` evaluates to String in the body
and the let statement reports a mismatch. -/
theorem shadowing_parameter_not_bound :
    shadow_state.scope_.is_defined (canonical_name (word "x").token_) = true ∧
    List.lookup (canonical_name (word "x").token_)
      (def_body_state canonical_name (word "f") [⟨word "x", ⟨word "int"⟩⟩]
        shadow_state).scope_.top_frame = none ∧
    convert_data_type (word "int") = object_type.INTEGER ∧
    (visit_expr canonical_name (.variable_expr (word "x"))
        (def_body_state canonical_name (word "f") [⟨word "x", ⟨word "int"⟩⟩]
          shadow_state)).map (fun tc => tc.pop.1.object_type_) = some object_type.STRING ∧
    (visit_stmt canonical_name shadow_def shadow_state).map (fun tc => tc.errors_) =
      some [⟨"Parameter shadows outer scope name.", some (word "x")⟩,
            ⟨"Data type mismatch in expression and declaration.", some (word "y")⟩] := by
  decide

/-- C12 amended: the body of a function definition is walked in the state
`def_body_state`, whose fresh frame binds a name exactly when the name does
not resolve in the enclosing scope and is the canonical name of a parameter,
to the declared type of the first such parameter; a reference to such a name
evaluates to that declared type.  A parameter whose name resolves in the
enclosing scope is reported and not bound: the name keeps its enclosing
binding. -/
theorem def_stmt_parameter_bindings (pfx : String → String) (name_ : token)
    (params_ : List parameter) (function_body_ : stmt) (return_type_ : ykdatatype)
    (tc : type_checker) :
    visit_stmt pfx (.def_stmt name_ params_ function_body_ return_type_) tc =
        (visit_stmt pfx function_body_ (def_body_state pfx name_ params_ tc)).map
          (fun t => t.scope_pop.pop_scope_type.pop_function) ∧
    (∀ n, List.lookup n (def_body_state pfx name_ params_ tc).scope_.top_frame =
      expected_param_binding pfx params_ tc n) ∧
    (∀ p ∈ params_, tc.scope_.is_defined (pfx p.name_.token_) = true →
      (⟨"Parameter shadows outer scope name.", some p.name_⟩ : parsing_error) ∈
        (def_body_state pfx name_ params_ tc).errors_) ∧
    (∀ (t : token) (v : ykobject),
      expected_param_binding pfx params_ tc (pfx t.token_) = some v →
      visit_expr pfx (.variable_expr t) (def_body_state pfx name_ params_ tc) =
        some ((def_body_state pfx name_ params_ tc).push v)) ∧
    (∀ t : token, tc.scope_.is_defined (pfx t.token_) = true →
      (def_body_state pfx name_ params_ tc).scope_.get (pfx t.token_) =
        tc.scope_.get (pfx t.token_)) := by
  have hfr : (((tc.push_scope_type ast_type.STMT_DEF).push_function
      (pfx name_.token_)).scope_push).scope_.frames_ = [] :: tc.scope_.frames_ := rfl
  obtain ⟨fr', added, h1, h2, _, _, _, _, _, _, h9⟩ :=
    def_params_loop_spec pfx params_ _ [] tc.scope_.frames_ hfr
  have hg : (def_body_state pfx name_ params_ tc).scope_.global_ = tc.scope_.global_ := h2
  have hf : (def_body_state pfx name_ params_ tc).scope_.frames_ = fr' :: tc.scope_.frames_ := h1
  have hlook : ∀ n, List.lookup n fr' = expected_param_binding pfx params_ tc n := by
    intro n
    rw [h9 n]
    simp only [List.lookup_nil, expected_param_binding, environment_stack.is_defined,
      environment_stack.all_frames]
    rfl
  have hfind : ∀ n, environment.find_in (def_body_state pfx name_ params_ tc).scope_.all_frames n =
      match expected_param_binding pfx params_ tc n with
      | some v => some v
      | none => environment.find_in tc.scope_.all_frames n := by
    intro n
    simp only [environment_stack.all_frames, hf, hg, List.cons_append, find_in_cons, hlook]
  refine ⟨?_, ?_, ?_, ?_, ?_⟩
  · simp only [visit_stmt, def_body_state]
    cases visit_stmt pfx function_body_ _ <;> rfl
  · intro n
    simp only [environment_stack.top_frame, hf]
    exact hlook n
  · intro p hp hd
    exact def_params_loop_reports pfx params_ _ p hp hd
  · intro t v hv
    have hty : v.object_type_ ≠ object_type.FUNCTION := by
      unfold expected_param_binding at hv
      split at hv
      · cases hv
      · cases hq : params_.find? (fun p => pfx p.name_.token_ == pfx t.token_) with
        | none => simp [hq] at hv
        | some q =>
          simp only [hq, Option.map_some', Option.some.injEq] at hv
          rw [← hv]
          exact convert_data_type_ne_function _
    simp [visit_expr, environment_stack.is_defined, environment_stack.get, hfind, hv, hty]
  · intro t hd
    have hnone : expected_param_binding pfx params_ tc (pfx t.token_) = none := by
      simp [expected_param_binding, hd]
    simp only [environment_stack.get, hfind, hnone]

/-- C12 amended at `def f(x: int) -> int { let y: int = x }` with `x` a global
String variable. -/
theorem def_stmt_parameter_bindings_witness :
    expected_param_binding canonical_name [⟨word "x", ⟨word "int"⟩⟩] shadow_state "yy__x" =
      none ∧
    expected_param_binding canonical_name [⟨word "x", ⟨word "int"⟩⟩] type_checker.init
      "yy__x" = some ⟨object_type.INTEGER, ""⟩ ∧
    (∀ p ∈ [(⟨word "x", ⟨word "int"⟩⟩ : parameter)],
      shadow_state.scope_.is_defined (canonical_name p.name_.token_) = true →
      (⟨"Parameter shadows outer scope name.", some p.name_⟩ : parsing_error) ∈
        (def_body_state canonical_name (word "f") [⟨word "x", ⟨word "int"⟩⟩]
          shadow_state).errors_) :=
  ⟨by decide, by decide,
    (def_stmt_parameter_bindings canonical_name (word "f") [⟨word "x", ⟨word "int"⟩⟩]
      (.pass_stmt (word "pass")) ⟨word "int"⟩ shadow_state).2.2.1⟩

/-! ## Literals and type names -/

/-- C13: for every literal token, the literal handler returns with exactly
one value pushed and no diagnostic; the value's type is String for string and
triple-quoted-string tokens, Bool for the true and false keywords, Integer for
binary, octal, decimal and hexadecimal integer tokens, Double for floating
tokens, and None for every other category. -/
theorem literal_table (pfx : String → String) (literal_token_ : token) (tc : type_checker) :
    visit_expr pfx (.literal_expr literal_token_) tc =
        some (tc.push ⟨expected_literal_type literal_token_.type_, ""⟩) ∧
      (tc.push ⟨expected_literal_type literal_token_.type_, ""⟩).errors_ = tc.errors_ ∧
      (tc.push ⟨expected_literal_type literal_token_.type_, ""⟩).object_stack_ =
        ⟨expected_literal_type literal_token_.type_, ""⟩ :: tc.object_stack_ ∧
      (∀ n, expected_literal_type (token_type.OTHER n) = object_type.NONE_OBJ) ∧
      (∀ t, t ≠ token_type.STRING → t ≠ token_type.THREE_QUOTE_STRING →
        t ≠ token_type.KEYWORD_TRUE → t ≠ token_type.KEYWORD_FALSE →
        t ≠ token_type.INTEGER_BIN → t ≠ token_type.INTEGER_OCT →
        t ≠ token_type.INTEGER_DECIMAL → t ≠ token_type.INTEGER_HEX →
        t ≠ token_type.FLOAT_NUMBER → expected_literal_type t = object_type.NONE_OBJ) := by
  refine ⟨?_, rfl, rfl, fun _ => rfl, ?_⟩
  · simp only [visit_expr, literal_object_type_eq]
  · intro t h1 h2 h3 h4 h5 h6 h7 h8 h9
    cases t <;> simp_all [expected_literal_type]

/-- C14: `convert_data_type` returns String exactly for "str", Integer
exactly for "int" and "i32", Double exactly for "float", None exactly for
every other spelling, "bool" among them, and never Bool or Function. -/
theorem convert_data_type_table (basic_dt : token) :
    (convert_data_type basic_dt = object_type.STRING ↔ basic_dt.token_ = "str") ∧
    (convert_data_type basic_dt = object_type.INTEGER ↔
      (basic_dt.token_ = "int" ∨ basic_dt.token_ = "i32")) ∧
    (convert_data_type basic_dt = object_type.DOUBLE ↔ basic_dt.token_ = "float") ∧
    (convert_data_type basic_dt = object_type.NONE_OBJ ↔
      (basic_dt.token_ ≠ "str" ∧ basic_dt.token_ ≠ "int" ∧ basic_dt.token_ ≠ "i32" ∧
        basic_dt.token_ ≠ "float")) ∧
    convert_data_type basic_dt ≠ object_type.BOOL ∧
    convert_data_type basic_dt ≠ object_type.FUNCTION ∧
    convert_data_type (word "bool") = object_type.NONE_OBJ := by
  have hbool : convert_data_type (word "bool") = object_type.NONE_OBJ := by decide
  refine ⟨?_, ?_, ?_, ?_, ?_, ?_, hbool⟩ <;>
    (unfold convert_data_type
     by_cases h1 : basic_dt.token_ = "str"
     · simp [h1]
     · by_cases h2 : basic_dt.token_ = "int"
       · simp [h1, h2]
       · by_cases h3 : basic_dt.token_ = "i32"
         · simp [h1, h2, h3]
         · by_cases h4 : basic_dt.token_ = "float"
           · simp [h1, h2, h3, h4]
           · simp [h1, h2, h3, h4])

/-! ## The operand stack -/

/-- C15 as stated fails: visiting the assignment `x = 1`, with `x` an
Integer variable, returns the state it started from; the operand stack is not
one longer. -/
theorem assignment_pushes_nothing :
    visit_expr canonical_name (.assign_expr (word "x") (word "=") literal_one) assign_state =
      some assign_state ∧
    assign_state.object_stack_.length = 0 := by
  decide

/-- C15 amended: an expression built from literal, grouping, unary, binary,
variable reference and function call nodes only leaves, whenever its visit
returns, exactly one new value on top of the operand stack it started with,
diagnostics or not; an assignment with such a right-hand side leaves the
operand stack as it was.  Under the signature invariant the visit returns. -/
theorem plain_expr_pushes_one (pfx : String → String) (e : expr) (tc : type_checker)
    (hplain : e.plain = true) :
    (∀ tc', visit_expr pfx e tc = some tc' →
      (∃ v, tc'.object_stack_ = v :: tc.object_stack_) ∧
        tc'.object_stack_.length = tc.object_stack_.length + 1) ∧
    (∀ name_ opr_ tc', visit_expr pfx (.assign_expr name_ opr_ e) tc = some tc' →
      tc'.object_stack_ = tc.object_stack_) ∧
    (signature_invariant tc → ∃ tc', visit_expr pfx e tc = some tc') := by
  refine ⟨?_, ?_, ?_⟩
  · intro tc' h
    obtain ⟨v, hv⟩ := visit_expr_plain pfx e tc tc' hplain h
    exact ⟨⟨v, hv⟩, by rw [hv]; rfl⟩
  · intro name_ opr_ tc' h
    simp only [visit_expr] at h
    cases hr : visit_expr pfx e tc with
    | none => rw [hr] at h; simp at h
    | some tc1 =>
      rw [hr] at h
      simp only at h
      obtain ⟨v, hv⟩ := visit_expr_plain pfx e tc tc1 hplain hr
      have hs := pop_of_cons tc1 v _ hv
      split at h
      · cases h; exact hs
      · split at h
        · cases h; exact hs
        · cases h; exact hs
  · intro hinv
    obtain ⟨tc', h, _⟩ := visit_expr_invariant pfx e tc hinv
    exact ⟨tc', h⟩

/-- C15 amended at the call `g(1)` for `g(a: int) -> int`. -/
theorem plain_expr_pushes_one_witness :
    (call_g_one.plain = true ∧
      visit_expr canonical_name call_g_one call_state =
        some (call_state.push ⟨object_type.INTEGER, ""⟩)) ∧
    ((∀ tc', visit_expr canonical_name call_g_one call_state = some tc' →
      (∃ v, tc'.object_stack_ = v :: call_state.object_stack_) ∧
        tc'.object_stack_.length = call_state.object_stack_.length + 1) ∧
    (∀ name_ opr_ tc',
      visit_expr canonical_name (.assign_expr name_ opr_ call_g_one) call_state = some tc' →
      tc'.object_stack_ = call_state.object_stack_) ∧
    (signature_invariant call_state →
      ∃ tc', visit_expr canonical_name call_g_one call_state = some tc')) :=
  ⟨⟨by decide, by decide⟩,
    plain_expr_pushes_one canonical_name call_g_one call_state (by decide)⟩

/-- C16: whenever the visit of a statement returns, the scope-stack depth,
the statement-kind stack and the function-name stack are what they were
before, also for if, while and function definitions whose bodies report
diagnostics.  Under the signature invariant the visit returns. -/
theorem statement_restores_stacks (pfx : String → String) (s : stmt) (tc : type_checker) :
    (∀ tc', visit_stmt pfx s tc = some tc' →
      tc'.scope_.frames_.length = tc.scope_.frames_.length ∧
        tc'.scope_type_stack_ = tc.scope_type_stack_ ∧
        tc'.function_name_stack_ = tc.function_name_stack_) ∧
    (signature_invariant tc → ∃ tc', visit_stmt pfx s tc = some tc') := by
  constructor
  · intro tc' h
    obtain ⟨h1, h2, h3, _⟩ := visit_stmt_balanced pfx s tc tc' h
    exact ⟨h1, h2, h3⟩
  · intro hinv
    obtain ⟨tc', h, _⟩ := visit_stmt_invariant pfx s tc hinv
    exact ⟨tc', h⟩

/-- C16 at `def f(x: int) -> int { let y: int = x }` with `x` a global String
variable, whose parameter list and body both report diagnostics. -/
theorem statement_restores_stacks_witness :
    (visit_stmt canonical_name shadow_def shadow_state).map
        (fun tc => (tc.errors_.length, tc.scope_.frames_.length, tc.scope_type_stack_,
          tc.function_name_stack_)) = some (2, 0, [], []) ∧
    ((∀ tc', visit_stmt canonical_name shadow_def shadow_state = some tc' →
      tc'.scope_.frames_.length = shadow_state.scope_.frames_.length ∧
        tc'.scope_type_stack_ = shadow_state.scope_type_stack_ ∧
        tc'.function_name_stack_ = shadow_state.function_name_stack_) ∧
    (signature_invariant shadow_state →
      ∃ tc', visit_stmt canonical_name shadow_def shadow_state = some tc')) :=
  ⟨by decide, statement_restores_stacks canonical_name shadow_def shadow_state⟩

/-- C17 (code defect): the expression statement and the defer statement
never pop.  Visiting `g(1);` or `defer g(1)` with an empty operand stack
leaves the Integer result of the call on the stack, where `print g(1)` leaves
the stack empty. -/
theorem expression_stmt_keeps_result :
    (visit_stmt canonical_name (.expression_stmt call_g_one) call_state).map
        (fun tc => tc.object_stack_) = some [⟨object_type.INTEGER, ""⟩] ∧
    (visit_stmt canonical_name (.defer_stmt (word "defer") call_g_one) call_state).map
        (fun tc => tc.object_stack_) = some [⟨object_type.INTEGER, ""⟩] ∧
    (visit_stmt canonical_name (.print_stmt (word "print") call_g_one) call_state).map
        (fun tc => tc.object_stack_) = some [] ∧
    call_state.object_stack_ = [] := by
  decide

/-! ## Assignment -/

/-- C18: an assignment whose right-hand visit returns does return, with
the scope table identical to the scope table before the visit, whether it
reports "This is not defined", "Cannot assign between 2 different data
types." or nothing: no stored type is updated and no binding is created. -/
theorem assign_keeps_scope (pfx : String → String) (name_ opr_ : token) (right_ : expr)
    (tc tc1 : type_checker) (hr : visit_expr pfx right_ tc = some tc1) :
    ∃ tc', visit_expr pfx (.assign_expr name_ opr_ right_) tc = some tc' ∧
      tc'.scope_ = tc.scope_ ∧
      tc'.errors_ = tc1.errors_ ++
        (if tc.scope_.is_defined (pfx name_.token_) = false then
          [⟨"This is not defined", some name_⟩]
        else if tc1.pop.1.object_type_ ≠ (tc.scope_.get (pfx name_.token_)).object_type_ then
          [⟨"Cannot assign between 2 different data types.", some name_⟩]
        else []) := by
  have hctx := visit_expr_same_context pfx right_ tc tc1 hr
  have hs : tc1.pop.2.scope_ = tc.scope_ := by rw [pop_scope]; exact hctx.1
  simp only [visit_expr, hr, hs]
  by_cases hd : tc.scope_.is_defined (pfx name_.token_) = false
  · exact ⟨tc1.pop.2.error name_ "This is not defined", by simp only [hd, if_true],
      by simp [hctx.1], by simp [hd]⟩
  · have hd' : tc.scope_.is_defined (pfx name_.token_) = true := by simpa using hd
    by_cases ht : tc1.pop.1.object_type_ = (tc.scope_.get (pfx name_.token_)).object_type_
    · exact ⟨tc1.pop.2, by simp [hd', ht], hs, by simp [hd', ht]⟩
    · exact ⟨tc1.pop.2.error name_ "Cannot assign between 2 different data types.",
        by simp [hd', ht], by simp [hctx.1], by simp [hd', ht]⟩

/-- C18 at `x = 1` with `x` an Integer variable. -/
theorem assign_keeps_scope_witness :
    visit_expr canonical_name literal_one assign_state =
      some (assign_state.push ⟨object_type.INTEGER, ""⟩) ∧
    ∃ tc', visit_expr canonical_name (.assign_expr (word "x") (word "=") literal_one)
        assign_state = some tc' ∧
      tc'.scope_ = assign_state.scope_ ∧
      tc'.errors_ = (assign_state.push ⟨object_type.INTEGER, ""⟩).errors_ ++
        (if assign_state.scope_.is_defined (canonical_name (word "x").token_) = false then
          [⟨"This is not defined", some (word "x")⟩]
        else if (assign_state.push ⟨object_type.INTEGER, ""⟩).pop.1.object_type_ ≠
            (assign_state.scope_.get (canonical_name (word "x").token_)).object_type_ then
          [⟨"Cannot assign between 2 different data types.", some (word "x")⟩]
        else []) :=
  ⟨by decide,
    assign_keeps_scope canonical_name (word "x") (word "=") literal_one assign_state
      (assign_state.push ⟨object_type.INTEGER, ""⟩) (by decide)⟩

/-! ## Signature lookup -/

/-- C19: from a state in which every Function-typed scope binding and
every Function-typed operand-stack value names a function of the signature
table, every expression and every statement visit returns (no signature
lookup anywhere in the walk misses) and ends in such a state again; a
Function-typed callee found by the call handler names a function the table
holds.  The state `check` returns on a fresh checker is such a state. -/
theorem signature_lookup_never_misses (pfx : String → String) (tc : type_checker)
    (hinv : signature_invariant tc) :
    (∀ e, ∃ tc', visit_expr pfx e tc = some tc' ∧ signature_invariant tc') ∧
    (∀ s, ∃ tc', visit_stmt pfx s tc = some tc' ∧ signature_invariant tc') ∧
    (∀ callee tc1, visit_expr pfx callee tc = some tc1 →
      tc1.pop.1.object_type_ = object_type.FUNCTION →
      ∀ args arguments tc3, visit_args pfx args tc1.pop.2 = some (arguments, tc3) →
        ∃ funct, tc3.functions_.get tc1.pop.1.string_val_ = some funct) ∧
    (∀ statements, ∃ tc0, check pfx statements type_checker.init = some tc0 ∧
      signature_invariant tc0) := by
  refine ⟨?_, ?_, ?_, ?_⟩
  · intro e
    obtain ⟨tc', h, hi, _⟩ := visit_expr_invariant pfx e tc hinv
    exact ⟨tc', h, hi⟩
  · intro s
    obtain ⟨tc', h, hi, _⟩ := visit_stmt_invariant pfx s tc hinv
    exact ⟨tc', h, hi⟩
  · intro callee tc1 h1 hfn args arguments tc3 h3
    obtain ⟨tc1', h1', hi1, hf1⟩ := visit_expr_invariant pfx callee tc hinv
    rw [h1] at h1'
    cases h1'
    have hc3 := visit_args_same_context pfx args _ _ _ h3
    have hk := (stack_known_pop tc1 hi1.2).1 hfn
    rw [hc3.2.1, pop_functions]
    exact get_of_has _ _ hk
  · intro statements
    exact check_establishes_invariant pfx statements

/-- C19 at the state in which `f` and `g` are registered. -/
theorem signature_lookup_never_misses_witness :
    signature_invariant call_state ∧
    ((∀ e, ∃ tc', visit_expr canonical_name e call_state = some tc' ∧
        signature_invariant tc') ∧
    (∀ s, ∃ tc', visit_stmt canonical_name s call_state = some tc' ∧
        signature_invariant tc') ∧
    (∀ callee tc1, visit_expr canonical_name callee call_state = some tc1 →
      tc1.pop.1.object_type_ = object_type.FUNCTION →
      ∀ args arguments tc3, visit_args canonical_name args tc1.pop.2 = some (arguments, tc3) →
        ∃ funct, tc3.functions_.get tc1.pop.1.string_val_ = some funct) ∧
    (∀ statements, ∃ tc0, check canonical_name statements type_checker.init = some tc0 ∧
      signature_invariant tc0)) :=
  ⟨by decide, signature_lookup_never_misses canonical_name call_state (by decide)⟩

/-! ## Relational conditions -/

/-- C20: an if or while statement whose condition is a binary expression
with operator `>`, `>=`, `<` or `<=` appends, whenever its visit returns,
"Unsupported operation" for the comparison or the condition diagnostic of the
statement.  Under the signature invariant the visit returns. -/
theorem relational_condition_rejected (pfx : String → String) (keyword_ opr_ : token)
    (left_ right_ : expr) (body_ : stmt) (else_branch_ : Option stmt) (tc : type_checker)
    (hrel : opr_.type_ = token_type.GREAT ∨ opr_.type_ = token_type.GREAT_EQ ∨
      opr_.type_ = token_type.LESS ∨ opr_.type_ = token_type.LESS_EQ) :
    (∀ tc', visit_stmt pfx
        (.if_stmt keyword_ (.binary_expr left_ opr_ right_) body_ else_branch_) tc = some tc' →
      ∃ added, tc'.errors_ = tc.errors_ ++ added ∧
        ((⟨"Unsupported operation", some opr_⟩ : parsing_error) ∈ added ∨
          (⟨"Invalid boolean expression used", some keyword_⟩ : parsing_error) ∈ added)) ∧
    (∀ tc', visit_stmt pfx
        (.while_stmt keyword_ (.binary_expr left_ opr_ right_) body_) tc = some tc' →
      ∃ added, tc'.errors_ = tc.errors_ ++ added ∧
        ((⟨"Unsupported operation", some opr_⟩ : parsing_error) ∈ added ∨
          (⟨"While statement expression need to be a boolean", some keyword_⟩ :
            parsing_error) ∈ added)) ∧
    (signature_invariant tc →
      (∃ tc', visit_stmt pfx
        (.if_stmt keyword_ (.binary_expr left_ opr_ right_) body_ else_branch_) tc = some tc') ∧
      (∃ tc', visit_stmt pfx
        (.while_stmt keyword_ (.binary_expr left_ opr_ right_) body_) tc = some tc')) := by
  refine ⟨?_, ?_, ?_⟩
  · intro tc' h
    simp only [visit_stmt] at h
    cases hc : visit_expr pfx (.binary_expr left_ opr_ right_) tc with
    | none => rw [hc] at h; simp at h
    | some tcb =>
      rw [hc] at h
      simp only at h
      obtain ⟨a0, ha0, hor⟩ := relational_result pfx left_ right_ opr_ tc tcb hrel hc
      rw [pop_errors] at ha0
      have hX : ∃ a1, (if tcb.pop.1.object_type_ ≠ object_type.BOOL then
          tcb.pop.2.error keyword_ "Invalid boolean expression used" else tcb.pop.2).errors_ =
          tc.errors_ ++ a1 ∧
          ((⟨"Unsupported operation", some opr_⟩ : parsing_error) ∈ a1 ∨
            (⟨"Invalid boolean expression used", some keyword_⟩ : parsing_error) ∈ a1) := by
        by_cases hb : tcb.pop.1.object_type_ = object_type.BOOL
        · rcases hor with hor | hor
          · exact ⟨a0, by simp [hb, ha0], Or.inl hor⟩
          · exact absurd hb hor
        · exact ⟨a0 ++ [⟨"Invalid boolean expression used", some keyword_⟩],
            by simp [hb, ha0], Or.inr (by simp)⟩
      generalize (if tcb.pop.1.object_type_ ≠ object_type.BOOL then
        tcb.pop.2.error keyword_ "Invalid boolean expression used" else tcb.pop.2) = X
        at h hX
      obtain ⟨a1, ha1, hor1⟩ := hX
      cases hbr : visit_stmt pfx body_ X.scope_push with
      | none => rw [hbr] at h; simp at h
      | some tc2 =>
        rw [hbr] at h
        simp only at h
        obtain ⟨a2, ha2⟩ := visit_stmt_extends pfx body_ _ tc2 hbr
        obtain ⟨a3, ha3⟩ := visit_else_extends pfx else_branch_ _ tc' h
        refine ⟨a1 ++ a2 ++ a3, ?_, ?_⟩
        · rw [ha3]
          show tc2.errors_ ++ a3 = _
          rw [ha2]
          show X.errors_ ++ a2 ++ a3 = _
          rw [ha1]
          simp only [List.append_assoc]
        · rcases hor1 with hor1 | hor1
          · exact Or.inl (by simp [hor1])
          · exact Or.inr (by simp [hor1])
  · intro tc' h
    simp only [visit_stmt] at h
    cases hc : visit_expr pfx (.binary_expr left_ opr_ right_) tc with
    | none => rw [hc] at h; simp at h
    | some tcb =>
      rw [hc] at h
      simp only at h
      obtain ⟨a0, ha0, hor⟩ := relational_result pfx left_ right_ opr_ tc tcb hrel hc
      rw [pop_errors] at ha0
      have hX : ∃ a1, (if tcb.pop.1.object_type_ ≠ object_type.BOOL then
          tcb.pop.2.error keyword_ "While statement expression need to be a boolean"
          else tcb.pop.2).errors_ = tc.errors_ ++ a1 ∧
          ((⟨"Unsupported operation", some opr_⟩ : parsing_error) ∈ a1 ∨
            (⟨"While statement expression need to be a boolean", some keyword_⟩ :
              parsing_error) ∈ a1) := by
        by_cases hb : tcb.pop.1.object_type_ = object_type.BOOL
        · rcases hor with hor | hor
          · exact ⟨a0, by simp [hb, ha0], Or.inl hor⟩
          · exact absurd hb hor
        · exact ⟨a0 ++ [⟨"While statement expression need to be a boolean", some keyword_⟩],
            by simp [hb, ha0], Or.inr (by simp)⟩
      generalize (if tcb.pop.1.object_type_ ≠ object_type.BOOL then
        tcb.pop.2.error keyword_ "While statement expression need to be a boolean"
        else tcb.pop.2) = X at h hX
      obtain ⟨a1, ha1, hor1⟩ := hX
      cases hbr : visit_stmt pfx body_ (X.push_scope_type ast_type.STMT_WHILE).scope_push with
      | none => rw [hbr] at h; simp at h
      | some tc2 =>
        rw [hbr] at h
        simp only [Option.some.injEq] at h
        subst h
        obtain ⟨a2, ha2⟩ := visit_stmt_extends pfx body_ _ tc2 hbr
        refine ⟨a1 ++ a2, ?_, ?_⟩
        · show tc2.errors_ = _
          rw [ha2]
          show X.errors_ ++ a2 = _
          rw [ha1, List.append_assoc]
        · rcases hor1 with hor1 | hor1
          · exact Or.inl (by simp [hor1])
          · exact Or.inr (by simp [hor1])
  · intro hinv
    obtain ⟨t1, h1, _⟩ := visit_stmt_invariant pfx
      (.if_stmt keyword_ (.binary_expr left_ opr_ right_) body_ else_branch_) tc hinv
    obtain ⟨t2, h2, _⟩ := visit_stmt_invariant pfx
      (.while_stmt keyword_ (.binary_expr left_ opr_ right_) body_) tc hinv
    exact ⟨⟨t1, h1⟩, ⟨t2, h2⟩⟩

/-- C20 at `if 1 < 2 { pass }` on a fresh checker. -/
theorem relational_condition_rejected_witness :
    ((tok "<" token_type.LESS).type_ = token_type.GREAT ∨
      (tok "<" token_type.LESS).type_ = token_type.GREAT_EQ ∨
      (tok "<" token_type.LESS).type_ = token_type.LESS ∨
      (tok "<" token_type.LESS).type_ = token_type.LESS_EQ) ∧
    (visit_stmt canonical_name if_less type_checker.init).map (fun tc => tc.errors_) =
      some [⟨"Invalid boolean expression used", some (word "if")⟩] ∧
    (∀ tc', visit_stmt canonical_name
        (.if_stmt (word "if") (.binary_expr literal_one (tok "<" token_type.LESS) literal_two)
          (.pass_stmt (word "pass")) none) type_checker.init = some tc' →
      ∃ added, tc'.errors_ = type_checker.init.errors_ ++ added ∧
        ((⟨"Unsupported operation", some (tok "<" token_type.LESS)⟩ : parsing_error) ∈ added ∨
          (⟨"Invalid boolean expression used", some (word "if")⟩ : parsing_error) ∈ added)) :=
  ⟨Or.inr (Or.inr (Or.inl rfl)), by decide,
    (relational_condition_rejected canonical_name (word "if") (tok "<" token_type.LESS)
      literal_one literal_two (.pass_stmt (word "pass")) none type_checker.init
      (Or.inr (Or.inr (Or.inl rfl)))).1⟩

end yaksha
